import Mathlib

/-!
Verification development for the hierarchical allocator in
src/repackages/stb_alloc.h (stb_alloc, extracted from stb.h).

The C code is embedded shallowly.  Machine pointers become natural numbers
(addresses); NULL becomes `none` of `Option Nat`; the process heap becomes an
association list from addresses to structured node records; the low-bit tag
stored in the pointer sized word immediately before each user pointer becomes
a per-kind discriminant, except for header-free raw chunk slices, whose
adjacent word is arbitrary memory and is therefore carried explicitly in the
model.  System allocator results (fresh addresses, or out of memory) are
supplied by explicit oracle arguments.  Executions the C language leaves
undefined (dereferencing NULL, type-confused header writes, realloc on a
pointer that is not a block base) are modelled as `none`.
-/

set_option maxHeartbeats 1000000

namespace StbAlloc

/-- STB_ALLOC_ALIGNMENT, stb_alloc.h line 87 (default for the x64 build). -/
def STB_ALLOC_ALIGNMENT : Int := 32

/-- STB_ALLOC_CHUNK_SZ = UINT16_MAX + 1, line 91. -/
def STB_ALLOC_CHUNK_SZ : Int := 65536

/-- sizeof(stb__chunk) on the x64 target: one pointer plus two ints. -/
def chunkHeaderSize : Int := 16

/-- Reinterpretation of a size_t value through a cast to a signed 32 bit int,
for the (int)size casts at lines 628 and 641. -/
def int32 (n : Nat) : Int :=
  let m : Nat := n % 2 ^ 32
  if m < 2 ^ 31 then (m : Int) else (m : Int) - 2 ^ 32

/-- stb__chunk (lines 154-158).  The intrusive next pointer becomes list
structure.  `id` records the address of the system block (its identity, used
when the cascade frees it), `base` the address of the carving area
((char*)(c + 1)), and `csize` the chunk_size value it was created with; these
are bookkeeping the C keeps implicitly in the pointer values. -/
structure stb__chunk where
  id : Nat
  base : Nat
  csize : Int
  data_left : Int
  alloc : Nat
deriving DecidableEq

/-- stb__try_chunk (lines 359-393).  Carves from the high end down:
start_offset = data_left - size, retreat by the misalignment of the candidate
address (iq & (align-1), written as emod since align is a power of two and
the C value is a two's complement int64), retreat by pre_align, and carve only
if the resulting offset is still nonnegative.  On success the chunk's
data_left becomes the new start offset and the returned pointer is
memblock + start_offset. -/
def stb__try_chunk (c : stb__chunk) (size align pre_align : Int) :
    Option (stb__chunk × Nat) :=
  let start_offset0 : Int := c.data_left - size
  let iq : Int := (c.base : Int) + start_offset0
  let start_offset1 : Int := start_offset0 - iq.emod align
  let start_offset : Int := start_offset1 - pre_align
  if 0 ≤ start_offset then
    some ({ c with data_left := start_offset }, ((c.base : Int) + start_offset).toNat)
  else
    none

/-- stb__sort_chunks (lines 395-414): of the first two chunks, put the chunk
with more data left first; lists shorter than two are returned unchanged, and
when the first chunk already has strictly more data left nothing happens. -/
def stb__sort_chunks (cs : List stb__chunk) : List stb__chunk :=
  match cs with
  | [] => []
  | [c] => [c]
  | c :: d :: rest => if d.data_left < c.data_left then c :: d :: rest else d :: c :: rest

/-- Result of a chunk-arena allocation: a carved pointer together with the
updated chunk list and the id of the chunk carved from, an out-of-memory
outcome (which still reports the possibly reordered chunk list), or `stuck`
when the malloc oracle ran out of entries (the model cannot follow the C loop
further). -/
inductive CResult where
  | ok (cs : List stb__chunk) (p : Nat) (cid : Nat)
  | oom (cs : List stb__chunk)
  | stuck
deriving DecidableEq

/-- The new-chunk loop of stb__alloc_chunk (lines 447-490).  Each iteration
consumes one oracle entry standing for one STB__ALLOC_MALLOC call: `none`
means the system allocator failed (the C returns NULL), `some m` a fresh
system block at address m.  The fresh chunk has data_left = chunk_size -
sizeof(stb__chunk); if the carve fails the block is freed again and the loop
retries with chunk_size grown by STB_ALLOC_ALIGNMENT + align.  On success the
chunk is linked in front (n->next = c; stb__setchunks(src, n)) with alloc = 1,
and if the request consumed the entire chunk the first two chunks are
re-sorted. -/
def stb__alloc_chunk_loop (oracle : List (Option Nat)) (cs : List stb__chunk)
    (size align pre_align chunk_size : Int) : CResult :=
  match oracle with
  | [] => .stuck
  | none :: _ => .oom cs
  | some m :: rest =>
    let n0 : stb__chunk := ⟨m, m + 16, chunk_size, chunk_size - chunkHeaderSize, 0⟩
    match stb__try_chunk n0 size align pre_align with
    | some (n1, p) =>
      let cs1 := { n1 with alloc := 1 } :: cs
      if size = chunk_size then .ok (stb__sort_chunks cs1) p m
      else .ok cs1 p m
    | none =>
      stb__alloc_chunk_loop rest cs size align pre_align
        (chunk_size + STB_ALLOC_ALIGNMENT + align)

/-- stb__alloc_chunk (lines 416-491).  When a first chunk exists and the
request fits the default chunk size, try the first chunk; on failure try the
second chunk (bumping the FIRST chunk's alloc counter, exactly as the C does
at line 434); on failure sort the first two chunks and fall through to the
new-chunk loop with chunk_size = max(STB_ALLOC_CHUNK_SZ, size). -/
def stb__alloc_chunk (oracle : List (Option Nat)) (cs : List stb__chunk)
    (size align pre_align : Int) : CResult :=
  let chunk_size0 : Int := if STB_ALLOC_CHUNK_SZ < size then size else STB_ALLOC_CHUNK_SZ
  match cs with
  | c :: rest =>
    if size ≤ STB_ALLOC_CHUNK_SZ then
      match stb__try_chunk c size align pre_align with
      | some (c1, p) => .ok ({ c1 with alloc := c1.alloc + 1 } :: rest) p c.id
      | none =>
        match rest with
        | d :: rest2 =>
          match stb__try_chunk d size align pre_align with
          | some (d1, p) => .ok ({ c with alloc := c.alloc + 1 } :: d1 :: rest2) p d.id
          | none =>
            stb__alloc_chunk_loop oracle (stb__sort_chunks (c :: d :: rest2))
              size align pre_align chunk_size0
        | [] => stb__alloc_chunk_loop oracle [c] size align pre_align chunk_size0
    else
      stb__alloc_chunk_loop oracle (c :: rest) size align pre_align chunk_size0
  | [] => stb__alloc_chunk_loop oracle [] size align pre_align chunk_size0

/-- A slot a prevn field can point at: the child field of an stb__alloc header
(&src->child) or the next field of a sibling header (&s->next).  Address 0 is
reserved for the static stb__alloc_global arena. -/
inductive Slot where
  | childOf (a : Nat)
  | nextOf (a : Nat)
deriving DecidableEq

/-- One live heap object.  `nochildren` and `salloc` mirror stb__nochildren
(lines 160-163) and stb__alloc (lines 165-170); `chunked` mirrors stb__chunked
(lines 172-174) and records which chunk it was carved from; `raw` is a bare
chunk slice with no header, carrying the (arbitrary) pointer sized word that
happens to precede it in memory, which is what stb__identify would read. -/
inductive Node where
  | nochildren (next : Option Nat) (prevn : Option Slot)
  | salloc (prevn : Option Slot) (child : Option Nat) (next : Option Nat)
      (chunks : List stb__chunk)
  | chunked (parent : Nat) (ownerChunk : Nat)
  | raw (tagWord : Nat) (ownerChunk : Nat)
deriving DecidableEq

/-- The global allocator state: the heap (an association list from user
pointer addresses to nodes) plus the two diagnostic counters
stb_alloc_count_alloc and stb_alloc_count_free (lines 135-136). -/
structure State where
  mem : List (Nat × Node)
  countAlloc : Nat
  countFree : Nat
deriving DecidableEq

/-- The initial state: only the static stb__alloc_global arena
{ NULL, NULL, NULL, STB__ENCODE(NULL, STB__CHUNKS) } (lines 202-203), placed
at the reserved address 0, and both counters zero. -/
def initState : State := ⟨[(0, .salloc none none none [])], 0, 0⟩

/-- Association list lookup (first, and with well-formed states only, match). -/
def lookupA (m : List (Nat × Node)) (a : Nat) : Option Node :=
  match m with
  | [] => none
  | e :: t => if e.1 = a then some e.2 else lookupA t a

/-- Association list update of an existing key, identity if the key is absent. -/
def updA (m : List (Nat × Node)) (a : Nat) (n : Node) : List (Nat × Node) :=
  match m with
  | [] => []
  | e :: t => if e.1 = a then (a, n) :: updA t a n else e :: updA t a n

/-- Association list erasure of a key. -/
def eraseA (m : List (Nat × Node)) (a : Nat) : List (Nat × Node) :=
  match m with
  | [] => []
  | e :: t => if e.1 = a then eraseA t a else e :: eraseA t a

def getNode (s : State) (a : Nat) : Option Node := lookupA s.mem a

def setNode (s : State) (a : Nat) (n : Node) : State := { s with mem := updA s.mem a n }

def eraseNode (s : State) (a : Nat) : State := { s with mem := eraseA s.mem a }

def pushNode (s : State) (a : Nat) (n : Node) : State := { s with mem := (a, n) :: s.mem }

def incAlloc (s : State) : State := { s with countAlloc := s.countAlloc + 1 }

def incFree (s : State) : State := { s with countFree := s.countFree + 1 }

def decFree (s : State) : State := { s with countFree := s.countFree - 1 }

def bumpFree (s : State) (k : Nat) : State := { s with countFree := s.countFree + k }

/-- The low two bits of the word read by q[-1] & 3 when q is just a number:
stb__identify on raw memory. -/
def stb__identify_word (w : Nat) : Nat := w % 4

/-- stb__identify (lines 205-210): read the pointer sized word immediately
before p and mask its low two bits.  The header layouts guarantee the value:
the field before an stb__nochildren user pointer is prevn, an aligned plain
pointer, so the bits are 0 (STB__nochildren); before an stb__chunked pointer
it is parent encoded with +1 (STB__chunked); before an stb__alloc pointer it
is chunks encoded with +2 (STB__alloc).  A raw chunk slice has no header, so
the word read is whatever the adjacent memory holds; the model keeps that word
inside the raw node.  Reading before an unmapped pointer is undefined. -/
def stb__identify (s : State) (p : Nat) : Option Nat :=
  match getNode s p with
  | some (.nochildren _ _) => some 0
  | some (.chunked _ _) => some 1
  | some (.salloc _ _ _ _) => some 2
  | some (.raw w _) => some (stb__identify_word w)
  | none => none

/-- Read the prevn field through stb__prevn (lines 212-222).  The C
dispatches on the tag: STB__alloc headers and everything else, which it
reinterprets as stb__nochildren; writing through that reinterpretation on a
chunked or raw object would clobber non-prevn memory, so the model leaves
those cases undefined. -/
def getPrevn (s : State) (p : Nat) : Option (Option Slot) :=
  match getNode s p with
  | some (.salloc pv _ _ _) => some pv
  | some (.nochildren _ pv) => some pv
  | _ => none

/-- Write the prevn field through stb__prevn (see getPrevn). -/
def setPrevnField (s : State) (p : Nat) (v : Option Slot) : Option State :=
  match getNode s p with
  | some (.salloc _ c nx cs) => some (setNode s p (.salloc v c nx cs))
  | some (.nochildren nx _) => some (setNode s p (.nochildren nx v))
  | _ => none

def getNext (s : State) (p : Nat) : Option (Option Nat) :=
  match getNode s p with
  | some (.salloc _ _ nx _) => some nx
  | some (.nochildren nx _) => some nx
  | _ => none

def getChild (s : State) (p : Nat) : Option (Option Nat) :=
  match getNode s p with
  | some (.salloc _ c _ _) => some c
  | _ => none

def getChunks (s : State) (p : Nat) : Option (List stb__chunk) :=
  match getNode s p with
  | some (.salloc _ _ _ cs) => some cs
  | _ => none

def setChunksOf (s : State) (p : Nat) (cl : List stb__chunk) : Option State :=
  match getNode s p with
  | some (.salloc pv c nx _) => some (setNode s p (.salloc pv c nx cl))
  | _ => none

/-- Store a pointer value through a slot (an assignment *slot = v in the C). -/
def writeSlot (s : State) (l : Slot) (v : Option Nat) : Option State :=
  match l with
  | .childOf a =>
    match getNode s a with
    | some (.salloc pv _ nx cs) => some (setNode s a (.salloc pv v nx cs))
    | _ => none
  | .nextOf a =>
    match getNode s a with
    | some (.salloc pv c _ cs) => some (setNode s a (.salloc pv c v cs))
    | some (.nochildren _ pv) => some (setNode s a (.nochildren v pv))
    | _ => none

/-- stb__get_context (lines 493-508): NULL resolves to the global arena;
a chunked context resolves to its parent arena; anything else is treated as
its own stb__alloc header. -/
def stb__get_context (s : State) (context : Option Nat) : Option Nat :=
  match context with
  | none => some 0
  | some c =>
    match stb__identify s c with
    | some 1 =>
      match getNode s c with
      | some (.chunked parent _) => some parent
      | _ => none
    | some _ => some c
    | none => none

/-- stb__insert_alloc (lines 510-519): s->prevn = &src->child;
s->next = src->child; src->child = s + 1; if (s->next)
*stb__prevn(s->next) = &s->next.  The writes happen in exactly this order. -/
def stb__insert_alloc (s : State) (src p : Nat) : Option State := do
  let s1 ← setPrevnField s p (some (.childOf src))
  let oldChild ← getChild s1 src
  let s2 ← writeSlot s1 (.nextOf p) oldChild
  let s3 ← writeSlot s2 (.childOf src) (some p)
  let nx ← getNext s3 p
  match nx with
  | some q => setPrevnField s3 q (some (.nextOf p))
  | none => some s3

/-- stb__insert_nochild (lines 521-530): textually the same insertion as
stb__insert_alloc, duplicated in the C only because of the header types. -/
def stb__insert_nochild (s : State) (src p : Nat) : Option State := do
  let s1 ← setPrevnField s p (some (.childOf src))
  let oldChild ← getChild s1 src
  let s2 ← writeSlot s1 (.nextOf p) oldChild
  let s3 ← writeSlot s2 (.childOf src) (some p)
  let nx ← getNext s3 p
  match nx with
  | some q => setPrevnField s3 q (some (.nextOf p))
  | none => some s3

/-- stb_lowbit8 (lines 532-546), table driven lowest-set-bit of the low 8
bits, -1 when they are all clear. -/
def stb_lowbit8 (n : Nat) : Int :=
  let lowbit4 : List Int := [-1, 0, 1, 0, 2, 0, 1, 0, 3, 0, 1, 0, 2, 0, 1, 0]
  let k := lowbit4.getD (n % 16) (-1)
  if 0 ≤ k then k
  else
    let k2 := lowbit4.getD (n / 16 % 16) (-1)
    if 0 ≤ k2 then k2 + 4 else k2

/-- stb_is_pow2 (lines 548-552): (n & (n - 1)) == 0. -/
def stb_is_pow2 (n : Nat) : Bool := n &&& (n - 1) == 0

/-- The alignment selection at the top of malloc_base (lines 566-593).
When align <= 0: propose 1 << stb_lowbit8((unsigned int)size); the C shift is
undefined for the -1 table result and on the x64 target yields a negative
value, which the following test normalizes to 4; a proposed 0 becomes 1 for
size 0 and 256 otherwise; a negative align then caps the proposal. -/
def stb__auto_align (size : Nat) (align : Int) : Int :=
  if align ≤ 0 then
    let k := stb_lowbit8 (size % 2 ^ 32)
    let ap : Int := if 0 ≤ k then 2 ^ k.toNat else -1
    let ap : Int := if ap < 0 then 4 else ap
    let ap : Int := if ap = 0 then (if size = 0 then 1 else 256) else ap
    if align < 0 ∧ -align < ap then -align else ap
  else align

/-- Result of malloc_base: a pointer plus the new state, a NULL return with
the state as the failed path left it, or `stuck` when the model cannot follow
the execution (assertion failure, type-confused write, exhausted oracle, or a
non-fresh oracle address, since the real system allocator returns fresh
memory). -/
inductive MRes where
  | ok (s : State) (p : Nat)
  | oom (s : State)
  | stuck
deriving DecidableEq

/-- malloc_base (lines 559-658).  `hdr` is the malloc oracle for the header
block of the unchunked kinds, `oracle` feeds the chunk loop, and `rawWord`
stands for the uninitialized memory content preceding a fresh raw slice.
Tags follow the C enum: 0 = STB__nochildren, 1 = STB__chunked,
2 = STB__alloc, 4 = STB__chunk_raw.  Every successful path increments the
allocation counter (line 656). -/
def malloc_base (s : State) (context : Option Nat) (size : Nat) (t : Nat)
    (align0 : Int) (hdr : Option Nat) (oracle : List (Option Nat))
    (rawWord : Nat) : MRes :=
  match stb__get_context s context with
  | none => .stuck
  | some src =>
    let align := stb__auto_align size align0
    if !stb_is_pow2 align.toNat then .stuck
    else
      let t := if t = 0 ∧ 8 < align then 2 else t
      match t with
      | 2 =>
        match hdr with
        | none => .oom s
        | some a =>
          if a = 0 ∨ (lookupA s.mem a).isSome then .stuck
          else
            let s1 := pushNode s a (.salloc none none none [])
            match stb__insert_alloc s1 src a with
            | none => .stuck
            | some s2 => .ok (incAlloc s2) a
      | 0 =>
        match hdr with
        | none => .oom s
        | some a =>
          if a = 0 ∨ (lookupA s.mem a).isSome then .stuck
          else
            let s1 := pushNode s a (.nochildren none none)
            match stb__insert_nochild s1 src a with
            | none => .stuck
            | some s2 => .ok (incAlloc s2) a
      | 4 =>
        match getChunks s src with
        | none => .stuck
        | some cl =>
          match stb__alloc_chunk oracle cl (int32 size) align 0 with
          | .stuck => .stuck
          | .oom cl' =>
            match setChunksOf s src cl' with
            | none => .stuck
            | some s1 => .oom s1
          | .ok cl' p cid =>
            match setChunksOf s src cl' with
            | none => .stuck
            | some s1 =>
              if p = 0 ∨ (lookupA s1.mem p).isSome then .stuck
              else .ok (incAlloc (pushNode s1 p (.raw rawWord cid))) p
      | 1 =>
        match getChunks s src with
        | none => .stuck
        | some cl =>
          let align := if align < 8 then 8 else align
          match stb__alloc_chunk oracle cl (int32 size) align 8 with
          | .stuck => .stuck
          | .oom cl' =>
            match setChunksOf s src cl' with
            | none => .stuck
            | some s1 => .oom s1
          | .ok cl' h cid =>
            match setChunksOf s src cl' with
            | none => .stuck
            | some s1 =>
              if h + 8 = 0 ∨ (lookupA s1.mem (h + 8)).isSome then .stuck
              else .ok (incAlloc (pushNode s1 (h + 8) (.chunked src cid))) (h + 8)
      | _ => .stuck

/-- stb_malloc_global (lines 660-664). -/
def stb_malloc_global (s : State) (size : Nat) (hdr : Option Nat)
    (oracle : List (Option Nat)) (rawWord : Nat) : MRes :=
  malloc_base s none size 2 (-STB_ALLOC_ALIGNMENT) hdr oracle rawWord

/-- stb_malloc (lines 666-670). -/
def stb_malloc (s : State) (context : Option Nat) (size : Nat) (hdr : Option Nat)
    (oracle : List (Option Nat)) (rawWord : Nat) : MRes :=
  malloc_base s context size 2 (-STB_ALLOC_ALIGNMENT) hdr oracle rawWord

/-- stb_malloc_nofree (lines 672-676). -/
def stb_malloc_nofree (s : State) (context : Option Nat) (size : Nat)
    (hdr : Option Nat) (oracle : List (Option Nat)) (rawWord : Nat) : MRes :=
  malloc_base s context size 1 (-STB_ALLOC_ALIGNMENT) hdr oracle rawWord

/-- stb_malloc_leaf (lines 678-682). -/
def stb_malloc_leaf (s : State) (context : Option Nat) (size : Nat)
    (hdr : Option Nat) (oracle : List (Option Nat)) (rawWord : Nat) : MRes :=
  malloc_base s context size 0 (-STB_ALLOC_ALIGNMENT) hdr oracle rawWord

/-- stb_malloc_raw (lines 684-688). -/
def stb_malloc_raw (s : State) (context : Option Nat) (size : Nat)
    (hdr : Option Nat) (oracle : List (Option Nat)) (rawWord : Nat) : MRes :=
  malloc_base s context size 4 (-STB_ALLOC_ALIGNMENT) hdr oracle rawWord

/-- stb_malloc_string (lines 690-694). -/
def stb_malloc_string (s : State) (context : Option Nat) (size : Nat)
    (hdr : Option Nat) (oracle : List (Option Nat)) (rawWord : Nat) : MRes :=
  malloc_base s context size 4 1 hdr oracle rawWord

/-- stb_malloc_is_valid (lines 341-357): NULL is invalid, otherwise switch on
stb__identify; the arms for STB__nochildren, STB__chunked, STB__alloc and
STB__chunk_raw return 1 and the default returns 0.  The argument w is the
pointer sized word immediately before p. -/
def stb_malloc_is_valid (p : Option Nat) (w : Nat) : Bool :=
  match p with
  | none => false
  | some _ =>
    match stb__identify_word w with
    | 0 => true
    | 1 => true
    | 2 => true
    | 4 => true
    | _ => false

/-- Observable deallocation events of a cascade free, in program order:
STB__ALLOC_FREE of a chunk block, or STB__ALLOC_FREE of a node header. -/
inductive Event where
  | freeChunk (id : Nat)
  | freeHeader (a : Nat)
deriving DecidableEq

/-- Which entries are carved out of one of the given chunks (their backing
memory vanishes when those chunks are freed). -/
def ownedBy (ids : List Nat) (e : Nat × Node) : Bool :=
  match e.2 with
  | .chunked _ oc => ids.contains oc
  | .raw _ oc => ids.contains oc
  | _ => false

/-- Remove every node whose backing chunk was just freed. -/
def eraseOwnedNodes (s : State) (ids : List Nat) : State :=
  { s with mem := s.mem.filter (fun e => !ownedBy ids e) }

/-- The validating step of the STB__alloc case of stb_free (lines 278-281):
stb__setchunks(s, NULL); s->prevn = NULL; s->next = NULL; the child pointer
is kept for the loop that follows. -/
def validateReset (s : State) (p : Nat) : Option State :=
  match getNode s p with
  | some (.salloc _ c _ _) => some (setNode s p (.salloc none c none []))
  | _ => none

mutual

/-- stb_free (lines 224-295).  NULL returns immediately; otherwise the free
counter is incremented and the tag dispatched: a chunked block is a no-op
(the counter is decremented back, lines 235-243); a nochildren block is
unlinked from its sibling chain and its header freed; an stb__alloc block is
unlinked, its chunks are freed first (crediting each chunk's alloc count to
the free counter, lines 265-276), its header fields are reset, its children
are freed by repeatedly freeing the head child, and finally its own header is
freed.  The C re-reads s->next and s->prevn where it re-reads them.  `fuel`
bounds the recursion; `none` is a fatal or undefined execution (the
assert(0) default arm, a NULL prevn dereference, a type-confused access) or
exhausted fuel.  The trace lists the system deallocations in order. -/
def stb_free_go : Nat → State → Option Nat → Option (State × List Event)
  | _, s, none => some (s, [])
  | 0, _, some _ => none
  | fuel + 1, s, some p =>
    let s0 := incFree s
    match stb__identify s0 p with
    | some 1 => some (decFree s0, [])
    | some 0 =>
      match getPrevn s0 p with
      | some (some pv) =>
        match getNext s0 p with
        | some nx0 =>
          match writeSlot s0 pv nx0 with
          | some s1 =>
            match getNext s1 p with
            | some (some q) =>
              match getPrevn s1 p with
              | some pv1 =>
                match setPrevnField s1 q pv1 with
                | some s2 => some (eraseNode s2 p, [.freeHeader p])
                | none => none
              | none => none
            | some none => some (eraseNode s1 p, [.freeHeader p])
            | none => none
          | none => none
        | none => none
      | _ => none
    | some 2 =>
      match getPrevn s0 p with
      | some (some pv) =>
        match getNext s0 p with
        | some nx0 =>
          match writeSlot s0 pv nx0 with
          | some s1 =>
            match (match getNext s1 p with
                   | some (some q) =>
                     match getPrevn s1 p with
                     | some pv1 => setPrevnField s1 q pv1
                     | none => none
                   | some none => some s1
                   | none => none) with
            | some s2 =>
              match getChunks s2 p with
              | some cs =>
                let s3 := bumpFree s2 ((cs.map (fun c => c.alloc)).sum)
                let s4 := eraseOwnedNodes s3 (cs.map (fun c => c.id))
                match validateReset s4 p with
                | some s5 =>
                  match stb_free_children fuel s5 p with
                  | some (s6, tr) =>
                    some (s6, cs.map (fun c => .freeChunk c.id) ++ tr)
                  | none => none
                | none => none
              | none => none
            | none => none
          | none => none
        | none => none
      | _ => none
    | _ => none

/-- The child loop of the STB__alloc case (lines 284-289) followed by the
final STB__ALLOC_FREE(s): while the child pointer is non NULL, free the head
child (whose unlink pops it off the chain), then free the own header. -/
def stb_free_children : Nat → State → Nat → Option (State × List Event)
  | 0, _, _ => none
  | fuel + 1, s, p =>
    match getChild s p with
    | some none => some (eraseNode s p, [.freeHeader p])
    | some (some q) =>
      match stb_free_go fuel s (some q) with
      | some (s1, tr1) =>
        match stb_free_children fuel s1 p with
        | some (s2, tr2) => some (s2, tr1 ++ tr2)
        | none => none
      | none => none
    | none => none

end

/-- stb_realloc (lines 696-749).  NULL grows from nothing via stb_malloc;
size 0 frees; otherwise the tag must be STB__alloc or STB__nochildren.  In
the STB__alloc branch the header block is passed to the system realloc
(oracle `rr`: none = failure, returning NULL with nothing mutated) and after
a move the three pointers into the old address are repaired: the slot prevn
points at gets the new user pointer, the next sibling's prevn is pointed at
the new next field, and the head child's prevn at the new child field.
Nothing else is touched: in particular the parent back-pointers of chunked
blocks carved from this node's chunks are left as they were.  The
STB__nochildren branch of the C (line 736) passes the USER pointer, not the
header base s, to the system realloc (and sizeof(s), a pointer size, instead
of sizeof(*s)); realloc on a pointer that was never returned by the
allocator has no defined behavior, so the model refuses that branch.
The move-and-repair sequence of the STB__alloc branch (lines 712-732) is the
helper stb__realloc_move below; stb_realloc dispatches to it. -/
def stb__realloc_move (s : State) (p a : Nat) : Option (State × Option Nat) :=
  if a = 0 ∨ (a ≠ p ∧ (lookupA s.mem a).isSome) then none
  else
    match getNode s p with
    | some (.salloc pv ch nx cs) =>
      let s1 := pushNode (eraseNode s p) a (.salloc pv ch nx cs)
      match pv with
      | none => none
      | some pvslot =>
        match writeSlot s1 pvslot (some a) with
        | some s2 =>
          match getNext s2 a with
          | some nx1 =>
            match (match nx1 with
                   | some q => setPrevnField s2 q (some (.nextOf a))
                   | none => some s2) with
            | some s3 =>
              match getChild s3 a with
              | some ch1 =>
                match (match ch1 with
                       | some cq => setPrevnField s3 cq (some (.childOf a))
                       | none => some s3) with
                | some s4 => some (s4, some a)
                | none => none
              | none => none
            | none => none
          | none => none
        | none => none
    | _ => none

/-- The ptr == NULL branch of stb_realloc (lines 701-703): grow from nothing
through stb_malloc. -/
def stb__realloc_null (s : State) (newsize : Nat) (hdr : Option Nat)
    (oracle : List (Option Nat)) (rawWord : Nat) : Option (State × Option Nat) :=
  match stb_malloc s none newsize hdr oracle rawWord with
  | .ok s' p => some (s', some p)
  | .oom s' => some (s', none)
  | .stuck => none

/-- The newsize == 0 branch of stb_realloc (lines 704-707): free and return
NULL. -/
def stb__realloc_zero (s : State) (freeFuel : Nat) (p : Nat) :
    Option (State × Option Nat) :=
  match stb_free_go freeFuel s (some p) with
  | some (s', _) => some (s', none)
  | none => none

def stb_realloc (s : State) (ptr : Option Nat) (newsize : Nat) (rr : Option Nat)
    (freeFuel : Nat) (hdr : Option Nat) (oracle : List (Option Nat))
    (rawWord : Nat) : Option (State × Option Nat) :=
  match ptr with
  | none => stb__realloc_null s newsize hdr oracle rawWord
  | some p =>
    if newsize = 0 then stb__realloc_zero s freeFuel p
    else
      match stb__identify s p with
      | some 2 =>
        match rr with
        | none => some (s, none)
        | some a => stb__realloc_move s p a
      | some 0 => none
      | _ => none

/-- stb_reassign (lines 765-794): resolve the new context, assert the tag is
STB__alloc or STB__nochildren (anything else is fatal), unlink from the old
sibling chain exactly as stb_free does, and insert under the new arena.  No
other check is performed. -/
def stb_reassign (s : State) (new_context : Option Nat) (ptr : Nat) : Option State :=
  match stb__get_context s new_context with
  | none => none
  | some src =>
    match stb__identify s ptr with
    | some 2 =>
      match getPrevn s ptr with
      | some (some pv) =>
        match getNext s ptr with
        | some nx0 =>
          match writeSlot s pv nx0 with
          | some s1 =>
            match getNext s1 ptr with
            | some (some q) =>
              match getPrevn s1 ptr with
              | some pv1 =>
                match setPrevnField s1 q pv1 with
                | some s2 => stb__insert_alloc s2 src ptr
                | none => none
              | none => none
            | some none => stb__insert_alloc s1 src ptr
            | none => none
          | none => none
        | none => none
      | _ => none
    | some 0 =>
      match getPrevn s ptr with
      | some (some pv) =>
        match getNext s ptr with
        | some nx0 =>
          match writeSlot s pv nx0 with
          | some s1 =>
            match getNext s1 ptr with
            | some (some q) =>
              match getPrevn s1 ptr with
              | some pv1 =>
                match setPrevnField s1 q pv1 with
                | some s2 => stb__insert_nochild s2 src ptr
                | none => none
              | none => none
            | some none => stb__insert_nochild s1 src ptr
            | none => none
          | none => none
        | none => none
      | _ => none
    | _ => none

/-- The sibling chain starting at a (follow next pointers), fuel bounded. -/
def stb__chain (fuel : Nat) (s : State) (a : Option Nat) : List Nat :=
  match fuel, a with
  | 0, _ => []
  | _, none => []
  | f + 1, some x =>
    x :: stb__chain f s (match getNext s x with
                         | some nx => nx
                         | none => none)

/-- target is a descendant of anc in the ownership graph: it appears on the
child chain of anc or is a descendant of one of those children. -/
def isDescendantB (fuel : Nat) (s : State) (anc target : Nat) : Bool :=
  match fuel with
  | 0 => false
  | f + 1 =>
    let kids := match getChild s anc with
                | some c => stb__chain f s c
                | none => []
    kids.contains target || kids.any (fun k => isDescendantB f s k target)

/-- One public allocator call, with its oracle inputs. -/
inductive Op where
  | alloc (context : Option Nat) (size : Nat) (t : Nat) (align : Int)
      (hdr : Option Nat) (oracle : List (Option Nat)) (rawWord : Nat)
  | free (p : Option Nat) (fuel : Nat)
deriving DecidableEq

/-- Execute one call.  Both the successful and the out-of-memory outcome of
an allocation are defined program behavior; `none` marks executions the model
refuses (fatal assertions, undefined behavior, exhausted fuel or oracle). -/
def stepOp (s : State) : Op → Option State
  | .alloc c sz t al h orc rw =>
    match malloc_base s c sz t al h orc rw with
    | .ok s' _ => some s'
    | .oom s' => some s'
    | .stuck => none
  | .free p fuel =>
    match stb_free_go fuel s p with
    | some (s', _) => some s'
    | none => none

/-- Execute a sequence of calls. -/
def runOps : List Op → State → Option State
  | [], s => some s
  | op :: t, s =>
    match stepOp s op with
    | some s' => runOps t s'
    | none => none

/-- The chunk-suballocation count a node contributes: the sum of the alloc
counters of its chunks. -/
def nodeChunkSum : Node → Nat
  | .salloc _ _ _ cs => (cs.map (fun c => c.alloc)).sum
  | _ => 0

/-- How many counted allocations one heap entry stands for: a header block
(except the static global arena at address 0) counts once, and every chunk
carve is counted through its chunk's alloc counter on the owning arena. -/
def entryLive (e : Nat × Node) : Nat :=
  if e.1 = 0 then nodeChunkSum e.2
  else
    match e.2 with
    | .nochildren _ _ => 1
    | .salloc _ _ _ cs => 1 + (cs.map (fun c => c.alloc)).sum
    | _ => 0

/-- The number of currently reachable allocations the counters should
account for. -/
def liveCount (s : State) : Nat := (s.mem.map entryLive).sum

/-- Read the pointer value currently stored in a slot. -/
def readSlot (s : State) (l : Slot) : Option (Option Nat) :=
  match l with
  | .childOf a => getChild s a
  | .nextOf a => getNext s a

/-- The header node a slot lives in. -/
def slotOwner : Slot → Nat
  | .childOf a => a
  | .nextOf a => a

/-- Repeated carving from one chunk: each request is (size, align, pre_align)
and every carve must succeed.  Besides the final chunk it returns, per carve
and in carve order, the occupied byte interval
[start offset, start offset + pre_align + size) inside the chunk data area. -/
def carveAll (c : stb__chunk) :
    List (Int × Int × Int) → Option (stb__chunk × List (Int × Int))
  | [] => some (c, [])
  | (size, align, pre) :: t =>
    match stb__try_chunk c size align pre with
    | some (c1, _) =>
      match carveAll c1 t with
      | some (c2, rs) => some (c2, (c1.data_left, c1.data_left + pre + size) :: rs)
      | none => none
    | none => none

def isChunkEvent : Event → Bool
  | .freeChunk _ => true
  | _ => false

def isHeaderEvent (a : Nat) : Event → Bool
  | .freeHeader b => b == a
  | _ => false

/-- The node fields that must never point at the reserved global address. -/
def nodeNoZeroB : Node → Bool
  | .salloc _ c nx _ => !(c == some 0) && !(nx == some 0)
  | .nochildren nx _ => !(nx == some 0)
  | _ => true

/-- The reserved address 0 holds the static global arena, whose prevn is the
NULL it was initialized with (nothing ever links the global arena into a
sibling chain). -/
def zeroNodeB (s : State) : Bool :=
  match getNode s 0 with
  | some (.salloc none _ _ _) => true
  | _ => false

/-- No child or next field anywhere points at the reserved global address. -/
def noZeroRefsB (s : State) : Bool := s.mem.all (fun e => nodeNoZeroB e.2)

/-- Well-formedness of a state: addresses are unambiguous, the global arena
sits unlinked at address 0, and no child or next field points at it. -/
def WF (s : State) : Prop :=
  (s.mem.map Prod.fst).Nodup ∧ zeroNodeB s = true ∧ noZeroRefsB s = true

/-- A node that, if present and an arena, has already had its chunks freed
and cleared (the validating step of stb_free ran on it). -/
def chunksCleared (s : State) (p : Nat) : Prop :=
  match getNode s p with
  | some (.salloc _ _ _ cs) => cs = []
  | _ => True

/-- The counter balance the diagnostic counters are supposed to keep. -/
def balanced (s : State) : Prop := s.countAlloc = s.countFree + liveCount s

/-! Concrete example states used by counterexamples and witnesses. -/

/-- A root n at 10 with a single child d at 20 under the global arena. -/
def c1S : State :=
  ⟨[(0, .salloc none (some 10) none []),
    (10, .salloc (some (.childOf 0)) (some 20) none []),
    (20, .salloc (some (.childOf 10)) none none [])], 0, 0⟩

/-- What stb_reassign makes of c1S when asked to hang 10 under 20. -/
def c1Sp : State :=
  ⟨[(0, .salloc none none none []),
    (10, .salloc (some (.childOf 20)) (some 20) none []),
    (20, .salloc (some (.childOf 10)) (some 10) none [])], 0, 0⟩

/-- An arena at 10 owning one chunk (with two carves) and a chunked leaf at
30 whose parent back-pointer is 10; 20 is a sibling-chain child of 10. -/
def c2S : State :=
  ⟨[(0, .salloc none (some 10) none []),
    (10, .salloc (some (.childOf 0)) (some 20) none [⟨7, 1000, 65536, 40, 2⟩]),
    (20, .salloc (some (.childOf 10)) none none []),
    (30, .chunked 10 7)], 4, 0⟩

/-- c2S after stb_realloc moved the arena header from 10 to 50. -/
def c2Sp : State :=
  ⟨[(50, .salloc (some (.childOf 0)) (some 20) none [⟨7, 1000, 65536, 40, 2⟩]),
    (0, .salloc none (some 50) none []),
    (20, .salloc (some (.childOf 50)) none none []),
    (30, .chunked 10 7)], 4, 0⟩

/-- A fuller sibling configuration for the realloc repair theorem: the
arena 10 is head child of the global arena, has head child 20, next sibling
40 (a leaf), and a chunked leaf 30 carved from its chunk 7. -/
def c2W : State :=
  ⟨[(0, .salloc none (some 10) none []),
    (10, .salloc (some (.childOf 0)) (some 20) (some 40) [⟨7, 1000, 65536, 40, 1⟩]),
    (20, .salloc (some (.childOf 10)) none none []),
    (40, .nochildren none (some (.nextOf 10))),
    (30, .chunked 10 7)], 5, 0⟩

/-- An arena at 10 with one chunk (one carve credited) and one child at 20. -/
def c3S : State :=
  ⟨[(0, .salloc none (some 10) none []),
    (10, .salloc (some (.childOf 0)) (some 20) none [⟨7, 1000, 65536, 100, 1⟩]),
    (20, .salloc (some (.childOf 10)) none none [])], 0, 0⟩

def c3Sp : State := ⟨[(0, .salloc none none none [])], 0, 3⟩

def c3Trace : List Event := [.freeChunk 7, .freeHeader 20, .freeHeader 10]

/-- The global arena owning two chunks, both too depleted for the next
request. -/
def c4S : State :=
  ⟨[(0, .salloc none none none
      [⟨11, 100, 65536, 0, 1⟩, ⟨12, 200, 65536, 8, 1⟩])], 3, 1⟩

/-- c4S after the failing allocation: the first two chunks were reordered by
stb__sort_chunks before the system malloc failed. -/
def c4Sp : State :=
  ⟨[(0, .salloc none none none
      [⟨12, 200, 65536, 8, 1⟩, ⟨11, 100, 65536, 0, 1⟩])], 3, 1⟩

/-- An arena at 10 plus a raw chunk slice at 30 whose adjacent word has low
bits 3 (arbitrary foreign memory content). -/
def c6S : State :=
  ⟨[(0, .salloc none none none []),
    (10, .salloc (some (.childOf 0)) none none [⟨500, 516, 65536, 100, 1⟩]),
    (30, .raw 3 500)], 2, 0⟩

/-- Like c6S but the word adjacent to the raw slice happens to read as tag
STB__chunked (5 mod 4 = 1). -/
def c6W : State :=
  ⟨[(0, .salloc none none none []),
    (10, .salloc (some (.childOf 0)) none none [⟨500, 516, 65536, 100, 1⟩]),
    (30, .raw 5 500)], 2, 0⟩

/-- An arena at 10 owning one chunk, with a chunked leaf at 30 carved from
that chunk. -/
def c6S2 : State :=
  ⟨[(0, .salloc none (some 10) none []),
    (10, .salloc (some (.childOf 0)) none none [⟨500, 516, 65536, 100, 1⟩]),
    (30, .chunked 10 500)], 2, 0⟩

def c6S2p : State := ⟨[(0, .salloc none none none [])], 2, 2⟩

/-- Allocate one block under the global arena, then free it. -/
def c7ops : List Op := [.alloc none 8 2 (-32) (some 100) [] 0, .free (some 100) 4]

def c7final : State :=
  match runOps c7ops initState with
  | some s => s
  | none => initState

/-! Association list lemmas. -/

theorem lookupA_updA_self (m : List (Nat × Node)) (a : Nat) (n old : Node)
    (h : lookupA m a = some old) : lookupA (updA m a n) a = some n := by
  induction m with
  | nil => simp [lookupA] at h
  | cons e t ih =>
    by_cases he : e.1 = a
    · simp [lookupA, updA, he]
    · simp only [lookupA, updA, if_neg he] at h ⊢
      exact ih h

theorem lookupA_updA_ne (m : List (Nat × Node)) (a b : Nat) (n : Node)
    (h : b ≠ a) : lookupA (updA m a n) b = lookupA m b := by
  induction m with
  | nil => simp [updA]
  | cons e t ih =>
    by_cases he : e.1 = a
    · have : ¬(a = b) := fun hc => h hc.symm
      simp [lookupA, updA, he, this, ih]
    · simp only [updA, if_neg he, lookupA]
      by_cases hb : e.1 = b
      · simp [hb]
      · simp [hb, ih]

theorem keys_updA (m : List (Nat × Node)) (a : Nat) (n : Node) :
    (updA m a n).map Prod.fst = m.map Prod.fst := by
  induction m with
  | nil => simp [updA]
  | cons e t ih =>
    by_cases he : e.1 = a
    · simp [updA, he, ih]
    · simp [updA, he, ih]

theorem updA_of_not_mem (m : List (Nat × Node)) (a : Nat) (n : Node)
    (h : a ∉ m.map Prod.fst) : updA m a n = m := by
  induction m with
  | nil => simp [updA]
  | cons e t ih =>
    simp only [List.map_cons, List.mem_cons] at h
    push_neg at h
    have he : ¬ (e.1 = a) := fun hc => h.1 hc.symm
    simp [updA, he, ih h.2]

theorem lookupA_eraseA_ne (m : List (Nat × Node)) (a b : Nat)
    (h : b ≠ a) : lookupA (eraseA m a) b = lookupA m b := by
  induction m with
  | nil => simp [eraseA]
  | cons e t ih =>
    by_cases he : e.1 = a
    · have hb : ¬ (e.1 = b) := by rw [he]; exact fun hc => h hc.symm
      simp only [eraseA, if_pos he, lookupA, if_neg hb]
      exact ih
    · simp only [eraseA, if_neg he, lookupA]
      by_cases hb : e.1 = b
      · simp [hb]
      · simp [hb, ih]

theorem eraseA_sublist (m : List (Nat × Node)) (a : Nat) :
    (eraseA m a).Sublist m := by
  induction m with
  | nil => simp [eraseA]
  | cons e t ih =>
    by_cases he : e.1 = a
    · simp only [eraseA, if_pos he]
      exact ih.cons e
    · simp only [eraseA, if_neg he]
      exact ih.cons₂ e

theorem keys_nodup_eraseA (m : List (Nat × Node)) (a : Nat)
    (h : (m.map Prod.fst).Nodup) : ((eraseA m a).map Prod.fst).Nodup :=
  ((eraseA_sublist m a).map Prod.fst).nodup h

theorem eraseA_of_not_mem (m : List (Nat × Node)) (a : Nat)
    (h : a ∉ m.map Prod.fst) : eraseA m a = m := by
  induction m with
  | nil => simp [eraseA]
  | cons e t ih =>
    simp only [List.map_cons, List.mem_cons] at h
    push_neg at h
    have he : ¬ (e.1 = a) := fun hc => h.1 hc.symm
    simp [eraseA, he, ih h.2]

theorem lookupA_eq_none_iff (m : List (Nat × Node)) (a : Nat) :
    lookupA m a = none ↔ a ∉ m.map Prod.fst := by
  induction m with
  | nil => simp [lookupA]
  | cons e t ih =>
    by_cases he : e.1 = a
    · simp [lookupA, he]
    · simp only [lookupA, if_neg he, List.map_cons, List.mem_cons, ih]
      constructor
      · intro hn
        rintro (h1 | h2)
        · exact he h1.symm
        · exact hn h2
      · intro hn hm
        exact hn (Or.inr hm)

theorem lookupA_mem (m : List (Nat × Node)) (a : Nat) (n : Node)
    (h : lookupA m a = some n) : (a, n) ∈ m := by
  induction m with
  | nil => simp [lookupA] at h
  | cons e t ih =>
    by_cases he : e.1 = a
    · simp only [lookupA, if_pos he] at h
      have hea : e = (a, n) := by
        obtain ⟨e1, e2⟩ := e
        cases h
        simp_all
      rw [hea]
      exact List.mem_cons_self _ _
    · simp only [lookupA, if_neg he] at h
      exact List.mem_cons_of_mem e (ih h)

theorem mem_updA (m : List (Nat × Node)) (a : Nat) (n : Node) (e : Nat × Node)
    (h : e ∈ updA m a n) : e ∈ m ∨ e = (a, n) := by
  induction m with
  | nil => simp [updA] at h
  | cons x t ih =>
    by_cases hx : x.1 = a
    · simp only [updA, if_pos hx, List.mem_cons] at h
      rcases h with h | h
      · right; exact h
      · rcases ih h with h | h
        · left; exact List.mem_cons_of_mem x h
        · right; exact h
    · simp only [updA, if_neg hx, List.mem_cons] at h
      rcases h with h | h
      · left; exact h ▸ List.mem_cons_self x t
      · rcases ih h with h | h
        · left; exact List.mem_cons_of_mem x h
        · right; exact h

theorem mem_eraseA (m : List (Nat × Node)) (a : Nat) (e : Nat × Node)
    (h : e ∈ eraseA m a) : e ∈ m :=
  (eraseA_sublist m a).mem h

theorem sum_map_updA (f : Nat × Node → Nat) (m : List (Nat × Node)) (a : Nat)
    (n old : Node) (hnd : (m.map Prod.fst).Nodup) (h : lookupA m a = some old) :
    ((updA m a n).map f).sum + f (a, old) = (m.map f).sum + f (a, n) := by
  induction m with
  | nil => simp [lookupA] at h
  | cons e t ih =>
    simp only [List.map_cons, List.nodup_cons] at hnd
    by_cases he : e.1 = a
    · simp only [lookupA, if_pos he] at h
      have hea : e = (a, old) := by
        cases e
        cases h
        simp_all

      subst hea
      have hna : a ∉ t.map Prod.fst := by simpa using hnd.1
      rw [show updA ((a, old) :: t) a n = (a, n) :: updA t a n from by simp [updA]]
      rw [updA_of_not_mem t a n hna]
      simp only [List.map_cons, List.sum_cons]
      omega
    · simp only [lookupA, if_neg he] at h
      have := ih hnd.2 h
      simp only [updA, if_neg he, List.map_cons, List.sum_cons]
      omega

theorem sum_map_eraseA (f : Nat × Node → Nat) (m : List (Nat × Node)) (a : Nat)
    (old : Node) (hnd : (m.map Prod.fst).Nodup) (h : lookupA m a = some old) :
    ((eraseA m a).map f).sum + f (a, old) = (m.map f).sum := by
  induction m with
  | nil => simp [lookupA] at h
  | cons e t ih =>
    simp only [List.map_cons, List.nodup_cons] at hnd
    by_cases he : e.1 = a
    · simp only [lookupA, if_pos he] at h
      have hea : e = (a, old) := by
        cases e
        cases h
        simp_all
      subst hea
      have hna : a ∉ t.map Prod.fst := by simpa using hnd.1
      rw [show eraseA ((a, old) :: t) a = eraseA t a from by simp [eraseA]]
      rw [eraseA_of_not_mem t a hna]
      simp only [List.map_cons, List.sum_cons]
      omega
    · simp only [lookupA, if_neg he] at h
      have := ih hnd.2 h
      simp only [eraseA, if_neg he, List.map_cons, List.sum_cons]
      omega

theorem sum_map_filter_zero (f : Nat × Node → Nat) (keep : Nat × Node → Bool)
    (m : List (Nat × Node)) (h : ∀ e ∈ m, keep e = false → f e = 0) :
    ((m.filter keep).map f).sum = (m.map f).sum := by
  induction m with
  | nil => simp
  | cons e t ih =>
    have ht : ∀ x ∈ t, keep x = false → f x = 0 := fun x hx => h x (List.mem_cons_of_mem e hx)
    by_cases hk : keep e = true
    · simp [List.filter_cons, hk, ih ht]
    · have hk' : keep e = false := by simpa using hk
      have : f e = 0 := h e (List.mem_cons_self e t) hk'
      simp [List.filter_cons, hk', ih ht, this]

theorem lookupA_filter_kept (keep : Nat × Node → Bool) (m : List (Nat × Node))
    (b : Nat) (n : Node) (h : lookupA m b = some n) (hk : keep (b, n) = true) :
    lookupA (m.filter keep) b = some n := by
  induction m with
  | nil => simp [lookupA] at h
  | cons e t ih =>
    by_cases he : e.1 = b
    · simp only [lookupA, if_pos he] at h
      have hea : e = (b, n) := by
        cases e
        cases h
        simp_all
      subst hea
      simp [List.filter_cons, hk, lookupA]
    · by_cases hke : keep e = true
      · simp only [List.filter_cons, if_pos hke, lookupA, if_neg he]
        exact ih (by simpa [lookupA, he] using h)
      · have hk' : ¬ (keep e = true) := hke
        simp only [List.filter_cons, if_neg hk']
        exact ih (by simpa [lookupA, he] using h)

theorem lookupA_filter_sub (keep : Nat × Node → Bool) (m : List (Nat × Node))
    (b : Nat) (n : Node) (hnd : (m.map Prod.fst).Nodup)
    (h : lookupA (m.filter keep) b = some n) : lookupA m b = some n := by
  induction m with
  | nil => simpa using h
  | cons e t ih =>
    simp only [List.map_cons, List.nodup_cons] at hnd
    by_cases hke : keep e = true
    · simp only [List.filter_cons, if_pos hke, lookupA] at h
      by_cases he : e.1 = b
      · simp only [if_pos he] at h
        simp [lookupA, he, h]
      · simp only [if_neg he] at h
        simpa [lookupA, he] using ih hnd.2 h
    · have hk' : ¬ (keep e = true) := hke
      simp only [List.filter_cons, if_neg hk'] at h
      by_cases he : e.1 = b
      · exfalso
        have hmem := lookupA_mem _ _ _ (by
          have := ih hnd.2 h
          exact this)
        have : b ∈ t.map Prod.fst := List.mem_map_of_mem Prod.fst hmem
        exact hnd.1 (by rwa [he])
      · simpa [lookupA, he] using ih hnd.2 h

/-! State level effect lemmas. -/

theorem getNode_setNode_self (s : State) (a : Nat) (n old : Node)
    (h : getNode s a = some old) : getNode (setNode s a n) a = some n :=
  lookupA_updA_self s.mem a n old h

theorem getNode_setNode_ne (s : State) (a b : Nat) (n : Node) (h : b ≠ a) :
    getNode (setNode s a n) b = getNode s b :=
  lookupA_updA_ne s.mem a b n h

theorem getNode_pushNode_self (s : State) (a : Nat) (n : Node) :
    getNode (pushNode s a n) a = some n := by
  simp [getNode, pushNode, lookupA]

theorem getNode_pushNode_ne (s : State) (a b : Nat) (n : Node) (h : b ≠ a) :
    getNode (pushNode s a n) b = getNode s b := by
  have : ¬ ((a, n).1 = b) := fun hc => h (hc.symm)
  simp [getNode, pushNode, lookupA, this]

theorem getNode_eraseNode_ne (s : State) (a b : Nat) (h : b ≠ a) :
    getNode (eraseNode s a) b = getNode s b :=
  lookupA_eraseA_ne s.mem a b h

theorem liveCount_setNode (s : State) (a : Nat) (n old : Node)
    (hnd : (s.mem.map Prod.fst).Nodup) (h : getNode s a = some old) :
    liveCount (setNode s a n) + entryLive (a, old) = liveCount s + entryLive (a, n) :=
  sum_map_updA entryLive s.mem a n old hnd h

theorem liveCount_eraseNode (s : State) (a : Nat) (old : Node)
    (hnd : (s.mem.map Prod.fst).Nodup) (h : getNode s a = some old) :
    liveCount (eraseNode s a) + entryLive (a, old) = liveCount s :=
  sum_map_eraseA entryLive s.mem a old hnd h

theorem liveCount_pushNode (s : State) (a : Nat) (n : Node) :
    liveCount (pushNode s a n) = entryLive (a, n) + liveCount s := by
  simp [liveCount, pushNode]

/-- The chunk list a node carries, if it is an arena header. -/
def nodeChunksF : Node → Option (List stb__chunk)
  | .salloc _ _ _ cs => some cs
  | _ => none

/-- Whether a node has the shape the global arena keeps forever. -/
def nodePrevnNoneSalloc : Node → Bool
  | .salloc none _ _ _ => true
  | _ => false

theorem getChunks_eq (s : State) (b : Nat) :
    getChunks s b = (match getNode s b with
                     | some nd => nodeChunksF nd
                     | none => none) := by
  unfold getChunks nodeChunksF
  cases getNode s b with
  | none => rfl
  | some nd => cases nd <;> rfl

theorem getChunks_node (s : State) (b : Nat) (nd : Node)
    (h : getNode s b = some nd) : getChunks s b = nodeChunksF nd := by
  unfold getChunks
  rw [h]
  cases nd <;> rfl

theorem zeroNodeB_node (s : State) (nd : Node) (h : getNode s 0 = some nd) :
    zeroNodeB s = nodePrevnNoneSalloc nd := by
  unfold zeroNodeB
  rw [h]
  cases nd with
  | salloc pv c nx cs => cases pv <;> rfl
  | nochildren nx pv => rfl
  | chunked par oc => rfl
  | raw w oc => rfl

theorem zeroNodeB_eq (s : State) :
    zeroNodeB s = (match getNode s 0 with
                   | some nd => nodePrevnNoneSalloc nd
                   | none => false) := by
  unfold zeroNodeB nodePrevnNoneSalloc
  cases getNode s 0 with
  | none => rfl
  | some nd =>
    cases nd with
    | salloc pv c nx cs => cases pv <;> rfl
    | nochildren nx pv => rfl
    | chunked par oc => rfl
    | raw w oc => rfl

theorem zeroNodeB_inv (s : State) (h : zeroNodeB s = true) :
    ∃ c nx cs, getNode s 0 = some (.salloc none c nx cs) := by
  rw [zeroNodeB_eq] at h
  cases hx : getNode s 0 with
  | none => rw [hx] at h; simp at h
  | some nd =>
    rw [hx] at h
    cases nd with
    | salloc pv c nx cs =>
      cases pv with
      | none => exact ⟨c, nx, cs, rfl⟩
      | some pv => simp [nodePrevnNoneSalloc] at h
    | nochildren nx pv => simp [nodePrevnNoneSalloc] at h
    | chunked par oc => simp [nodePrevnNoneSalloc] at h
    | raw w oc => simp [nodePrevnNoneSalloc] at h

theorem noZeroRefsB_node (s : State) (a : Nat) (n : Node)
    (h : noZeroRefsB s = true) (hg : getNode s a = some n) :
    nodeNoZeroB n = true := by
  unfold noZeroRefsB at h
  rw [List.all_eq_true] at h
  exact h (a, n) (lookupA_mem s.mem a n hg)

/-- A state mutation that keeps everything the counter ledger cares about. -/
def benign (s s' : State) : Prop :=
  s'.countAlloc = s.countAlloc ∧ s'.countFree = s.countFree ∧
  s'.mem.map Prod.fst = s.mem.map Prod.fst ∧ liveCount s' = liveCount s ∧
  (∀ b cs, getChunks s b = some cs → getChunks s' b = some cs) ∧
  (∀ r, chunksCleared s r → chunksCleared s' r) ∧
  (zeroNodeB s = true → zeroNodeB s' = true) ∧
  (noZeroRefsB s = true → noZeroRefsB s' = true)

theorem benign_refl (s : State) : benign s s :=
  ⟨rfl, rfl, rfl, rfl, fun _ _ h => h, fun _ h => h, fun h => h, fun h => h⟩

theorem benign_trans (s1 s2 s3 : State) (h1 : benign s1 s2) (h2 : benign s2 s3) :
    benign s1 s3 := by
  obtain ⟨a1, f1, k1, l1, g1, c1, z1, n1⟩ := h1
  obtain ⟨a2, f2, k2, l2, g2, c2, z2, n2⟩ := h2
  exact ⟨a2.trans a1, f2.trans f1, k2.trans k1, l2.trans l1,
    fun b cs h => g2 b cs (g1 b cs h), fun r h => c2 r (c1 r h),
    fun h => z2 (z1 h), fun h => n2 (n1 h)⟩

theorem WF_of_benign (s s' : State) (hwf : WF s) (hb : benign s s') : WF s' := by
  obtain ⟨hnd, hz, hn⟩ := hwf
  obtain ⟨_, _, hk, _, _, _, hz', hn'⟩ := hb
  exact ⟨hk ▸ hnd, hz' hz, hn' hn⟩

theorem benign_setNode (s : State) (a : Nat) (old n : Node)
    (hnd : (s.mem.map Prod.fst).Nodup)
    (hg : getNode s a = some old)
    (hlive : entryLive (a, old) = entryLive (a, n))
    (hchunks : nodeChunksF n = nodeChunksF old)
    (hzero : a = 0 → nodePrevnNoneSalloc old = true → nodePrevnNoneSalloc n = true)
    (hnz : nodeNoZeroB old = true → nodeNoZeroB n = true) :
    benign s (setNode s a n) := by
  refine ⟨rfl, rfl, keys_updA s.mem a n, ?_, ?_, ?_, ?_, ?_⟩
  · have := liveCount_setNode s a n old hnd hg
    omega
  · intro b cs h
    by_cases hb : b = a
    · subst hb
      rw [getChunks_node s b old hg] at h
      rw [getChunks_node (setNode s b n) b n (getNode_setNode_self s b n old hg)]
      rw [hchunks]
      exact h
    · rw [getChunks_eq, getNode_setNode_ne s a b n hb, ← getChunks_eq]
      exact h
  · intro r h
    by_cases hr : r = a
    · subst hr
      unfold chunksCleared at h ⊢
      rw [getNode_setNode_self s r n old hg]
      rw [hg] at h
      cases n with
      | salloc pv c nx csn =>
        cases old with
        | salloc pv2 c2 nx2 cso =>
          simp only [nodeChunksF, Option.some.injEq] at hchunks
          subst hchunks
          exact h
        | nochildren nx2 pv2 => simp [nodeChunksF] at hchunks
        | chunked par oc => simp [nodeChunksF] at hchunks
        | raw w oc => simp [nodeChunksF] at hchunks
      | nochildren nx pv => exact True.intro
      | chunked par oc => exact True.intro
      | raw w oc => exact True.intro
    · unfold chunksCleared at h ⊢
      rw [getNode_setNode_ne s a r n hr]
      exact h
  · intro hz
    by_cases ha : a = 0
    · subst ha
      rw [zeroNodeB_node s old hg] at hz
      rw [zeroNodeB_node (setNode s 0 n) n (getNode_setNode_self s 0 n old hg)]
      exact hzero rfl hz
    · rw [zeroNodeB_eq, getNode_setNode_ne s a 0 n (fun hc => ha hc.symm), ← zeroNodeB_eq]
      exact hz
  · intro hn'
    unfold noZeroRefsB at hn' ⊢
    rw [List.all_eq_true] at hn' ⊢
    intro e he
    rcases mem_updA s.mem a n e ((by simpa [setNode] using he)) with hm | hm
    · exact hn' e hm
    · subst hm
      exact hnz (noZeroRefsB_node s a old (by unfold noZeroRefsB; rw [List.all_eq_true]; exact hn') hg)

theorem writeSlot_childOf_inv (s : State) (a : Nat) (v : Option Nat) (s' : State)
    (h : writeSlot s (.childOf a) v = some s') :
    ∃ pv c nx cs, getNode s a = some (.salloc pv c nx cs) ∧
      s' = setNode s a (.salloc pv v nx cs) := by
  cases hg : getNode s a with
  | none => simp [writeSlot, hg] at h
  | some nd =>
    cases nd with
    | salloc pv c nx cs =>
      simp only [writeSlot, hg, Option.some.injEq] at h
      exact ⟨pv, c, nx, cs, rfl, h.symm⟩
    | nochildren nx pv => simp [writeSlot, hg] at h
    | chunked par oc => simp [writeSlot, hg] at h
    | raw w oc => simp [writeSlot, hg] at h

theorem writeSlot_nextOf_inv (s : State) (a : Nat) (v : Option Nat) (s' : State)
    (h : writeSlot s (.nextOf a) v = some s') :
    (∃ pv c nx cs, getNode s a = some (.salloc pv c nx cs) ∧
      s' = setNode s a (.salloc pv c v cs)) ∨
    (∃ nx pv, getNode s a = some (.nochildren nx pv) ∧
      s' = setNode s a (.nochildren v pv)) := by
  cases hg : getNode s a with
  | none => simp [writeSlot, hg] at h
  | some nd =>
    cases nd with
    | salloc pv c nx cs =>
      simp only [writeSlot, hg, Option.some.injEq] at h
      exact Or.inl ⟨pv, c, nx, cs, rfl, h.symm⟩
    | nochildren nx pv =>
      simp only [writeSlot, hg, Option.some.injEq] at h
      exact Or.inr ⟨nx, pv, rfl, h.symm⟩
    | chunked par oc => simp [writeSlot, hg] at h
    | raw w oc => simp [writeSlot, hg] at h

theorem setPrevnField_inv (s : State) (q : Nat) (v : Option Slot) (s' : State)
    (h : setPrevnField s q v = some s') :
    (∃ pv c nx cs, getNode s q = some (.salloc pv c nx cs) ∧
      s' = setNode s q (.salloc v c nx cs)) ∨
    (∃ nx pv, getNode s q = some (.nochildren nx pv) ∧
      s' = setNode s q (.nochildren nx v)) := by
  cases hg : getNode s q with
  | none => simp [setPrevnField, hg] at h
  | some nd =>
    cases nd with
    | salloc pv c nx cs =>
      simp only [setPrevnField, hg, Option.some.injEq] at h
      exact Or.inl ⟨pv, c, nx, cs, rfl, h.symm⟩
    | nochildren nx pv =>
      simp only [setPrevnField, hg, Option.some.injEq] at h
      exact Or.inr ⟨nx, pv, rfl, h.symm⟩
    | chunked par oc => simp [setPrevnField, hg] at h
    | raw w oc => simp [setPrevnField, hg] at h

theorem validateReset_inv (s : State) (p : Nat) (s' : State)
    (h : validateReset s p = some s') :
    ∃ pv c nx cs, getNode s p = some (.salloc pv c nx cs) ∧
      s' = setNode s p (.salloc none c none []) := by
  cases hg : getNode s p with
  | none => simp [validateReset, hg] at h
  | some nd =>
    cases nd with
    | salloc pv c nx cs =>
      simp only [validateReset, hg, Option.some.injEq] at h
      exact ⟨pv, c, nx, cs, rfl, h.symm⟩
    | nochildren nx pv => simp [validateReset, hg] at h
    | chunked par oc => simp [validateReset, hg] at h
    | raw w oc => simp [validateReset, hg] at h

theorem entryLive_salloc_eq (a : Nat) (pv pv2 : Option Slot) (c c2 : Option Nat)
    (nx nx2 : Option Nat) (cs : List stb__chunk) :
    entryLive (a, .salloc pv c nx cs) = entryLive (a, .salloc pv2 c2 nx2 cs) := by
  by_cases ha : a = 0 <;> simp [entryLive, nodeChunkSum, ha]

theorem entryLive_nochildren_eq (a : Nat) (nx nx2 : Option Nat) (pv pv2 : Option Slot) :
    entryLive (a, .nochildren nx pv) = entryLive (a, .nochildren nx2 pv2) := by
  by_cases ha : a = 0 <;> simp [entryLive, nodeChunkSum, ha]

theorem benign_of_writeSlot (s : State) (l : Slot) (v : Option Nat) (s' : State)
    (hnd : (s.mem.map Prod.fst).Nodup) (h : writeSlot s l v = some s')
    (hv : v ≠ some 0) : benign s s' := by
  have hvb : (v == some 0) = false := by
    cases v with
    | none => rfl
    | some x => simpa using hv
  cases l with
  | childOf a =>
    obtain ⟨pv, c, nx, cs, hg, hs⟩ := writeSlot_childOf_inv s a v s' h
    rw [hs]
    refine benign_setNode s a _ _ hnd hg (entryLive_salloc_eq a pv pv c v nx nx cs) rfl
      (fun _ hp => by cases pv <;> simpa [nodePrevnNoneSalloc] using hp) ?_
    intro hno
    simp only [nodeNoZeroB, Bool.and_eq_true] at hno ⊢
    exact ⟨by simp [hvb], hno.2⟩
  | nextOf a =>
    rcases writeSlot_nextOf_inv s a v s' h with ⟨pv, c, nx, cs, hg, hs⟩ | ⟨nx, pv, hg, hs⟩
    · rw [hs]
      refine benign_setNode s a _ _ hnd hg (entryLive_salloc_eq a pv pv c c nx v cs) rfl
        (fun _ hp => by cases pv <;> simpa [nodePrevnNoneSalloc] using hp) ?_
      intro hno
      simp only [nodeNoZeroB, Bool.and_eq_true] at hno ⊢
      exact ⟨hno.1, by simp [hvb]⟩
    · rw [hs]
      refine benign_setNode s a _ _ hnd hg (entryLive_nochildren_eq a nx v pv pv) rfl
        (fun _ hp => by simpa [nodePrevnNoneSalloc] using hp) ?_
      intro hno
      simp only [nodeNoZeroB] at hno ⊢
      simp [hvb]

theorem benign_of_setPrevnField (s : State) (q : Nat) (v : Option Slot) (s' : State)
    (hnd : (s.mem.map Prod.fst).Nodup) (h : setPrevnField s q v = some s')
    (hq : q ≠ 0) : benign s s' := by
  rcases setPrevnField_inv s q v s' h with ⟨pv, c, nx, cs, hg, hs⟩ | ⟨nx, pv, hg, hs⟩
  · rw [hs]
    exact benign_setNode s q _ _ hnd hg (entryLive_salloc_eq q pv v c c nx nx cs) rfl
      (fun h0 => absurd h0 hq) (fun hno => hno)
  · rw [hs]
    exact benign_setNode s q _ _ hnd hg (entryLive_nochildren_eq q nx nx pv v) rfl
      (fun h0 => absurd h0 hq) (fun hno => hno)

theorem eraseOwned_effects (s : State) (ids : List Nat)
    (hnd : (s.mem.map Prod.fst).Nodup) :
    (eraseOwnedNodes s ids).countAlloc = s.countAlloc ∧
    (eraseOwnedNodes s ids).countFree = s.countFree ∧
    (((eraseOwnedNodes s ids).mem.map Prod.fst).Nodup) ∧
    liveCount (eraseOwnedNodes s ids) = liveCount s ∧
    (∀ b cs, getChunks s b = some cs → getChunks (eraseOwnedNodes s ids) b = some cs) ∧
    (∀ r, chunksCleared s r → chunksCleared (eraseOwnedNodes s ids) r) ∧
    (zeroNodeB s = true → zeroNodeB (eraseOwnedNodes s ids) = true) ∧
    (noZeroRefsB s = true → noZeroRefsB (eraseOwnedNodes s ids) = true) := by
  refine ⟨rfl, rfl, ?_, ?_, ?_, ?_, ?_, ?_⟩
  · exact ((List.filter_sublist s.mem).map Prod.fst).nodup hnd
  · refine sum_map_filter_zero entryLive _ s.mem ?_
    intro e he hk
    simp only [Bool.not_eq_false'] at hk
    obtain ⟨a, nd⟩ := e
    cases nd with
    | nochildren nx pv => simp [ownedBy] at hk
    | salloc pv c nx cs => simp [ownedBy] at hk
    | chunked par oc => by_cases ha : a = 0 <;> simp [entryLive, nodeChunkSum, ha]
    | raw w oc => by_cases ha : a = 0 <;> simp [entryLive, nodeChunkSum, ha]
  · intro b cs h
    rw [getChunks_eq] at h
    cases hg : getNode s b with
    | none => rw [hg] at h; exact absurd h (by simp)
    | some nd =>
      rw [hg] at h
      have hkeep : (fun e => !ownedBy ids e) (b, nd) = true := by
        cases nd with
        | salloc pv c nx cs2 => simp [ownedBy]
        | nochildren nx pv => simp [ownedBy]
        | chunked par oc => simp [nodeChunksF] at h
        | raw w oc => simp [nodeChunksF] at h
      have := lookupA_filter_kept (fun e => !ownedBy ids e) s.mem b nd hg hkeep
      rw [getChunks_eq]
      show (match lookupA (s.mem.filter fun e => !ownedBy ids e) b with
            | some nd => nodeChunksF nd
            | none => none) = some cs
      rw [this]
      exact h
  · intro r h
    unfold chunksCleared at h ⊢
    cases hx : getNode (eraseOwnedNodes s ids) r with
    | none => exact True.intro
    | some nd =>
      have := lookupA_filter_sub _ s.mem r nd hnd hx
      rw [show getNode s r = some nd from this] at h
      cases nd with
      | salloc pv c nx cs => exact h
      | nochildren nx pv => exact True.intro
      | chunked par oc => exact True.intro
      | raw w oc => exact True.intro
  · intro hz
    obtain ⟨c, nx, cs, hg⟩ := zeroNodeB_inv s hz
    have hkeep : (fun e => !ownedBy ids e) (0, Node.salloc none c nx cs) = true := by
      simp [ownedBy]
    have := lookupA_filter_kept (fun e => !ownedBy ids e) s.mem 0 _ hg hkeep
    rw [zeroNodeB_node (eraseOwnedNodes s ids) _ this]
    rfl
  · intro hn
    unfold noZeroRefsB at hn ⊢
    rw [List.all_eq_true] at hn ⊢
    intro e he
    exact hn e (List.mem_of_mem_filter he)

/-! Chunk carving bounds. -/

theorem stb__try_chunk_bounds (c c1 : stb__chunk) (size align pre_align : Int)
    (p : Nat) (hs : 0 ≤ size) (ha : 1 ≤ align) (hp : 0 ≤ pre_align)
    (h : stb__try_chunk c size align pre_align = some (c1, p)) :
    0 ≤ c1.data_left ∧ c1.data_left + pre_align + size ≤ c.data_left ∧
    c1.id = c.id ∧ c1.base = c.base ∧ c1.csize = c.csize ∧ c1.alloc = c.alloc := by
  have hm0 : 0 ≤ ((c.base : Int) + (c.data_left - size)).emod align :=
    Int.emod_nonneg _ (by omega)
  simp only [stb__try_chunk] at h
  by_cases hcond : 0 ≤ c.data_left - size -
      ((c.base : Int) + (c.data_left - size)).emod align - pre_align
  · rw [if_pos hcond] at h
    simp only [Option.some.injEq, Prod.mk.injEq] at h
    obtain ⟨hc1, hpn⟩ := h
    have hdl : c1.data_left = c.data_left - size -
        ((c.base : Int) + (c.data_left - size)).emod align - pre_align := by
      rw [← hc1]
    have hid : c1.id = c.id := by rw [← hc1]
    have hba : c1.base = c.base := by rw [← hc1]
    have hcz : c1.csize = c.csize := by rw [← hc1]
    have hal : c1.alloc = c.alloc := by rw [← hc1]
    exact ⟨by omega, by omega, hid, hba, hcz, hal⟩
  · rw [if_neg hcond] at h
    exact absurd h (by simp)

/-- C9: for every sequence of successful carves from one chunk, each carved
block (the pre_align header plus the size bytes of payload) lies inside the
interval [0, initial data_left) of the chunk data area, the final data_left
sits at or below every block start (the counter decreases to the new start
offset on each carve, after the nonnegativity check), and the blocks are
pairwise disjoint (each later block ends at or before every earlier block
starts, since carving proceeds from the high end down). -/
theorem stb_chunk_carves_disjoint :
    ∀ (reqs : List (Int × Int × Int)) (c c2 : stb__chunk) (rs : List (Int × Int)),
      (∀ r ∈ reqs, 0 ≤ r.1 ∧ 1 ≤ r.2.1 ∧ 0 ≤ r.2.2) →
      carveAll c reqs = some (c2, rs) →
      c2.data_left ≤ c.data_left ∧
      (∀ iv ∈ rs, 0 ≤ iv.1 ∧ iv.2 ≤ c.data_left ∧ c2.data_left ≤ iv.1) ∧
      rs.Pairwise (fun a b => b.2 ≤ a.1) := by
  intro reqs
  induction reqs with
  | nil =>
    intro c c2 rs hreq h
    simp only [carveAll, Option.some.injEq, Prod.mk.injEq] at h
    obtain ⟨h1, h2⟩ := h
    subst h1
    subst h2
    simp
  | cons r t ih =>
    obtain ⟨size, align, pre⟩ := r
    intro c c2 rs hreq h
    cases htry : stb__try_chunk c size align pre with
    | none => simp [carveAll, htry] at h
    | some cp =>
      obtain ⟨c1, p⟩ := cp
      cases hrec : carveAll c1 t with
      | none => simp [carveAll, htry, hrec] at h
      | some pr =>
        obtain ⟨c2x, rsx⟩ := pr
        simp only [carveAll, htry, hrec, Option.some.injEq, Prod.mk.injEq] at h
        obtain ⟨hc2, hrs⟩ := h
        subst hc2
        subst hrs
        have hr0 : 0 ≤ size ∧ 1 ≤ align ∧ 0 ≤ pre := by
          simpa using hreq (size, align, pre) (List.mem_cons_self _ _)
        have hb := stb__try_chunk_bounds c c1 size align pre p hr0.1 hr0.2.1 hr0.2.2 htry
        have iht := ih c1 c2x rsx (fun r hr => hreq r (List.mem_cons_of_mem _ hr)) hrec
        refine ⟨by omega, ?_, ?_⟩
        · intro iv hiv
          rcases List.mem_cons.1 hiv with hiv | hiv
          · subst hiv
            show 0 ≤ c1.data_left ∧ c1.data_left + pre + size ≤ c.data_left ∧
              c2x.data_left ≤ c1.data_left
            omega
          · have := iht.2.1 iv hiv
            omega
        · rw [List.pairwise_cons]
          refine ⟨?_, iht.2.2⟩
          intro b hb2
          have := iht.2.1 b hb2
          show b.2 ≤ c1.data_left
          omega

/-- Witness for stb_chunk_carves_disjoint: two carves, one raw (pre 0) and
one chunked style (pre 8), from a chunk with 100 bytes left. -/
theorem stb_chunk_carves_disjoint_witness :
    (∀ r ∈ ([(50, 1, 0), (20, 4, 8)] : List (Int × Int × Int)),
      0 ≤ r.1 ∧ 1 ≤ r.2.1 ∧ 0 ≤ r.2.2) ∧
    carveAll ⟨1, 1000, 65536, 100, 0⟩ [(50, 1, 0), (20, 4, 8)] =
      some (⟨1, 1000, 65536, 20, 0⟩, [(50, 100), (20, 48)]) ∧
    ((⟨1, 1000, 65536, 20, 0⟩ : stb__chunk).data_left ≤
        (⟨1, 1000, 65536, 100, 0⟩ : stb__chunk).data_left ∧
      (∀ iv ∈ ([(50, 100), (20, 48)] : List (Int × Int)),
        0 ≤ iv.1 ∧ iv.2 ≤ (⟨1, 1000, 65536, 100, 0⟩ : stb__chunk).data_left ∧
          (⟨1, 1000, 65536, 20, 0⟩ : stb__chunk).data_left ≤ iv.1) ∧
      ([(50, 100), (20, 48)] : List (Int × Int)).Pairwise (fun a b => b.2 ≤ a.1)) :=
  ⟨by decide, by decide,
    stb_chunk_carves_disjoint [(50, 1, 0), (20, 4, 8)] ⟨1, 1000, 65536, 100, 0⟩
      ⟨1, 1000, 65536, 20, 0⟩ [(50, 100), (20, 48)] (by decide) (by decide)⟩

/-- C10: stb_malloc_is_valid returns false exactly for NULL or a preceding
word whose low two bits are 3; every other non NULL pointer (low bit patterns
0, 1 and 2) is reported valid, and the two bit mask of stb__identify can
never produce the declared fourth kind STB__chunk_raw = 4, so that arm of the
switch is dead and three of the four bit patterns of arbitrary foreign memory
are reported valid. -/
theorem stb_malloc_is_valid_spec :
    ∀ (p : Option Nat) (w : Nat),
      stb_malloc_is_valid p w = (p.isSome && !(stb__identify_word w == 3)) ∧
      (stb__identify_word w == 4) = false := by
  intro p w
  have h4 : stb__identify_word w = 0 ∨ stb__identify_word w = 1 ∨
      stb__identify_word w = 2 ∨ stb__identify_word w = 3 := by
    unfold stb__identify_word
    omega
  constructor
  · rcases p with _ | p <;> rcases h4 with h | h | h | h <;>
      simp [stb_malloc_is_valid, h]
  · rcases h4 with h | h | h | h <;> simp [h]

/-! Chunk ordering and new-chunk loop lemmas. -/

theorem stb__sort_chunks_perm (cl : List stb__chunk) :
    (stb__sort_chunks cl).Perm cl := by
  match cl with
  | [] => exact List.Perm.refl _
  | [c] => exact List.Perm.refl _
  | c :: d :: rest =>
    show (if d.data_left < c.data_left then c :: d :: rest else d :: c :: rest).Perm
      (c :: d :: rest)
    by_cases hd : d.data_left < c.data_left
    · rw [if_pos hd]
    · rw [if_neg hd]
      exact List.Perm.swap c d rest

theorem stb__sort_chunks_sum (f : stb__chunk → Nat) (cl : List stb__chunk) :
    ((stb__sort_chunks cl).map f).sum = (cl.map f).sum :=
  ((stb__sort_chunks_perm cl).map f).sum_eq

theorem stb__sort_chunks_front (cl : List stb__chunk) :
    ∃ f2, stb__sort_chunks cl = f2 ++ cl.drop 2 ∧ f2.length ≤ 2 := by
  match cl with
  | [] => exact ⟨[], rfl, by simp⟩
  | [c] => exact ⟨[c], rfl, by simp⟩
  | c :: d :: rest =>
    show ∃ f2, (if d.data_left < c.data_left then c :: d :: rest else d :: c :: rest) =
      f2 ++ (c :: d :: rest).drop 2 ∧ f2.length ≤ 2
    by_cases hd : d.data_left < c.data_left
    · exact ⟨[c, d], by simp [hd], by simp⟩
    · exact ⟨[d, c], by simp [hd], by simp⟩

theorem stb__try_chunk_total (c : stb__chunk) (size align pre : Int)
    (ha : 1 ≤ align) (hroom : size + align + pre ≤ c.data_left + 1) :
    ∃ c1 p, stb__try_chunk c size align pre = some (c1, p) := by
  have hm0 : 0 ≤ ((c.base : Int) + (c.data_left - size)).emod align :=
    Int.emod_nonneg _ (by omega)
  have hm1 : ((c.base : Int) + (c.data_left - size)).emod align < align :=
    Int.emod_lt_of_pos _ (by omega)
  simp only [stb__try_chunk]
  rw [if_pos (by omega)]
  exact ⟨_, _, rfl⟩

theorem alloc_chunk_loop_oom : ∀ (oracle : List (Option Nat))
    (cs : List stb__chunk) (size align pre csz : Int) (cs' : List stb__chunk),
    stb__alloc_chunk_loop oracle cs size align pre csz = .oom cs' → cs' = cs := by
  intro oracle
  induction oracle with
  | nil =>
    intro cs size align pre csz cs' h
    simp [stb__alloc_chunk_loop] at h
  | cons o rest ih =>
    intro cs size align pre csz cs' h
    cases o with
    | none =>
      simp only [stb__alloc_chunk_loop, CResult.oom.injEq] at h
      exact h.symm
    | some m =>
      cases htry : stb__try_chunk ⟨m, m + 16, csz, csz - chunkHeaderSize, 0⟩
          size align pre with
      | some np =>
        obtain ⟨n1, p⟩ := np
        simp only [stb__alloc_chunk_loop, htry] at h
        by_cases hsz : size = csz
        · rw [if_pos hsz] at h
          simp at h
        · rw [if_neg hsz] at h
          simp at h
      | none =>
        simp only [stb__alloc_chunk_loop, htry] at h
        exact ih _ _ _ _ _ _ h

theorem alloc_chunk_loop_ok : ∀ (oracle : List (Option Nat))
    (cs : List stb__chunk) (size align pre csz : Int) (cs' : List stb__chunk)
    (p cid : Nat), 0 ≤ size → 1 ≤ align → 0 ≤ pre →
    stb__alloc_chunk_loop oracle cs size align pre csz = .ok cs' p cid →
    ∃ n, cs' = n :: cs ∧ csz ≤ n.csize ∧ n.alloc = 1 ∧ n.id = cid := by
  intro oracle
  induction oracle with
  | nil =>
    intro cs size align pre csz cs' p cid hs ha hp h
    simp [stb__alloc_chunk_loop] at h
  | cons o rest ih =>
    intro cs size align pre csz cs' p cid hs ha hp h
    cases o with
    | none => simp [stb__alloc_chunk_loop] at h
    | some m =>
      cases htry : stb__try_chunk ⟨m, m + 16, csz, csz - chunkHeaderSize, 0⟩
          size align pre with
      | some np =>
        obtain ⟨n1, q⟩ := np
        have hb := stb__try_chunk_bounds _ n1 size align pre q hs ha hp htry
        have hszne : ¬ (size = csz) := by
          have h1 := hb.1
          have h2 := hb.2.1
          simp only [chunkHeaderSize] at h2
          omega
        simp only [stb__alloc_chunk_loop, htry, if_neg hszne, CResult.ok.injEq] at h
        obtain ⟨h1, h2, h3⟩ := h
        refine ⟨{ n1 with alloc := 1 }, h1.symm, ?_, rfl, ?_⟩
        · have := hb.2.2.2.2.1
          simp only [] at this ⊢
          omega
        · have := hb.2.2.1
          simp only [] at this ⊢
          omega
      | none =>
        simp only [stb__alloc_chunk_loop, htry] at h
        obtain ⟨n, h1, h2, h3, h4⟩ := ih _ _ _ _ _ _ _ _ hs ha hp h
        refine ⟨n, h1, ?_, h3, h4⟩
        have h32 : (0 : Int) < STB_ALLOC_ALIGNMENT := by norm_num [STB_ALLOC_ALIGNMENT]
        omega

theorem alloc_chunk_loop_total : ∀ (k : Nat) (oracle : List (Option Nat))
    (csz : Int) (cs : List stb__chunk) (size align pre : Int),
    0 ≤ size → 1 ≤ align → 0 ≤ pre →
    oracle.length = k + 1 → (∀ o ∈ oracle, o.isSome) →
    size + align + pre + chunkHeaderSize ≤ csz + (k : Int) * (STB_ALLOC_ALIGNMENT + align) →
    ∃ cs' p cid, stb__alloc_chunk_loop oracle cs size align pre csz = .ok cs' p cid := by
  intro k
  induction k with
  | zero =>
    intro oracle csz cs size align pre hs ha hp hlen hsome hbound
    cases oracle with
    | nil => simp at hlen
    | cons o rest =>
      obtain ⟨m, hm⟩ := Option.isSome_iff_exists.1 (hsome o (List.mem_cons_self _ _))
      subst hm
      have hroom : size + align + pre ≤
          (⟨m, m + 16, csz, csz - chunkHeaderSize, 0⟩ : stb__chunk).data_left + 1 := by
        simp only [chunkHeaderSize] at hbound ⊢
        omega
      obtain ⟨c1, p, htry⟩ := stb__try_chunk_total _ size align pre ha hroom
      by_cases hsz : size = csz
      · exact ⟨stb__sort_chunks ({ c1 with alloc := 1 } :: cs), p, m,
          by simp only [stb__alloc_chunk_loop, htry, if_pos hsz]⟩
      · exact ⟨{ c1 with alloc := 1 } :: cs, p, m,
          by simp only [stb__alloc_chunk_loop, htry, if_neg hsz]⟩
  | succ k ih =>
    intro oracle csz cs size align pre hs ha hp hlen hsome hbound
    cases oracle with
    | nil => simp at hlen
    | cons o rest =>
      obtain ⟨m, hm⟩ := Option.isSome_iff_exists.1 (hsome o (List.mem_cons_self _ _))
      subst hm
      cases htry : stb__try_chunk ⟨m, m + 16, csz, csz - chunkHeaderSize, 0⟩
          size align pre with
      | some np =>
        obtain ⟨c1, p⟩ := np
        by_cases hsz : size = csz
        · exact ⟨stb__sort_chunks ({ c1 with alloc := 1 } :: cs), p, m,
            by simp only [stb__alloc_chunk_loop, htry, if_pos hsz]⟩
        · exact ⟨{ c1 with alloc := 1 } :: cs, p, m,
            by simp only [stb__alloc_chunk_loop, htry, if_neg hsz]⟩
      | none =>
        have hlen' : rest.length = k + 1 := by simpa using hlen
        have hsome' : ∀ o ∈ rest, o.isSome := fun o ho => hsome o (List.mem_cons_of_mem _ ho)
        have hbound' : size + align + pre + chunkHeaderSize ≤
            (csz + STB_ALLOC_ALIGNMENT + align) + (k : Int) * (STB_ALLOC_ALIGNMENT + align) := by
          push_cast at hbound ⊢
          have : ((k : Int) + 1) * (STB_ALLOC_ALIGNMENT + align) =
              (k : Int) * (STB_ALLOC_ALIGNMENT + align) + (STB_ALLOC_ALIGNMENT + align) := by
            ring
          omega
        obtain ⟨cs', p, cid, hres⟩ := ih rest (csz + STB_ALLOC_ALIGNMENT + align)
          cs size align pre hs ha hp hlen' hsome' hbound'
        exact ⟨cs', p, cid, by simp only [stb__alloc_chunk_loop, htry]; exact hres⟩

/-- C8 counterexample: an allocation satisfied from the first chunk leaves
that chunk with 50 bytes, strictly less than the 90 bytes of its neighbor,
yet the resulting chunk list is NOT swapped: the depleted chunk stays first.
The claimed policy (swap after every satisfying allocation whenever the used
chunk becomes more depleted than its neighbor) does not hold. -/
theorem stb_sort_not_after_success_cex :
    stb__alloc_chunk [] [⟨1, 1000, 65536, 100, 0⟩, ⟨2, 2000, 65536, 90, 0⟩] 50 1 0 =
      .ok [⟨1, 1000, 65536, 50, 1⟩, ⟨2, 2000, 65536, 90, 0⟩] 1050 1 ∧
    (⟨1, 1000, 65536, 50, 1⟩ : stb__chunk).data_left <
      (⟨2, 2000, 65536, 90, 0⟩ : stb__chunk).data_left := by
  constructor
  · decide
  · decide

/-- C8 (amended): stb__sort_chunks is a local bubble of the first two chunks
only, and it runs in exactly these places: never after an allocation that was
satisfied from the first or the second chunk (those paths return with the
order untouched, except for the counter and data_left updates), and always
when both lookahead tries fail, just before the new-chunk loop. -/
theorem stb_chunk_order_policy :
    (∀ (c d : stb__chunk) (rest : List stb__chunk),
      stb__sort_chunks (c :: d :: rest) =
        if d.data_left < c.data_left then c :: d :: rest else d :: c :: rest) ∧
    (∀ (oracle : List (Option Nat)) (c : stb__chunk) (rest : List stb__chunk)
        (size align pre : Int) (c1 : stb__chunk) (p : Nat),
      size ≤ STB_ALLOC_CHUNK_SZ →
      stb__try_chunk c size align pre = some (c1, p) →
      stb__alloc_chunk oracle (c :: rest) size align pre =
        .ok ({ c1 with alloc := c1.alloc + 1 } :: rest) p c.id) ∧
    (∀ (oracle : List (Option Nat)) (c d : stb__chunk) (rest2 : List stb__chunk)
        (size align pre : Int) (d1 : stb__chunk) (p : Nat),
      size ≤ STB_ALLOC_CHUNK_SZ →
      stb__try_chunk c size align pre = none →
      stb__try_chunk d size align pre = some (d1, p) →
      stb__alloc_chunk oracle (c :: d :: rest2) size align pre =
        .ok ({ c with alloc := c.alloc + 1 } :: d1 :: rest2) p d.id) ∧
    (∀ (oracle : List (Option Nat)) (c d : stb__chunk) (rest2 : List stb__chunk)
        (size align pre : Int),
      size ≤ STB_ALLOC_CHUNK_SZ →
      stb__try_chunk c size align pre = none →
      stb__try_chunk d size align pre = none →
      stb__alloc_chunk oracle (c :: d :: rest2) size align pre =
        stb__alloc_chunk_loop oracle (stb__sort_chunks (c :: d :: rest2)) size align pre
          (if STB_ALLOC_CHUNK_SZ < size then size else STB_ALLOC_CHUNK_SZ)) := by
  refine ⟨?_, ?_, ?_, ?_⟩
  · intro c d rest
    rfl
  · intro oracle c rest size align pre c1 p hsz htry
    simp only [stb__alloc_chunk, if_pos hsz, htry]
  · intro oracle c d rest2 size align pre d1 p hsz htry1 htry2
    simp only [stb__alloc_chunk, if_pos hsz, htry1, htry2]
  · intro oracle c d rest2 size align pre hsz htry1 htry2
    simp only [stb__alloc_chunk, if_pos hsz, htry1, htry2]

/-- Witness for stb_chunk_order_policy: the concrete first-chunk success of
the counterexample, plus a concrete both-fail sort. -/
theorem stb_chunk_order_policy_witness :
    ((50 : Int) ≤ STB_ALLOC_CHUNK_SZ ∧
      stb__try_chunk ⟨1, 1000, 65536, 100, 0⟩ 50 1 0 =
        some (⟨1, 1000, 65536, 50, 0⟩, 1050)) ∧
    stb__alloc_chunk [] [⟨1, 1000, 65536, 100, 0⟩, ⟨2, 2000, 65536, 90, 0⟩] 50 1 0 =
      .ok [⟨1, 1000, 65536, 50, 1⟩, ⟨2, 2000, 65536, 90, 0⟩] 1050 1 :=
  ⟨⟨by decide, by decide⟩, by
    have := stb_chunk_order_policy.2.1 [] ⟨1, 1000, 65536, 100, 0⟩
      [⟨2, 2000, 65536, 90, 0⟩] 50 1 0 ⟨1, 1000, 65536, 50, 0⟩ 1050
      (by decide) (by decide)
    simpa using this⟩

/-- C5 (confirmed): the chunk-arena allocator probes at most the first two
chunks of the arena (everything past them survives as an untouched suffix of
the result); every success is a carve from chunk one, a carve from chunk two
after chunk one failed, or a freshly malloc-ed chunk of chunk_size at least
max(STB_ALLOC_CHUNK_SZ, size) prepended to the (possibly once-sorted) list;
with enough non-failing system allocations the call always succeeds, so a
NULL return can only come from a failing system malloc; and a successful
carve always reserves the full pre_align + size bytes, never a truncation. -/
theorem stb__alloc_chunk_spec (oracle : List (Option Nat)) (cs : List stb__chunk)
    (size align pre : Int) (hs : 0 ≤ size) (ha : 1 ≤ align) (hp : 0 ≤ pre) :
    (∀ cs' p cid, stb__alloc_chunk oracle cs size align pre = .ok cs' p cid →
      ∃ front, cs' = front ++ cs.drop 2 ∧ front.length ≤ 3) ∧
    (∀ cs' p cid, stb__alloc_chunk oracle cs size align pre = .ok cs' p cid →
      (∃ c rest c1, cs = c :: rest ∧ size ≤ STB_ALLOC_CHUNK_SZ ∧
        stb__try_chunk c size align pre = some (c1, p) ∧
        cs' = { c1 with alloc := c1.alloc + 1 } :: rest ∧ cid = c.id) ∨
      (∃ c d rest2 d1, cs = c :: d :: rest2 ∧ size ≤ STB_ALLOC_CHUNK_SZ ∧
        stb__try_chunk c size align pre = none ∧
        stb__try_chunk d size align pre = some (d1, p) ∧
        cs' = { c with alloc := c.alloc + 1 } :: d1 :: rest2 ∧ cid = d.id) ∨
      (∃ n base, cs' = n :: base ∧ n.id = cid ∧ n.alloc = 1 ∧
        STB_ALLOC_CHUNK_SZ ≤ n.csize ∧ size ≤ n.csize ∧
        (base = cs ∨ base = stb__sort_chunks cs))) ∧
    (∀ k : Nat, oracle.length = k + 1 → (∀ o ∈ oracle, o.isSome) →
      size + align + pre + chunkHeaderSize ≤
        (if STB_ALLOC_CHUNK_SZ < size then size else STB_ALLOC_CHUNK_SZ) +
          (k : Int) * (STB_ALLOC_ALIGNMENT + align) →
      ∃ cs' p cid, stb__alloc_chunk oracle cs size align pre = .ok cs' p cid) ∧
    (∀ (c c1 : stb__chunk) (q : Nat), stb__try_chunk c size align pre = some (c1, q) →
      0 ≤ c1.data_left ∧ c1.data_left + pre + size ≤ c.data_left) := by
  have hcsz0 : STB_ALLOC_CHUNK_SZ ≤
      (if STB_ALLOC_CHUNK_SZ < size then size else STB_ALLOC_CHUNK_SZ) ∧
      size ≤ (if STB_ALLOC_CHUNK_SZ < size then size else STB_ALLOC_CHUNK_SZ) := by
    by_cases hx : STB_ALLOC_CHUNK_SZ < size
    · rw [if_pos hx]
      omega
    · rw [if_neg hx]
      omega
  have main : ∀ cs' p cid, stb__alloc_chunk oracle cs size align pre = .ok cs' p cid →
      (∃ c rest c1, cs = c :: rest ∧ size ≤ STB_ALLOC_CHUNK_SZ ∧
        stb__try_chunk c size align pre = some (c1, p) ∧
        cs' = { c1 with alloc := c1.alloc + 1 } :: rest ∧ cid = c.id) ∨
      (∃ c d rest2 d1, cs = c :: d :: rest2 ∧ size ≤ STB_ALLOC_CHUNK_SZ ∧
        stb__try_chunk c size align pre = none ∧
        stb__try_chunk d size align pre = some (d1, p) ∧
        cs' = { c with alloc := c.alloc + 1 } :: d1 :: rest2 ∧ cid = d.id) ∨
      (∃ n base, cs' = n :: base ∧ n.id = cid ∧ n.alloc = 1 ∧
        STB_ALLOC_CHUNK_SZ ≤ n.csize ∧ size ≤ n.csize ∧
        (base = cs ∨ base = stb__sort_chunks cs)) := by
    intro cs' p cid h
    cases cs with
    | nil =>
      simp only [stb__alloc_chunk] at h
      obtain ⟨n, h1, h2, h3, h4⟩ := alloc_chunk_loop_ok oracle [] size align pre _ cs' p cid hs ha hp h
      exact Or.inr (Or.inr ⟨n, [], h1, h4, h3, by omega, by omega, Or.inl rfl⟩)
    | cons c rest =>
      by_cases hsz : size ≤ STB_ALLOC_CHUNK_SZ
      · cases htry1 : stb__try_chunk c size align pre with
        | some c1p =>
          obtain ⟨c1, q⟩ := c1p
          simp only [stb__alloc_chunk, if_pos hsz, htry1, CResult.ok.injEq] at h
          obtain ⟨h1, h2, h3⟩ := h
          subst h2
          exact Or.inl ⟨c, rest, c1, rfl, hsz, htry1, h1.symm, h3.symm⟩
        | none =>
          cases rest with
          | nil =>
            simp only [stb__alloc_chunk, if_pos hsz, htry1] at h
            obtain ⟨n, h1, h2, h3, h4⟩ :=
              alloc_chunk_loop_ok oracle [c] size align pre _ cs' p cid hs ha hp h
            exact Or.inr (Or.inr ⟨n, [c], h1, h4, h3, by omega, by omega, Or.inl rfl⟩)
          | cons d rest2 =>
            cases htry2 : stb__try_chunk d size align pre with
            | some d1p =>
              obtain ⟨d1, q⟩ := d1p
              simp only [stb__alloc_chunk, if_pos hsz, htry1, htry2, CResult.ok.injEq] at h
              obtain ⟨h1, h2, h3⟩ := h
              subst h2
              exact Or.inr (Or.inl ⟨c, d, rest2, d1, rfl, hsz, htry1, htry2, h1.symm, h3.symm⟩)
            | none =>
              simp only [stb__alloc_chunk, if_pos hsz, htry1, htry2] at h
              obtain ⟨n, h1, h2, h3, h4⟩ := alloc_chunk_loop_ok oracle _ size align pre _
                cs' p cid hs ha hp h
              exact Or.inr (Or.inr ⟨n, stb__sort_chunks (c :: d :: rest2), h1, h4, h3,
                by omega, by omega, Or.inr rfl⟩)
      · simp only [stb__alloc_chunk, if_neg hsz] at h
        obtain ⟨n, h1, h2, h3, h4⟩ := alloc_chunk_loop_ok oracle (c :: rest) size align pre _
          cs' p cid hs ha hp h
        exact Or.inr (Or.inr ⟨n, c :: rest, h1, h4, h3, by omega, by omega, Or.inl rfl⟩)
  refine ⟨?_, main, ?_, ?_⟩
  · intro cs' p cid h
    rcases main cs' p cid h with ⟨c, rest, c1, hcs, h1a, h2a, hcs', h3a⟩ |
      ⟨c, d, rest2, d1, hcs, h1a, h2a, h3a, hcs', h4a⟩ |
      ⟨n, base, hcs', h1a, h2a, h3a, h4a, hbase⟩
    · subst hcs
      subst hcs'
      cases rest with
      | nil => exact ⟨[{ c1 with alloc := c1.alloc + 1 }], rfl, by simp⟩
      | cons r rr => exact ⟨[{ c1 with alloc := c1.alloc + 1 }, r], rfl, by simp⟩
    · subst hcs
      subst hcs'
      exact ⟨[{ c with alloc := c.alloc + 1 }, d1], rfl, by simp⟩
    · subst hcs'
      rcases hbase with hbase | hbase
      · rw [hbase]
        cases cs with
        | nil => exact ⟨[n], rfl, by simp⟩
        | cons x xs =>
          cases xs with
          | nil => exact ⟨[n, x], rfl, by simp⟩
          | cons y ys => exact ⟨[n, x, y], rfl, by simp⟩
      · rw [hbase]
        cases cs with
        | nil => exact ⟨[n], rfl, by simp⟩
        | cons x xs =>
          cases xs with
          | nil => exact ⟨[n, x], by simp [stb__sort_chunks], by simp⟩
          | cons y ys =>
            by_cases hd : y.data_left < x.data_left
            · exact ⟨[n, x, y], by simp [stb__sort_chunks, hd], by simp⟩
            · exact ⟨[n, y, x], by simp [stb__sort_chunks, hd], by simp⟩
  · intro k hlen hsome hbound
    cases cs with
    | nil =>
      obtain ⟨cs', p, cid, hres⟩ := alloc_chunk_loop_total k oracle _ [] size align pre
        hs ha hp hlen hsome hbound
      exact ⟨cs', p, cid, by simpa [stb__alloc_chunk] using hres⟩
    | cons c rest =>
      by_cases hsz : size ≤ STB_ALLOC_CHUNK_SZ
      · cases htry1 : stb__try_chunk c size align pre with
        | some c1p =>
          obtain ⟨c1, q⟩ := c1p
          exact ⟨{ c1 with alloc := c1.alloc + 1 } :: rest, q, c.id,
            by simp only [stb__alloc_chunk, if_pos hsz, htry1]⟩
        | none =>
          cases rest with
          | nil =>
            obtain ⟨cs', p, cid, hres⟩ := alloc_chunk_loop_total k oracle _ [c] size align pre
              hs ha hp hlen hsome hbound
            exact ⟨cs', p, cid, by simp only [stb__alloc_chunk, if_pos hsz, htry1]; exact hres⟩
          | cons d rest2 =>
            cases htry2 : stb__try_chunk d size align pre with
            | some d1p =>
              obtain ⟨d1, q⟩ := d1p
              exact ⟨{ c with alloc := c.alloc + 1 } :: d1 :: rest2, q, d.id,
                by simp only [stb__alloc_chunk, if_pos hsz, htry1, htry2]⟩
            | none =>
              obtain ⟨cs', p, cid, hres⟩ := alloc_chunk_loop_total k oracle _
                (stb__sort_chunks (c :: d :: rest2)) size align pre hs ha hp hlen hsome hbound
              exact ⟨cs', p, cid,
                by simp only [stb__alloc_chunk, if_pos hsz, htry1, htry2]; exact hres⟩
      · obtain ⟨cs', p, cid, hres⟩ := alloc_chunk_loop_total k oracle _ (c :: rest)
          size align pre hs ha hp hlen hsome hbound
        exact ⟨cs', p, cid, by simp only [stb__alloc_chunk, if_neg hsz]; exact hres⟩
  · intro c c1 q htry
    have hb := stb__try_chunk_bounds c c1 size align pre q hs ha hp htry
    exact ⟨hb.1, hb.2.1⟩

/-- Witness for stb__alloc_chunk_spec: size 40, align 8, pre_align 8 from an
empty arena with a single-entry all-some oracle; the no-truncation conjunct
is applied at a concrete successful carve. -/
theorem stb__alloc_chunk_spec_witness :
    ((0 : Int) ≤ 40 ∧ (1 : Int) ≤ 8 ∧ (0 : Int) ≤ 8) ∧
    ([some 5000].length = 0 + 1 ∧ (∀ o ∈ [some (5000 : Nat)], o.isSome)) ∧
    (∃ cs' p cid, stb__alloc_chunk [some 5000] [] 40 8 8 = .ok cs' p cid) ∧
    (stb__try_chunk ⟨1, 1000, 65536, 100, 0⟩ 40 8 8 = some (⟨1, 1000, 65536, 48, 0⟩, 1048) ∧
      0 ≤ (⟨1, 1000, 65536, 48, 0⟩ : stb__chunk).data_left ∧
      (⟨1, 1000, 65536, 48, 0⟩ : stb__chunk).data_left + 8 + 40 ≤
        (⟨1, 1000, 65536, 100, 0⟩ : stb__chunk).data_left) := by
  refine ⟨⟨by decide, by decide, by decide⟩, ⟨by decide, by decide⟩, ?_, ?_⟩
  · exact (stb__alloc_chunk_spec [some 5000] [] 40 8 8 (by decide) (by decide)
      (by decide)).2.2.1 0 (by decide) (by decide) (by decide)
  · refine ⟨by decide, ?_⟩
    exact (stb__alloc_chunk_spec [some 5000] [] 40 8 8 (by decide) (by decide)
      (by decide)).2.2.2 ⟨1, 1000, 65536, 100, 0⟩ ⟨1, 1000, 65536, 48, 0⟩ 1048 (by decide)

/-! Out of memory paths. -/

theorem stb__alloc_chunk_oom (oracle : List (Option Nat)) (cs : List stb__chunk)
    (size align pre : Int) (cl' : List stb__chunk)
    (h : stb__alloc_chunk oracle cs size align pre = .oom cl') :
    cl' = cs ∨ cl' = stb__sort_chunks cs := by
  cases cs with
  | nil =>
    simp only [stb__alloc_chunk] at h
    exact Or.inl (alloc_chunk_loop_oom _ _ _ _ _ _ _ h)
  | cons c rest =>
    by_cases hsz : size ≤ STB_ALLOC_CHUNK_SZ
    · cases htry1 : stb__try_chunk c size align pre with
      | some c1p =>
        obtain ⟨c1, q⟩ := c1p
        simp [stb__alloc_chunk, if_pos hsz, htry1] at h
      | none =>
        cases rest with
        | nil =>
          simp only [stb__alloc_chunk, if_pos hsz, htry1] at h
          exact Or.inl (alloc_chunk_loop_oom _ _ _ _ _ _ _ h)
        | cons d rest2 =>
          cases htry2 : stb__try_chunk d size align pre with
          | some d1p =>
            obtain ⟨d1, q⟩ := d1p
            simp [stb__alloc_chunk, if_pos hsz, htry1, htry2] at h
          | none =>
            simp only [stb__alloc_chunk, if_pos hsz, htry1, htry2] at h
            exact Or.inr (alloc_chunk_loop_oom _ _ _ _ _ _ _ h)
    · simp only [stb__alloc_chunk, if_neg hsz] at h
      exact Or.inl (alloc_chunk_loop_oom _ _ _ _ _ _ _ h)

theorem setChunksOf_inv (s : State) (p : Nat) (cl : List stb__chunk) (s' : State)
    (h : setChunksOf s p cl = some s') :
    ∃ pv c nx cs0, getNode s p = some (.salloc pv c nx cs0) ∧
      s' = setNode s p (.salloc pv c nx cl) := by
  cases hg : getNode s p with
  | none => simp [setChunksOf, hg] at h
  | some nd =>
    cases nd with
    | salloc pv c nx cs0 =>
      simp only [setChunksOf, hg, Option.some.injEq] at h
      exact ⟨pv, c, nx, cs0, rfl, h.symm⟩
    | nochildren nx pv => simp [setChunksOf, hg] at h
    | chunked par oc => simp [setChunksOf, hg] at h
    | raw w oc => simp [setChunksOf, hg] at h

theorem getChunks_inv (s : State) (p : Nat) (cl : List stb__chunk)
    (h : getChunks s p = some cl) :
    ∃ pv c nx, getNode s p = some (.salloc pv c nx cl) := by
  cases hg : getNode s p with
  | none => simp [getChunks, hg] at h
  | some nd =>
    cases nd with
    | salloc pv c nx cs0 =>
      simp only [getChunks, hg, Option.some.injEq] at h
      subst h
      exact ⟨pv, c, nx, rfl⟩
    | nochildren nx pv => simp [getChunks, hg] at h
    | chunked par oc => simp [getChunks, hg] at h
    | raw w oc => simp [getChunks, hg] at h

/-- C4 (amended): an out-of-memory failure of the dispatcher returns NULL
(the .oom outcome), leaves both diagnostic counters untouched and leaves the
heap unmodified, EXCEPT that when the failure happened in the chunk arena the
first two chunks of the context arena may have been reordered by
stb__sort_chunks before the failing system malloc; the chunk list keeps
exactly the same chunks (a permutation), and sibling lists and child pointers
are untouched.  A failing system realloc in the stb_realloc STB__alloc branch
returns NULL with the state exactly unchanged. -/
theorem stb_alloc_oom_preserves :
    (∀ (s : State) (context : Option Nat) (size : Nat) (t : Nat) (align0 : Int)
        (hdr : Option Nat) (oracle : List (Option Nat)) (rawWord : Nat) (s' : State),
      malloc_base s context size t align0 hdr oracle rawWord = .oom s' →
      s'.countAlloc = s.countAlloc ∧ s'.countFree = s.countFree ∧
      (s' = s ∨ ∃ src pv c nx cl cl', stb__get_context s context = some src ∧
        getNode s src = some (.salloc pv c nx cl) ∧
        (cl' = cl ∨ cl' = stb__sort_chunks cl) ∧ cl'.Perm cl ∧
        s' = setNode s src (.salloc pv c nx cl'))) ∧
    (∀ (s : State) (p : Nat) (newsize : Nat) (freeFuel : Nat) (hdr : Option Nat)
        (oracle : List (Option Nat)) (rawWord : Nat),
      newsize ≠ 0 → stb__identify s p = some 2 →
      stb_realloc s (some p) newsize none freeFuel hdr oracle rawWord = some (s, none)) := by
  constructor
  · intro s context size t align0 hdr oracle rawWord s' h
    cases hctx : stb__get_context s context with
    | none => simp [malloc_base, hctx] at h
    | some src =>
      by_cases hpow : stb_is_pow2 (stb__auto_align size align0).toNat
      · simp only [malloc_base, hctx, hpow, Bool.not_true, Bool.false_eq_true,
          if_false] at h
        set t1 := (if t = 0 ∧ 8 < stb__auto_align size align0 then 2 else t) with ht1def
        clear ht1def
        rcases t1 with _ | _ | _ | _ | _ | t6
        · -- tag 0: STB__nochildren header malloc
          cases hdr with
          | none =>
            injection h with h
            subst h
            exact ⟨rfl, rfl, Or.inl rfl⟩
          | some a =>
            by_cases hfr : a = 0 ∨ (lookupA s.mem a).isSome = true
            · simp [hfr] at h
            · simp only [if_neg hfr] at h
              cases hins : stb__insert_nochild (pushNode s a (.nochildren none none)) src a with
              | none => rw [hins] at h; simp at h
              | some s2 => rw [hins] at h; simp at h
        · -- tag 1: STB__chunked, carved from the context arena
          cases hcl : getChunks s src with
          | none => rw [hcl] at h; simp at h
          | some cl =>
            rw [hcl] at h
            simp only [] at h
            cases hac : stb__alloc_chunk oracle cl (int32 size)
                (if stb__auto_align size align0 < 8 then 8 else stb__auto_align size align0) 8 with
            | stuck => rw [hac] at h; simp at h
            | ok cl' q cid =>
              rw [hac] at h
              simp only [] at h
              cases hset : setChunksOf s src cl' with
              | none => rw [hset] at h; simp at h
              | some s1 =>
                rw [hset] at h
                simp only [] at h
                by_cases hfr : q + 8 = 0 ∨ (lookupA s1.mem (q + 8)).isSome = true
                · rw [if_pos hfr] at h
                  simp at h
                · rw [if_neg hfr] at h
                  simp at h
            | oom cl' =>
              rw [hac] at h
              simp only [] at h
              cases hset : setChunksOf s src cl' with
              | none => rw [hset] at h; simp at h
              | some s1 =>
                rw [hset] at h
                simp only [] at h
                injection h with h
                subst h
                obtain ⟨pv, c, nx, cs0, hg, hs1⟩ := setChunksOf_inv s src cl' s1 hset
                obtain ⟨pv2, c2, nx2, hg2⟩ := getChunks_inv s src cl hcl
                rw [hg] at hg2
                simp only [Option.some.injEq, Node.salloc.injEq] at hg2
                obtain ⟨hpv, hc, hnx, hcs⟩ := hg2
                subst hcs
                have hdisj := stb__alloc_chunk_oom oracle cs0 (int32 size)
                  (if stb__auto_align size align0 < 8 then 8 else stb__auto_align size align0) 8 cl' hac
                refine ⟨by rw [hs1]; rfl, by rw [hs1]; rfl,
                  Or.inr ⟨src, pv, c, nx, cs0, cl', rfl, hg, hdisj, ?_, hs1⟩⟩
                rcases hdisj with hd | hd
                · rw [hd]
                · rw [hd]
                  exact stb__sort_chunks_perm cs0
        · -- tag 2: STB__alloc header malloc
          cases hdr with
          | none =>
            injection h with h
            subst h
            exact ⟨rfl, rfl, Or.inl rfl⟩
          | some a =>
            by_cases hfr : a = 0 ∨ (lookupA s.mem a).isSome = true
            · simp [hfr] at h
            · simp only [if_neg hfr] at h
              cases hins : stb__insert_alloc (pushNode s a (.salloc none none none [])) src a with
              | none => rw [hins] at h; simp at h
              | some s2 => rw [hins] at h; simp at h
        · -- tag 3: assert(0) arm, never an oom
          simp at h
        · -- tag 4: STB__chunk_raw, carved from the context arena
          cases hcl : getChunks s src with
          | none => rw [hcl] at h; simp at h
          | some cl =>
            rw [hcl] at h
            simp only [] at h
            cases hac : stb__alloc_chunk oracle cl (int32 size)
                (stb__auto_align size align0) 0 with
            | stuck => rw [hac] at h; simp at h
            | ok cl' q cid =>
              rw [hac] at h
              simp only [] at h
              cases hset : setChunksOf s src cl' with
              | none => rw [hset] at h; simp at h
              | some s1 =>
                rw [hset] at h
                simp only [] at h
                by_cases hfr : q = 0 ∨ (lookupA s1.mem (q)).isSome = true
                · rw [if_pos hfr] at h
                  simp at h
                · rw [if_neg hfr] at h
                  simp at h
            | oom cl' =>
              rw [hac] at h
              simp only [] at h
              cases hset : setChunksOf s src cl' with
              | none => rw [hset] at h; simp at h
              | some s1 =>
                rw [hset] at h
                simp only [] at h
                injection h with h
                subst h
                obtain ⟨pv, c, nx, cs0, hg, hs1⟩ := setChunksOf_inv s src cl' s1 hset
                obtain ⟨pv2, c2, nx2, hg2⟩ := getChunks_inv s src cl hcl
                rw [hg] at hg2
                simp only [Option.some.injEq, Node.salloc.injEq] at hg2
                obtain ⟨hpv, hc, hnx, hcs⟩ := hg2
                subst hcs
                have hdisj := stb__alloc_chunk_oom oracle cs0 (int32 size)
                  (stb__auto_align size align0) 0 cl' hac
                refine ⟨by rw [hs1]; rfl, by rw [hs1]; rfl,
                  Or.inr ⟨src, pv, c, nx, cs0, cl', rfl, hg, hdisj, ?_, hs1⟩⟩
                rcases hdisj with hd | hd
                · rw [hd]
                · rw [hd]
                  exact stb__sort_chunks_perm cs0
        · -- any other tag: assert(0) arm
          simp at h
      · simp [malloc_base, hctx, hpow] at h
  · intro s p newsize freeFuel hdr oracle rawWord hns hid
    simp only [stb_realloc, if_neg hns, hid]

/-- C4 counterexample: both chunks of the arena are too depleted for the
request, the system malloc fails (oracle none), the call returns the NULL
outcome — but the arena chunk list was already reordered by stb__sort_chunks,
so the heap is NOT left unmodified as claimed. -/
theorem stb_malloc_oom_reorders_chunks_cex :
    malloc_base c4S none 100 4 (-32) none [none] 0 = .oom c4Sp ∧ c4Sp ≠ c4S := by
  constructor
  · decide
  · decide

/-- Witness for stb_alloc_oom_preserves at the concrete failing allocation
of the counterexample state. -/
theorem stb_alloc_oom_preserves_witness :
    malloc_base c4S none 100 4 (-32) none [none] 0 = .oom c4Sp ∧
    (c4Sp.countAlloc = c4S.countAlloc ∧ c4Sp.countFree = c4S.countFree ∧
      (c4Sp = c4S ∨ ∃ src pv c nx cl cl', stb__get_context c4S none = some src ∧
        getNode c4S src = some (.salloc pv c nx cl) ∧
        (cl' = cl ∨ cl' = stb__sort_chunks cl) ∧ cl'.Perm cl ∧
        c4Sp = setNode c4S src (.salloc pv c nx cl'))) :=
  ⟨by decide, stb_alloc_oom_preserves.1 c4S none 100 4 (-32) none [none] 0 c4Sp (by decide)⟩

/-- C1 counterexample: in c1S the node 20 is a descendant of 10 in the
ownership graph, yet stb_reassign with new_context = 20 and ptr = 10
completes without any fatal outcome (no assertion fires) and installs 10 as
the head child of 20 while 20 is still the child of 10 — the reassignment is
silently accepted and creates a cycle, refuting the claimed rejection. -/
theorem stb_reassign_descendant_accepted_cex :
    isDescendantB 5 c1S 10 20 = true ∧
    stb_reassign c1S (some 20) 10 = some c1Sp ∧
    getChild c1Sp 20 = some (some 10) ∧
    getChild c1Sp 10 = some (some 20) := by
  refine ⟨by decide, by decide, by decide, by decide⟩

theorem stb__insert_alloc_eval (s s2 s3 s4 : State) (src p : Nat) (oc : Option Nat)
    (hsp : setPrevnField s p (some (.childOf src)) = some s2)
    (hch : getChild s2 src = some oc)
    (hw1 : writeSlot s2 (.nextOf p) oc = some s3)
    (hw2 : writeSlot s3 (.childOf src) (some p) = some s4)
    (hn : getNext s4 p = some none) :
    stb__insert_alloc s src p = some s4 := by
  simp only [stb__insert_alloc, hsp, hch, hw1, hw2, hn, Option.bind_eq_bind,
    Option.some_bind]

/-- C1 (amended): stb_reassign performs no descendant or cycle check: the
only gate is the tag assertion on ptr.  Whenever the involved headers have
the shapes the walk expects — par holds ptr as head child, ptr has no next
sibling, the descendant d is an arena header with no children — reassigning
ptr under its own descendant d completes silently and installs ptr as the
head child of d, making ptr a descendant of itself. -/
theorem stb_reassign_no_descendant_check (s : State) (par ptr d : Nat)
    (fuel : Nat) (ppv : Option Slot) (pc pnx : Option Nat) (pcs : List stb__chunk)
    (ch : Option Nat) (cs : List stb__chunk) (dpv : Option Slot) (dnx : Option Nat)
    (dcs : List stb__chunk)
    (hdesc : isDescendantB fuel s ptr d = true)
    (hpar : getNode s par = some (.salloc ppv (some ptr) pnx pcs))
    (hptr : getNode s ptr = some (.salloc (some (.childOf par)) ch none cs))
    (hd : getNode s d = some (.salloc dpv none dnx dcs))
    (hne1 : ptr ≠ par) (hne2 : d ≠ par) (hne3 : d ≠ ptr) :
    ∃ s', stb_reassign s (some d) ptr = some s' ∧
      getChild s' d = some (some ptr) ∧
      getPrevn s' ptr = some (some (.childOf d)) := by
  have hid_d : stb__identify s d = some 2 := by
    simp only [stb__identify, hd]
  have hid_p : stb__identify s ptr = some 2 := by
    simp only [stb__identify, hptr]
  have hctx : stb__get_context s (some d) = some d := by
    simp only [stb__get_context, hid_d]
  have hgp : getPrevn s ptr = some (some (.childOf par)) := by
    simp only [getPrevn, hptr]
  have hgn : getNext s ptr = some (none : Option Nat) := by
    simp only [getNext, hptr]
  have hws : writeSlot s (.childOf par) none =
      some (setNode s par (.salloc ppv none pnx pcs)) := by
    simp only [writeSlot, hpar]
  set s1 := setNode s par (.salloc ppv none pnx pcs) with hs1def
  have hptr1 : getNode s1 ptr = some (.salloc (some (.childOf par)) ch none cs) := by
    rw [hs1def, getNode_setNode_ne s par ptr _ hne1]
    exact hptr
  have hd1 : getNode s1 d = some (.salloc dpv none dnx dcs) := by
    rw [hs1def, getNode_setNode_ne s par d _ hne2]
    exact hd
  have hgn1 : getNext s1 ptr = some (none : Option Nat) := by
    simp only [getNext, hptr1]
  have hsp2 : setPrevnField s1 ptr (some (.childOf d)) =
      some (setNode s1 ptr (.salloc (some (.childOf d)) ch none cs)) := by
    simp only [setPrevnField, hptr1]
  set s2 := setNode s1 ptr (.salloc (some (.childOf d)) ch none cs) with hs2def
  have hd2 : getNode s2 d = some (.salloc dpv none dnx dcs) := by
    rw [hs2def, getNode_setNode_ne s1 ptr d _ hne3]
    exact hd1
  have hch2 : getChild s2 d = some (none : Option Nat) := by
    simp only [getChild, hd2]
  have hptr2 : getNode s2 ptr = some (.salloc (some (.childOf d)) ch none cs) := by
    rw [hs2def]
    exact getNode_setNode_self s1 ptr _ _ hptr1
  have hw12 : writeSlot s2 (.nextOf ptr) none =
      some (setNode s2 ptr (.salloc (some (.childOf d)) ch none cs)) := by
    simp only [writeSlot, hptr2]
  set s3 := setNode s2 ptr (.salloc (some (.childOf d)) ch none cs) with hs3def
  have hptr3 : getNode s3 ptr = some (.salloc (some (.childOf d)) ch none cs) := by
    rw [hs3def]
    exact getNode_setNode_self s2 ptr _ _ hptr2
  have hd3 : getNode s3 d = some (.salloc dpv none dnx dcs) := by
    rw [hs3def, getNode_setNode_ne s2 ptr d _ hne3]
    exact hd2
  have hw23 : writeSlot s3 (.childOf d) (some ptr) =
      some (setNode s3 d (.salloc dpv (some ptr) dnx dcs)) := by
    simp only [writeSlot, hd3]
  set s4 := setNode s3 d (.salloc dpv (some ptr) dnx dcs) with hs4def
  have hptr4 : getNode s4 ptr = some (.salloc (some (.childOf d)) ch none cs) := by
    rw [hs4def, getNode_setNode_ne s3 d ptr _ (fun hc => hne3 hc.symm)]
    exact hptr3
  have hgn4 : getNext s4 ptr = some (none : Option Nat) := by
    simp only [getNext, hptr4]
  have hins : stb__insert_alloc s1 d ptr = some s4 :=
    stb__insert_alloc_eval s1 s2 s3 s4 d ptr none hsp2 hch2 hw12 hw23 hgn4
  refine ⟨s4, ?_, ?_, ?_⟩
  · simp only [stb_reassign, hctx, hid_p, hgp, hgn, hws, hgn1, hins]
  · rw [getChild, hs4def]
    rw [getNode_setNode_self s3 d _ _ hd3]
  · simp only [getPrevn, hptr4]

/-- Witness for stb_reassign_no_descendant_check at the concrete c1S heap
(par = 0, ptr = 10, d = 20). -/
theorem stb_reassign_no_descendant_check_witness :
    isDescendantB 5 c1S 10 20 = true ∧
    (∃ s', stb_reassign c1S (some 20) 10 = some s' ∧
      getChild s' 20 = some (some 10) ∧
      getPrevn s' 10 = some (some (.childOf 20))) :=
  ⟨by decide,
    stb_reassign_no_descendant_check c1S 0 10 20 5 none (some 10) none []
      (some 20) [] (some (.childOf 10)) none [] (by decide) (by decide) (by decide)
      (by decide) (by decide) (by decide) (by decide)⟩

theorem lookupA_eraseA_self (m : List (Nat × Node)) (a : Nat) :
    lookupA (eraseA m a) a = none := by
  induction m with
  | nil => simp [eraseA, lookupA]
  | cons e t ih =>
    by_cases he : e.1 = a
    · simp only [eraseA, if_pos he]
      exact ih
    · simp only [eraseA, if_neg he, lookupA, if_neg he]
      exact ih

theorem ne_of_fresh (m : List (Nat × Node)) (a b : Nat) (n : Node)
    (ha : lookupA m a = none) (hb : lookupA m b = some n) : b ≠ a := by
  intro hc
  rw [hc, ha] at hb
  exact Option.noConfusion hb

/-- C2 counterexample: stb_realloc moves the arena header from address 10 to
address 50 and repairs the sibling links, but the chunked leaf at 30 still
carries parent back-pointer 10, an address that no longer holds any live
header — the claimed repair of chunked children parent back-pointers does
not happen. -/
theorem stb_realloc_stale_chunked_parent_cex :
    stb_realloc c2S (some 10) 64 (some 50) 0 none [] 0 = some (c2Sp, some 50) ∧
    getNode c2Sp 30 = some (.chunked 10 7) ∧
    getNode c2Sp 10 = none ∧ getNode c2Sp 50 ≠ none := by
  refine ⟨by decide, by decide, by decide, by decide⟩

/-- C2 (amended): in the STB__alloc branch, when the system realloc moves the
header from p to a, stb_realloc repairs exactly the three sibling-chain
pointers that referenced the old address — the slot stored in prevn (here the
parent child slot), the next sibling prevn, and the head child prevn — and
carries the node fields over unchanged; every chunked node in the heap keeps
its parent back-pointer exactly as it was, so a chunked child of p is left
pointing at the dead address. -/
theorem stb_realloc_repairs_sibling_links (s : State) (p a q cq par : Nat)
    (newsize freeFuel : Nat) (hdr : Option Nat) (oracle : List (Option Nat))
    (rawWord : Nat) (cs pcs cqcs : List stb__chunk)
    (ppv : Option Slot) (pnx : Option Nat)
    (qnx : Option Nat) (cqch cqnx : Option Nat)
    (hns : newsize ≠ 0)
    (hp : getNode s p = some (.salloc (some (.childOf par)) (some cq) (some q) cs))
    (hpar : getNode s par = some (.salloc ppv (some p) pnx pcs))
    (hq : getNode s q = some (.nochildren qnx (some (.nextOf p))))
    (hcq : getNode s cq = some (.salloc (some (.childOf p)) cqch cqnx cqcs))
    (hfresh : lookupA s.mem a = none) (ha0 : a ≠ 0)
    (hppar : p ≠ par) (hqp : q ≠ p) (hqpar : q ≠ par)
    (hcqp : cq ≠ p) (hcqq : cq ≠ q) (hcqpar : cq ≠ par) :
    ∃ s', stb_realloc s (some p) newsize (some a) freeFuel hdr oracle rawWord =
        some (s', some a) ∧
      getChild s' par = some (some a) ∧
      getPrevn s' q = some (some (.nextOf a)) ∧
      getPrevn s' cq = some (some (.childOf a)) ∧
      getNode s' a = some (.salloc (some (.childOf par)) (some cq) (some q) cs) ∧
      getNode s' p = none ∧
      (∀ r pr oc, getNode s r = some (.chunked pr oc) →
        getNode s' r = some (.chunked pr oc)) := by
  have hap : p ≠ a := ne_of_fresh s.mem a p _ hfresh hp
  have hapar : par ≠ a := ne_of_fresh s.mem a par _ hfresh hpar
  have haq : q ≠ a := ne_of_fresh s.mem a q _ hfresh hq
  have hacq : cq ≠ a := ne_of_fresh s.mem a cq _ hfresh hcq
  have hid_p : stb__identify s p = some 2 := by
    simp only [stb__identify, hp]
  have hcond : ¬ (a = 0 ∨ (a ≠ p ∧ (lookupA s.mem a).isSome)) := by
    rw [hfresh]
    simp [ha0]
  set s1 := pushNode (eraseNode s p) a (.salloc (some (.childOf par)) (some cq) (some q) cs)
    with hs1def
  have hnode1 : ∀ b nd, b ≠ p → b ≠ a → getNode s b = some nd → getNode s1 b = some nd := by
    intro b nd hbp hba hgb
    rw [hs1def, getNode_pushNode_ne _ a b _ hba, getNode_eraseNode_ne s p b hbp]
    exact hgb
  have hpar1 : getNode s1 par = some (.salloc ppv (some p) pnx pcs) :=
    hnode1 par _ (fun hc => hppar hc.symm) hapar hpar
  have hws : writeSlot s1 (.childOf par) (some a) =
      some (setNode s1 par (.salloc ppv (some a) pnx pcs)) := by
    simp only [writeSlot, hpar1]
  set s2 := setNode s1 par (.salloc ppv (some a) pnx pcs) with hs2def
  have ha1 : getNode s1 a = some (.salloc (some (.childOf par)) (some cq) (some q) cs) := by
    rw [hs1def]
    exact getNode_pushNode_self _ a _
  have ha2 : getNode s2 a = some (.salloc (some (.childOf par)) (some cq) (some q) cs) := by
    rw [hs2def, getNode_setNode_ne s1 par a _ (fun hc => hapar hc.symm)]
    exact ha1
  have hgn2 : getNext s2 a = some (some q) := by
    simp only [getNext, ha2]
  have hq2 : getNode s2 q = some (.nochildren qnx (some (.nextOf p))) := by
    rw [hs2def, getNode_setNode_ne s1 par q _ hqpar]
    exact hnode1 q _ hqp haq hq
  have hspq : setPrevnField s2 q (some (.nextOf a)) =
      some (setNode s2 q (.nochildren qnx (some (.nextOf a)))) := by
    simp only [setPrevnField, hq2]
  set s3 := setNode s2 q (.nochildren qnx (some (.nextOf a))) with hs3def
  have ha3 : getNode s3 a = some (.salloc (some (.childOf par)) (some cq) (some q) cs) := by
    rw [hs3def, getNode_setNode_ne s2 q a _ (fun hc => haq hc.symm)]
    exact ha2
  have hgc3 : getChild s3 a = some (some cq) := by
    simp only [getChild, ha3]
  have hcq3 : getNode s3 cq = some (.salloc (some (.childOf p)) cqch cqnx cqcs) := by
    rw [hs3def, getNode_setNode_ne s2 q cq _ hcqq, hs2def,
      getNode_setNode_ne s1 par cq _ hcqpar]
    exact hnode1 cq _ hcqp hacq hcq
  have hspc : setPrevnField s3 cq (some (.childOf a)) =
      some (setNode s3 cq (.salloc (some (.childOf a)) cqch cqnx cqcs)) := by
    simp only [setPrevnField, hcq3]
  set s4 := setNode s3 cq (.salloc (some (.childOf a)) cqch cqnx cqcs) with hs4def
  have hmove : stb__realloc_move s p a = some (s4, some a) := by
    simp only [stb__realloc_move, if_neg hcond, hp, hws, hgn2, hspq, hgc3, hspc]
  refine ⟨s4, ?_, ?_, ?_, ?_, ?_, ?_, ?_⟩
  · simp only [stb_realloc, if_neg hns, hid_p, hmove]
  · have hpar4 : getNode s4 par = some (.salloc ppv (some a) pnx pcs) := by
      rw [hs4def, getNode_setNode_ne s3 cq par _ (fun hc => hcqpar hc.symm), hs3def,
        getNode_setNode_ne s2 q par _ (fun hc => hqpar hc.symm), hs2def]
      exact getNode_setNode_self s1 par _ _ hpar1
    simp only [getChild, hpar4]
  · have hq4 : getNode s4 q = some (.nochildren qnx (some (.nextOf a))) := by
      rw [hs4def, getNode_setNode_ne s3 cq q _ (fun hc => hcqq hc.symm), hs3def]
      exact getNode_setNode_self s2 q _ _ hq2
    simp only [getPrevn, hq4]
  · have hcq4 : getNode s4 cq = some (.salloc (some (.childOf a)) cqch cqnx cqcs) := by
      rw [hs4def]
      exact getNode_setNode_self s3 cq _ _ hcq3
    simp only [getPrevn, hcq4]
  · rw [hs4def, getNode_setNode_ne s3 cq a _ (fun hc => hacq hc.symm)]
    exact ha3
  · rw [hs4def, getNode_setNode_ne s3 cq p _ (Ne.symm hcqp), hs3def,
      getNode_setNode_ne s2 q p _ (Ne.symm hqp), hs2def, getNode_setNode_ne s1 par p _ hppar,
      hs1def, getNode_pushNode_ne _ a p _ hap]
    show lookupA (eraseA s.mem p) p = none
    exact lookupA_eraseA_self s.mem p
  · intro r pr oc hr
    have hrp : r ≠ p := by
      intro hc
      rw [hc, hp] at hr
      exact Option.noConfusion hr (fun h => Node.noConfusion h)
    have hrpar : r ≠ par := by
      intro hc
      rw [hc, hpar] at hr
      exact Option.noConfusion hr (fun h => Node.noConfusion h)
    have hrq : r ≠ q := by
      intro hc
      rw [hc, hq] at hr
      exact Option.noConfusion hr (fun h => Node.noConfusion h)
    have hrcq : r ≠ cq := by
      intro hc
      rw [hc, hcq] at hr
      exact Option.noConfusion hr (fun h => Node.noConfusion h)
    have hra : r ≠ a := ne_of_fresh s.mem a r _ hfresh hr
    rw [hs4def, getNode_setNode_ne s3 cq r _ hrcq, hs3def,
      getNode_setNode_ne s2 q r _ hrq, hs2def, getNode_setNode_ne s1 par r _ hrpar]
    exact hnode1 r _ hrp hra hr

/-- Witness for stb_realloc_repairs_sibling_links at the concrete c2W heap
(p = 10 moved to a = 50, parent 0, next sibling 40, head child 20). -/
theorem stb_realloc_repairs_sibling_links_witness :
    getNode c2W 10 = some (.salloc (some (.childOf 0)) (some 20) (some 40)
      [⟨7, 1000, 65536, 40, 1⟩]) ∧
    (∃ s', stb_realloc c2W (some 10) 64 (some 50) 0 none [] 0 = some (s', some 50) ∧
      getChild s' 0 = some (some 50) ∧
      getPrevn s' 40 = some (some (.nextOf 50)) ∧
      getPrevn s' 20 = some (some (.childOf 50)) ∧
      getNode s' 50 = some (.salloc (some (.childOf 0)) (some 20) (some 40)
        [⟨7, 1000, 65536, 40, 1⟩]) ∧
      getNode s' 10 = none ∧
      (∀ r pr oc, getNode c2W r = some (.chunked pr oc) →
        getNode s' r = some (.chunked pr oc))) :=
  ⟨by decide,
    stb_realloc_repairs_sibling_links c2W 10 50 40 20 0 64 0 none [] 0
      [⟨7, 1000, 65536, 40, 1⟩] [] [] none none none none none
      (by decide) (by decide) (by decide) (by decide) (by decide) (by decide)
      (by decide) (by decide) (by decide) (by decide) (by decide) (by decide)
      (by decide)⟩

theorem stb_free_children_last (fuel : Nat) : ∀ (s : State) (p : Nat) (s2 : State)
    (tr : List Event), stb_free_children fuel s p = some (s2, tr) →
    tr.getLast? = some (.freeHeader p) := by
  induction fuel with
  | zero =>
    intro s p s2 tr h
    simp [stb_free_children] at h
  | succ fuel ih =>
    intro s p s2 tr h
    cases hg : getChild s p with
    | none =>
      simp only [stb_free_children, hg] at h
      exact Option.noConfusion h
    | some c =>
      cases c with
      | none =>
        simp only [stb_free_children, hg, Option.some.injEq, Prod.mk.injEq] at h
        rw [← h.2]
        rfl
      | some q =>
        simp only [stb_free_children, hg] at h
        cases hfg : stb_free_go fuel s (some q) with
        | none => rw [hfg] at h; simp at h
        | some r1 =>
          obtain ⟨s1, tr1⟩ := r1
          rw [hfg] at h
          simp only [] at h
          cases hc2 : stb_free_children fuel s1 p with
          | none => rw [hc2] at h; simp at h
          | some r2 =>
            obtain ⟨s2x, tr2⟩ := r2
            rw [hc2] at h
            simp only [Option.some.injEq, Prod.mk.injEq] at h
            have hlast := ih s1 p s2x tr2 hc2
            rw [← h.2, List.getLast?_append]
            rw [hlast]
            rfl

/-- C3 counterexample: freeing the arena at 10 (which owns chunk 7 and has
the child header 20) emits the chunk deallocation STRICTLY BEFORE the child
header deallocation — the chunks are released first, then the children, then
the own header, not children before chunks. -/
theorem stb_free_chunks_before_children_cex :
    getChunks c3S 10 = some [⟨7, 1000, 65536, 100, 1⟩] ∧
    getChild c3S 10 = some (some 20) ∧
    stb_free_go 5 c3S (some 10) =
      some (c3Sp, [.freeChunk 7, .freeHeader 20, .freeHeader 10]) ∧
    c3Trace.indexOf (.freeChunk 7) < c3Trace.indexOf (.freeHeader 20) := by
  refine ⟨by decide, by decide, by decide, by decide⟩

/-- C3 (amended): in the STB__alloc case of stb_free, after the node is
unlinked from its sibling chain, first every chunk of the node is handed to
STB__ALLOC_FREE (lines 265-276), and only then are the children freed and the
own header released (lines 284-291): the emitted trace is the chunk events
followed by the child-loop trace, and that child-loop trace ends with the own
header event. -/
theorem stb_free_alloc_frees_chunks_first (fuel : Nat) (s : State) (p : Nat)
    (pv : Slot) (cs : List stb__chunk) (s1 s5 s6 : State) (tr : List Event)
    (hid : stb__identify (incFree s) p = some 2)
    (hpv : getPrevn (incFree s) p = some (some pv))
    (hnx : getNext (incFree s) p = some none)
    (hws : writeSlot (incFree s) pv none = some s1)
    (hnx1 : getNext s1 p = some none)
    (hcs : getChunks s1 p = some cs)
    (hvr : validateReset (eraseOwnedNodes
      (bumpFree s1 ((cs.map fun c => c.alloc).sum)) (cs.map fun c => c.id)) p =
      some s5)
    (hch : stb_free_children fuel s5 p = some (s6, tr)) :
    stb_free_go (fuel + 1) s (some p) =
      some (s6, (cs.map fun c => Event.freeChunk c.id) ++ tr) ∧
    tr.getLast? = some (.freeHeader p) ∧
    ∀ e ∈ cs.map fun c => Event.freeChunk c.id, isChunkEvent e = true := by
  refine ⟨?_, stb_free_children_last fuel s5 p s6 tr hch, ?_⟩
  · simp only [stb_free_go, hid, hpv, hnx, hws, hnx1, hcs, hvr, hch]
  · intro e he
    obtain ⟨c, _, hc⟩ := List.mem_map.mp he
    rw [← hc]
    rfl

/-- Witness for stb_free_alloc_frees_chunks_first on the concrete heap c3S
(arena 10 with chunk 7 and child 20), with every intermediate state spelled
out. -/
theorem stb_free_alloc_frees_chunks_first_witness :
    stb_free_go 5 c3S (some 10) =
      some (c3Sp, ([⟨7, 1000, 65536, 100, 1⟩] : List stb__chunk).map
        (fun c => Event.freeChunk c.id) ++ [.freeHeader 20, .freeHeader 10]) ∧
    ([Event.freeHeader 20, Event.freeHeader 10]).getLast? =
      some (.freeHeader 10) :=
  have h := stb_free_alloc_frees_chunks_first 4 c3S 10 (.childOf 0)
    [⟨7, 1000, 65536, 100, 1⟩]
    ⟨[(0, .salloc none none none []),
      (10, .salloc (some (.childOf 0)) (some 20) none [⟨7, 1000, 65536, 100, 1⟩]),
      (20, .salloc (some (.childOf 10)) none none [])], 0, 1⟩
    ⟨[(0, .salloc none none none []),
      (10, .salloc none (some 20) none []),
      (20, .salloc (some (.childOf 10)) none none [])], 0, 2⟩
    c3Sp [.freeHeader 20, .freeHeader 10]
    (by decide) (by decide) (by decide) (by decide) (by decide) (by decide)
    (by decide) (by decide)
  ⟨h.1, h.2.1⟩

/-- C6 counterexample: the raw chunk slice at 30 sits next to a word reading
tag 3, so stb_free on it is not a no-op but the assert(0) default arm; and
the slice is destroyed (without any stb_free on it) when its owning arena 10
is freed, its backing chunk 500 being handed to STB__ALLOC_FREE. -/
theorem stb_free_raw_not_noop_cex :
    getNode c6S 30 = some (.raw 3 500) ∧
    stb_free_go 5 c6S (some 30) = none ∧
    stb_free_go 5 c6S (some 10) =
      some (⟨[(0, .salloc none none none [])], 2, 2⟩,
        [.freeChunk 500, .freeHeader 10]) := by
  refine ⟨by decide, by decide, by decide⟩

/-- C6 (amended): stb_free on a chunked leaf (a block with an STB__chunked
header word) is a genuine no-op: the free counter is incremented and
immediately decremented back and the heap is untouched (lines 234-243), the
block staying logically alive until an ancestor arena is freed.  A raw chunk
slice however has no header at all: stb_free on one dispatches on whatever
word happens to precede the slice in memory, so it is that same harmless
no-op exactly when the word reads tag STB__chunked (low bits 1), and under
any other tag value the execution is undefined (a type-confused prevn access
for tags 0 and 2, the assert(0) arm for tag 3). -/
theorem stb_free_chunked_noop_raw_by_luck (fuel : Nat) (s : State) (p : Nat) :
    (∀ par oc, getNode s p = some (.chunked par oc) →
      stb_free_go (fuel + 1) s (some p) = some (s, [])) ∧
    (∀ w oc, getNode s p = some (.raw w oc) →
      (w % 4 = 1 → stb_free_go (fuel + 1) s (some p) = some (s, [])) ∧
      (w % 4 ≠ 1 → stb_free_go (fuel + 1) s (some p) = none)) := by
  constructor
  · intro par oc hp
    have hpi : getNode (incFree s) p = some (.chunked par oc) := hp
    have hid : stb__identify (incFree s) p = some 1 := by
      simp only [stb__identify, hpi]
    simp only [stb_free_go, hid]
    constructor
  · intro w oc hp
    have hpi : getNode (incFree s) p = some (.raw w oc) := hp
    have hid : stb__identify (incFree s) p = some (w % 4) := by
      simp only [stb__identify, hpi, stb__identify_word]
    have hpv : getPrevn (incFree s) p = none := by
      simp only [getPrevn, hpi]
    constructor
    · intro h1
      rw [h1] at hid
      simp only [stb_free_go, hid]
      constructor
    · intro h1
      have h4 : w % 4 < 4 := Nat.mod_lt w (by decide)
      set m := w % 4 with hmdef
      clear hmdef
      rcases m with _ | _ | _ | m3
      · simp only [stb_free_go, hid, hpv]
      · exact absurd rfl h1
      · simp only [stb_free_go, hid, hpv]
      · have hm3 : m3 = 0 := by omega
        subst hm3
        simp only [stb_free_go, hid]

/-- Witness for stb_free_chunked_noop_raw_by_luck: the chunked leaf in c6S2
survives its free untouched (the no-op), the accidentally tag-1 raw slice in
c6W likewise, and the tag-3 raw slice in c6S makes the free undefined. -/
theorem stb_free_chunked_noop_raw_by_luck_witness :
    stb_free_go 7 c6S2 (some 30) = some (c6S2, []) ∧
    stb_free_go 7 c6W (some 30) = some (c6W, []) ∧
    stb_free_go 7 c6S (some 30) = none :=
  ⟨(stb_free_chunked_noop_raw_by_luck 6 c6S2 30).1 10 500 (by decide),
   ((stb_free_chunked_noop_raw_by_luck 6 c6W 30).2 5 500 (by decide)).1 (by decide),
   ((stb_free_chunked_noop_raw_by_luck 6 c6S 30).2 3 500 (by decide)).2 (by decide)⟩

/-! Helper lemmas for the counter-ledger induction. -/

theorem stb__try_chunk_alloc (c c1 : stb__chunk) (size align pre : Int) (q : Nat)
    (h : stb__try_chunk c size align pre = some (c1, q)) : c1.alloc = c.alloc := by
  simp only [stb__try_chunk] at h
  by_cases hc : (0 : Int) ≤ c.data_left - size - ((c.base : Int) + (c.data_left - size)).emod align - pre
  · rw [if_pos hc] at h
    simp only [Option.some.injEq, Prod.mk.injEq] at h
    rw [← h.1]
  · rw [if_neg hc] at h
    exact Option.noConfusion h

theorem alloc_chunk_loop_ok_sum : ∀ (oracle : List (Option Nat)) (cs : List stb__chunk)
    (size align pre csz : Int) (cl' : List stb__chunk) (p cid : Nat),
    stb__alloc_chunk_loop oracle cs size align pre csz = .ok cl' p cid →
    (cl'.map fun c => c.alloc).sum = (cs.map fun c => c.alloc).sum + 1 := by
  intro oracle
  induction oracle with
  | nil =>
    intro cs size align pre csz cl' p cid h
    simp [stb__alloc_chunk_loop] at h
  | cons o rest ih =>
    intro cs size align pre csz cl' p cid h
    cases o with
    | none => simp [stb__alloc_chunk_loop] at h
    | some m =>
      simp only [stb__alloc_chunk_loop] at h
      cases htry : stb__try_chunk ⟨m, m + 16, csz, csz - chunkHeaderSize, 0⟩ size align pre with
      | some n1p =>
        obtain ⟨n1, q⟩ := n1p
        rw [htry] at h
        simp only [] at h
        by_cases hsz : size = csz
        · rw [if_pos hsz] at h
          injection h with h1 h2 h3
          rw [← h1, stb__sort_chunks_sum]
          simp [Nat.add_comm]
        · rw [if_neg hsz] at h
          injection h with h1 h2 h3
          rw [← h1]
          simp [Nat.add_comm]
      | none =>
        rw [htry] at h
        simp only [] at h
        exact ih cs size align pre _ cl' p cid h

theorem stb__alloc_chunk_ok_sum (oracle : List (Option Nat)) (cs : List stb__chunk)
    (size align pre : Int) (cl' : List stb__chunk) (p cid : Nat)
    (h : stb__alloc_chunk oracle cs size align pre = .ok cl' p cid) :
    (cl'.map fun c => c.alloc).sum = (cs.map fun c => c.alloc).sum + 1 := by
  cases cs with
  | nil =>
    simp only [stb__alloc_chunk] at h
    exact alloc_chunk_loop_ok_sum _ _ _ _ _ _ _ _ _ h
  | cons c rest =>
    by_cases hsz : size ≤ STB_ALLOC_CHUNK_SZ
    · cases htry1 : stb__try_chunk c size align pre with
      | some c1p =>
        obtain ⟨c1, q⟩ := c1p
        simp only [stb__alloc_chunk, if_pos hsz, htry1, CResult.ok.injEq] at h
        rw [← h.1]
        have := stb__try_chunk_alloc c c1 size align pre q htry1
        simp [this]
        omega
      | none =>
        cases rest with
        | nil =>
          simp only [stb__alloc_chunk, if_pos hsz, htry1] at h
          exact alloc_chunk_loop_ok_sum _ _ _ _ _ _ _ _ _ h
        | cons d rest2 =>
          cases htry2 : stb__try_chunk d size align pre with
          | some d1p =>
            obtain ⟨d1, q⟩ := d1p
            simp only [stb__alloc_chunk, if_pos hsz, htry1, htry2, CResult.ok.injEq] at h
            rw [← h.1]
            have := stb__try_chunk_alloc d d1 size align pre q htry2
            simp [this]
            omega
          | none =>
            simp only [stb__alloc_chunk, if_pos hsz, htry1, htry2] at h
            have := alloc_chunk_loop_ok_sum _ _ _ _ _ _ _ _ _ h
            rw [this, stb__sort_chunks_sum]
    · simp only [stb__alloc_chunk, if_neg hsz] at h
      exact alloc_chunk_loop_ok_sum _ _ _ _ _ _ _ _ _ h

theorem getChild_ne_zero (s : State) (b : Nat) (v : Option Nat)
    (hnz : noZeroRefsB s = true) (h : getChild s b = some v) : v ≠ some 0 := by
  cases hg : getNode s b with
  | none => simp [getChild, hg] at h
  | some nd =>
    cases nd with
    | salloc pv c nx cs =>
      simp only [getChild, hg, Option.some.injEq] at h
      subst h
      have := noZeroRefsB_node s b _ hnz hg
      simp only [nodeNoZeroB, Bool.and_eq_true, Bool.not_eq_true', beq_eq_false_iff_ne,
        ne_eq] at this
      exact this.1
    | nochildren nx pv => simp [getChild, hg] at h
    | chunked par oc => simp [getChild, hg] at h
    | raw w oc => simp [getChild, hg] at h

theorem getNext_ne_zero (s : State) (b : Nat) (v : Option Nat)
    (hnz : noZeroRefsB s = true) (h : getNext s b = some v) : v ≠ some 0 := by
  cases hg : getNode s b with
  | none => simp [getNext, hg] at h
  | some nd =>
    cases nd with
    | salloc pv c nx cs =>
      simp only [getNext, hg, Option.some.injEq] at h
      subst h
      have := noZeroRefsB_node s b _ hnz hg
      simp only [nodeNoZeroB, Bool.and_eq_true, Bool.not_eq_true', beq_eq_false_iff_ne,
        ne_eq] at this
      exact this.2
    | nochildren nx pv =>
      simp only [getNext, hg, Option.some.injEq] at h
      subst h
      have := noZeroRefsB_node s b _ hnz hg
      simp only [nodeNoZeroB, Bool.not_eq_true', beq_eq_false_iff_ne, ne_eq] at this
      exact this
    | chunked par oc => simp [getNext, hg] at h
    | raw w oc => simp [getNext, hg] at h

theorem noZeroRefsB_eraseNode (s : State) (p : Nat) (h : noZeroRefsB s = true) :
    noZeroRefsB (eraseNode s p) = true := by
  unfold noZeroRefsB at h ⊢
  rw [List.all_eq_true] at h ⊢
  intro e he
  exact h e (mem_eraseA s.mem p e he)

theorem zeroNodeB_eraseNode (s : State) (p : Nat) (hp : p ≠ 0) :
    zeroNodeB (eraseNode s p) = zeroNodeB s := by
  rw [zeroNodeB_eq, zeroNodeB_eq, getNode_eraseNode_ne s p 0 (fun hc => hp hc.symm)]

theorem getNode_eraseNode_self (s : State) (p : Nat) :
    getNode (eraseNode s p) p = none :=
  lookupA_eraseA_self s.mem p

theorem chunksCleared_eraseNode (s : State) (p r : Nat) (h : chunksCleared s r) :
    chunksCleared (eraseNode s p) r := by
  by_cases hr : r = p
  · subst hr
    unfold chunksCleared
    rw [getNode_eraseNode_self s r]
    exact trivial
  · unfold chunksCleared at h ⊢
    rw [getNode_eraseNode_ne s p r hr]
    exact h

theorem chunksCleared_setNode_ne (s : State) (a r : Nat) (n : Node) (hr : r ≠ a)
    (h : chunksCleared s r) : chunksCleared (setNode s a n) r := by
  unfold chunksCleared at h ⊢
  rw [getNode_setNode_ne s a r n hr]
  exact h

theorem zeroNodeB_pushNode (s : State) (a : Nat) (n : Node) (ha : a ≠ 0) :
    zeroNodeB (pushNode s a n) = zeroNodeB s := by
  rw [zeroNodeB_eq, zeroNodeB_eq, getNode_pushNode_ne s a 0 n (fun hc => ha hc.symm)]

theorem noZeroRefsB_pushNode (s : State) (a : Nat) (n : Node)
    (hn : nodeNoZeroB n = true) (h : noZeroRefsB s = true) :
    noZeroRefsB (pushNode s a n) = true := by
  unfold noZeroRefsB at h ⊢
  show ((a, n) :: s.mem).all (fun e => nodeNoZeroB e.2) = true
  rw [List.all_cons]
  simp only [hn, Bool.true_and]
  exact h

theorem keys_pushNode_nodup (s : State) (a : Nat) (n : Node)
    (hnd : (s.mem.map Prod.fst).Nodup) (hfresh : lookupA s.mem a = none) :
    ((pushNode s a n).mem.map Prod.fst).Nodup := by
  show ((a :: s.mem.map Prod.fst) : List Nat).Nodup
  exact List.nodup_cons.mpr ⟨(lookupA_eq_none_iff s.mem a).mp hfresh, hnd⟩

theorem setNode_wf_parts (s : State) (a : Nat) (old n : Node)
    (hg : getNode s a = some old)
    (hzero : a = 0 → nodePrevnNoneSalloc old = true → nodePrevnNoneSalloc n = true)
    (hnz : nodeNoZeroB old = true → nodeNoZeroB n = true) :
    (setNode s a n).mem.map Prod.fst = s.mem.map Prod.fst ∧
    (zeroNodeB s = true → zeroNodeB (setNode s a n) = true) ∧
    (noZeroRefsB s = true → noZeroRefsB (setNode s a n) = true) := by
  refine ⟨keys_updA s.mem a n, ?_, ?_⟩
  · intro hz
    by_cases ha : a = 0
    · subst ha
      obtain ⟨c, nx, cs, h0⟩ := zeroNodeB_inv s hz
      rw [h0] at hg
      injection hg with hg
      rw [zeroNodeB_node (setNode s 0 n) n (getNode_setNode_self s 0 n old (hg ▸ h0))]
      exact hzero rfl (by rw [← hg]; rfl)
    · rw [zeroNodeB_eq, getNode_setNode_ne s a 0 n (fun hc => ha hc.symm)]
      rw [zeroNodeB_eq] at hz
      exact hz
  · intro hn0
    unfold noZeroRefsB at hn0 ⊢
    rw [List.all_eq_true] at hn0 ⊢
    intro e he
    rcases mem_updA s.mem a n e he with h | h
    · exact hn0 e h
    · subst h
      exact hnz (noZeroRefsB_node s a old (by unfold noZeroRefsB; rw [List.all_eq_true]; exact hn0) hg)

theorem writeSlot_keeps_nochildren (s : State) (l : Slot) (v : Option Nat)
    (s' : State) (p : Nat) (nx : Option Nat) (pv : Option Slot)
    (h : writeSlot s l v = some s') (hp : getNode s p = some (.nochildren nx pv)) :
    ∃ nx2 pv2, getNode s' p = some (.nochildren nx2 pv2) := by
  cases l with
  | childOf a =>
    obtain ⟨pva, ca, nxa, csa, hga, hs⟩ := writeSlot_childOf_inv s a v s' h
    have hap : p ≠ a := by
      intro hc
      rw [hc, hga] at hp
      exact Option.noConfusion hp (fun hx => Node.noConfusion hx)
    rw [hs, getNode_setNode_ne s a p _ hap]
    exact ⟨nx, pv, hp⟩
  | nextOf a =>
    rcases writeSlot_nextOf_inv s a v s' h with ⟨pva, ca, nxa, csa, hga, hs⟩ | ⟨nxa, pva, hga, hs⟩
    · have hap : p ≠ a := by
        intro hc
        rw [hc, hga] at hp
        exact Option.noConfusion hp (fun hx => Node.noConfusion hx)
      rw [hs, getNode_setNode_ne s a p _ hap]
      exact ⟨nx, pv, hp⟩
    · by_cases hap : p = a
      · subst hap
        rw [hs]
        exact ⟨v, pva, getNode_setNode_self s p _ _ hga⟩
      · rw [hs, getNode_setNode_ne s a p _ hap]
        exact ⟨nx, pv, hp⟩

theorem setPrevnField_keeps_nochildren (s : State) (q : Nat) (v : Option Slot)
    (s' : State) (p : Nat) (nx : Option Nat) (pv : Option Slot)
    (h : setPrevnField s q v = some s') (hp : getNode s p = some (.nochildren nx pv)) :
    ∃ nx2 pv2, getNode s' p = some (.nochildren nx2 pv2) := by
  rcases setPrevnField_inv s q v s' h with ⟨pva, ca, nxa, csa, hga, hs⟩ | ⟨nxa, pva, hga, hs⟩
  · have hap : p ≠ q := by
      intro hc
      rw [hc, hga] at hp
      exact Option.noConfusion hp (fun hx => Node.noConfusion hx)
    rw [hs, getNode_setNode_ne s q p _ hap]
    exact ⟨nx, pv, hp⟩
  · by_cases hap : p = q
    · subst hap
      rw [hs]
      exact ⟨nxa, v, getNode_setNode_self s p _ _ hga⟩
    · rw [hs, getNode_setNode_ne s q p _ hap]
      exact ⟨nx, pv, hp⟩

theorem writeSlot_keeps_salloc_chunks (s : State) (l : Slot) (v : Option Nat)
    (s' : State) (p : Nat) (pv : Option Slot) (c nx : Option Nat)
    (cs : List stb__chunk)
    (h : writeSlot s l v = some s') (hp : getNode s p = some (.salloc pv c nx cs)) :
    ∃ pv2 c2 nx2, getNode s' p = some (.salloc pv2 c2 nx2 cs) := by
  cases l with
  | childOf a =>
    obtain ⟨pva, ca, nxa, csa, hga, hs⟩ := writeSlot_childOf_inv s a v s' h
    by_cases hap : p = a
    · subst hap
      rw [hga] at hp
      injection hp with hp
      rw [hs]
      refine ⟨pva, v, nxa, ?_⟩
      have := getNode_setNode_self s p (.salloc pva v nxa csa) _ hga
      rw [this]
      cases hp
      rfl
    · rw [hs, getNode_setNode_ne s a p _ hap]
      exact ⟨pv, c, nx, hp⟩
  | nextOf a =>
    rcases writeSlot_nextOf_inv s a v s' h with ⟨pva, ca, nxa, csa, hga, hs⟩ | ⟨nxa, pva, hga, hs⟩
    · by_cases hap : p = a
      · subst hap
        rw [hga] at hp
        injection hp with hp
        rw [hs]
        refine ⟨pva, ca, v, ?_⟩
        have := getNode_setNode_self s p (.salloc pva ca v csa) _ hga
        rw [this]
        cases hp
        rfl
      · rw [hs, getNode_setNode_ne s a p _ hap]
        exact ⟨pv, c, nx, hp⟩
    · have hap : p ≠ a := by
        intro hc
        rw [hc, hga] at hp
        exact Option.noConfusion hp (fun hx => Node.noConfusion hx)
      rw [hs, getNode_setNode_ne s a p _ hap]
      exact ⟨pv, c, nx, hp⟩

theorem setPrevnField_keeps_salloc_chunks (s : State) (q : Nat) (v : Option Slot)
    (s' : State) (p : Nat) (pv : Option Slot) (c nx : Option Nat)
    (cs : List stb__chunk)
    (h : setPrevnField s q v = some s') (hp : getNode s p = some (.salloc pv c nx cs)) :
    ∃ pv2 c2 nx2, getNode s' p = some (.salloc pv2 c2 nx2 cs) := by
  rcases setPrevnField_inv s q v s' h with ⟨pva, ca, nxa, csa, hga, hs⟩ | ⟨nxa, pva, hga, hs⟩
  · by_cases hap : p = q
    · subst hap
      rw [hga] at hp
      injection hp with hp
      rw [hs]
      refine ⟨v, ca, nxa, ?_⟩
      have := getNode_setNode_self s p (.salloc v ca nxa csa) _ hga
      rw [this]
      cases hp
      rfl
    · rw [hs, getNode_setNode_ne s q p _ hap]
      exact ⟨pv, c, nx, hp⟩
  · have hap : p ≠ q := by
      intro hc
      rw [hc, hga] at hp
      exact Option.noConfusion hp (fun hx => Node.noConfusion hx)
    rw [hs, getNode_setNode_ne s q p _ hap]
    exact ⟨pv, c, nx, hp⟩

theorem entryLive_salloc_sum (a : Nat) (pv : Option Slot) (c nx : Option Nat)
    (cl : List stb__chunk) (ha : a ≠ 0) :
    entryLive (a, .salloc pv c nx cl) = 1 + (cl.map fun c => c.alloc).sum := by
  simp [entryLive, ha]

theorem entryLive_salloc_zero (pv : Option Slot) (c nx : Option Nat)
    (cl : List stb__chunk) :
    entryLive (0, .salloc pv c nx cl) = (cl.map fun c => c.alloc).sum := by
  simp [entryLive, nodeChunkSum]

theorem stb__insert_alloc_benign (s : State) (src a : Nat) (s' : State)
    (hnd : (s.mem.map Prod.fst).Nodup) (hnz : noZeroRefsB s = true)
    (ha : a ≠ 0) (h : stb__insert_alloc s src a = some s') : benign s s' := by
  simp only [stb__insert_alloc, Option.bind_eq_bind] at h
  cases h1 : setPrevnField s a (some (.childOf src)) with
  | none => rw [h1] at h; simp at h
  | some sA =>
    rw [h1, Option.some_bind] at h
    have hb1 : benign s sA := benign_of_setPrevnField s a _ sA hnd h1 ha
    have hndA : (sA.mem.map Prod.fst).Nodup := by rw [hb1.2.2.1]; exact hnd
    have hnzA : noZeroRefsB sA = true := hb1.2.2.2.2.2.2.2 hnz
    cases h2 : getChild sA src with
    | none => rw [h2] at h; simp at h
    | some oc =>
      rw [h2, Option.some_bind] at h
      have hoc : oc ≠ some 0 := getChild_ne_zero sA src oc hnzA h2
      cases h3 : writeSlot sA (.nextOf a) oc with
      | none => rw [h3] at h; simp at h
      | some sB =>
        rw [h3, Option.some_bind] at h
        have hb2 : benign sA sB := benign_of_writeSlot sA _ oc sB hndA h3 hoc
        have hndB : (sB.mem.map Prod.fst).Nodup := by rw [hb2.2.2.1]; exact hndA
        have hnzB : noZeroRefsB sB = true := hb2.2.2.2.2.2.2.2 hnzA
        cases h4 : writeSlot sB (.childOf src) (some a) with
        | none => rw [h4] at h; simp at h
        | some sC =>
          rw [h4, Option.some_bind] at h
          have hb3 : benign sB sC := benign_of_writeSlot sB _ (some a) sC hndB h4
            (fun hc => ha (by injection hc))
          have hndC : (sC.mem.map Prod.fst).Nodup := by rw [hb3.2.2.1]; exact hndB
          have hnzC : noZeroRefsB sC = true := hb3.2.2.2.2.2.2.2 hnzB
          have hbs : benign s sC := benign_trans s sA sC hb1 (benign_trans sA sB sC hb2 hb3)
          cases h5 : getNext sC a with
          | none => rw [h5] at h; simp at h
          | some nxv =>
            rw [h5, Option.some_bind] at h
            cases nxv with
            | none =>
              simp only [Option.some.injEq] at h
              rw [← h]
              exact hbs
            | some q =>
              simp only [] at h
              have hq0 : q ≠ 0 := by
                intro hc
                subst hc
                exact getNext_ne_zero sC a (some 0) hnzC h5 rfl
              exact benign_trans s sC s' hbs
                (benign_of_setPrevnField sC q _ s' hndC h hq0)

theorem stb__insert_nochild_benign (s : State) (src a : Nat) (s' : State)
    (hnd : (s.mem.map Prod.fst).Nodup) (hnz : noZeroRefsB s = true)
    (ha : a ≠ 0) (h : stb__insert_nochild s src a = some s') : benign s s' := by
  simp only [stb__insert_nochild, Option.bind_eq_bind] at h
  cases h1 : setPrevnField s a (some (.childOf src)) with
  | none => rw [h1] at h; simp at h
  | some sA =>
    rw [h1, Option.some_bind] at h
    have hb1 : benign s sA := benign_of_setPrevnField s a _ sA hnd h1 ha
    have hndA : (sA.mem.map Prod.fst).Nodup := by rw [hb1.2.2.1]; exact hnd
    have hnzA : noZeroRefsB sA = true := hb1.2.2.2.2.2.2.2 hnz
    cases h2 : getChild sA src with
    | none => rw [h2] at h; simp at h
    | some oc =>
      rw [h2, Option.some_bind] at h
      have hoc : oc ≠ some 0 := getChild_ne_zero sA src oc hnzA h2
      cases h3 : writeSlot sA (.nextOf a) oc with
      | none => rw [h3] at h; simp at h
      | some sB =>
        rw [h3, Option.some_bind] at h
        have hb2 : benign sA sB := benign_of_writeSlot sA _ oc sB hndA h3 hoc
        have hndB : (sB.mem.map Prod.fst).Nodup := by rw [hb2.2.2.1]; exact hndA
        have hnzB : noZeroRefsB sB = true := hb2.2.2.2.2.2.2.2 hnzA
        cases h4 : writeSlot sB (.childOf src) (some a) with
        | none => rw [h4] at h; simp at h
        | some sC =>
          rw [h4, Option.some_bind] at h
          have hb3 : benign sB sC := benign_of_writeSlot sB _ (some a) sC hndB h4
            (fun hc => ha (by injection hc))
          have hndC : (sC.mem.map Prod.fst).Nodup := by rw [hb3.2.2.1]; exact hndB
          have hnzC : noZeroRefsB sC = true := hb3.2.2.2.2.2.2.2 hnzB
          have hbs : benign s sC := benign_trans s sA sC hb1 (benign_trans sA sB sC hb2 hb3)
          cases h5 : getNext sC a with
          | none => rw [h5] at h; simp at h
          | some nxv =>
            rw [h5, Option.some_bind] at h
            cases nxv with
            | none =>
              simp only [Option.some.injEq] at h
              rw [← h]
              exact hbs
            | some q =>
              simp only [] at h
              have hq0 : q ≠ 0 := by
                intro hc
                subst hc
                exact getNext_ne_zero sC a (some 0) hnzC h5 rfl
              exact benign_trans s sC s' hbs
                (benign_of_setPrevnField sC q _ s' hndC h hq0)

theorem malloc_ok_effects (s : State) (context : Option Nat) (size t : Nat)
    (align0 : Int) (hdr : Option Nat) (oracle : List (Option Nat)) (rawWord : Nat)
    (s' : State) (p : Nat) (hwf : WF s)
    (h : malloc_base s context size t align0 hdr oracle rawWord = .ok s' p) :
    WF s' ∧ s'.countAlloc = s.countAlloc + 1 ∧ s'.countFree = s.countFree ∧
    liveCount s' = liveCount s + 1 := by
  cases hctx : stb__get_context s context with
  | none => simp [malloc_base, hctx] at h
  | some src =>
    by_cases hpow : stb_is_pow2 (stb__auto_align size align0).toNat
    · simp only [malloc_base, hctx, hpow, Bool.not_true, Bool.false_eq_true,
        if_false] at h
      set t1 := (if t = 0 ∧ 8 < stb__auto_align size align0 then 2 else t) with ht1def
      clear ht1def
      rcases t1 with _ | _ | _ | _ | _ | t6
      · -- tag 0: STB__nochildren header malloc
        cases hdr with
        | none => simp at h
        | some a =>
          by_cases hfr : a = 0 ∨ (lookupA s.mem a).isSome = true
          · simp [hfr] at h
          · simp only [if_neg hfr] at h
            obtain ⟨ha0, hnsome⟩ := not_or.mp hfr
            have hfresh : lookupA s.mem a = none := by
              cases hx : lookupA s.mem a with
              | none => rfl
              | some n => rw [hx] at hnsome; simp at hnsome
            cases hins : stb__insert_nochild (pushNode s a (.nochildren none none)) src a with
            | none => rw [hins] at h; simp at h
            | some s2 =>
              rw [hins] at h
              simp only [] at h
              injection h with h1 h2
              have hnd1 : ((pushNode s a (.nochildren none none)).mem.map Prod.fst).Nodup :=
                keys_pushNode_nodup s a _ hwf.1 hfresh
              have hz1 : zeroNodeB (pushNode s a (.nochildren none none)) = true := by
                rw [zeroNodeB_pushNode s a _ ha0]
                exact hwf.2.1
              have hn1 : noZeroRefsB (pushNode s a (.nochildren none none)) = true :=
                noZeroRefsB_pushNode s a _ (by decide) hwf.2.2
              have hlive1 : liveCount (pushNode s a (.nochildren none none)) =
                  liveCount s + 1 := by
                rw [liveCount_pushNode]
                have he : entryLive (a, Node.nochildren none none) = 1 := by
                  simp [entryLive, ha0]
                omega
              have hbi : benign (pushNode s a (.nochildren none none)) s2 :=
                stb__insert_nochild_benign _ src a s2 hnd1 hn1 ha0 hins
              subst h1
              refine ⟨?_, ?_, ?_, ?_⟩
              · exact WF_of_benign _ s2 ⟨hnd1, hz1, hn1⟩ hbi
              · show s2.countAlloc + 1 = s.countAlloc + 1
                rw [hbi.1]
                rfl
              · show s2.countFree = s.countFree
                rw [hbi.2.1]
                rfl
              · show liveCount s2 = liveCount s + 1
                rw [hbi.2.2.2.1, hlive1]
      · -- tag 1: STB__chunked, carved from the context arena
        cases hcl : getChunks s src with
        | none => rw [hcl] at h; simp at h
        | some cl =>
          rw [hcl] at h
          simp only [] at h
          cases hac : stb__alloc_chunk oracle cl (int32 size)
              (if stb__auto_align size align0 < 8 then 8 else stb__auto_align size align0) 8 with
          | stuck => rw [hac] at h; simp at h
          | oom cl' =>
            rw [hac] at h
            simp only [] at h
            cases hset : setChunksOf s src cl' with
            | none => rw [hset] at h; simp at h
            | some s1 => rw [hset] at h; simp at h
          | ok cl' q cid =>
            rw [hac] at h
            simp only [] at h
            cases hset : setChunksOf s src cl' with
            | none => rw [hset] at h; simp at h
            | some s1 =>
              rw [hset] at h
              simp only [] at h
              by_cases hfr : q + 8 = 0 ∨ (lookupA s1.mem (q + 8)).isSome = true
              · rw [if_pos hfr] at h
                simp at h
              · rw [if_neg hfr] at h
                obtain ⟨hq0, hnsome⟩ := not_or.mp hfr
                have hfresh : lookupA s1.mem (q + 8) = none := by
                  cases hx : lookupA s1.mem (q + 8) with
                  | none => rfl
                  | some n => rw [hx] at hnsome; simp at hnsome
                injection h with h1 h2
                obtain ⟨pv, c, nx, cs0, hgsrc, hs1⟩ := setChunksOf_inv s src cl' s1 hset
                obtain ⟨pv2, c2, nx2, hg2⟩ := getChunks_inv s src cl hcl
                rw [hgsrc] at hg2
                simp only [Option.some.injEq, Node.salloc.injEq] at hg2
                obtain ⟨hpv, hc, hnx, hcs⟩ := hg2
                subst hcs
                have hsum : (cl'.map fun c => c.alloc).sum =
                    (cs0.map fun c => c.alloc).sum + 1 :=
                  stb__alloc_chunk_ok_sum _ _ _ _ _ _ _ _ hac
                have hentry : entryLive (src, Node.salloc pv c nx cl') =
                    entryLive (src, Node.salloc pv c nx cs0) + 1 := by
                  by_cases hsrc0 : src = 0
                  · subst hsrc0
                    rw [entryLive_salloc_zero, entryLive_salloc_zero]
                    omega
                  · rw [entryLive_salloc_sum src pv c nx cl' hsrc0,
                      entryLive_salloc_sum src pv c nx cs0 hsrc0]
                    omega
                have hlive1 : liveCount s1 = liveCount s + 1 := by
                  have hls := liveCount_setNode s src (.salloc pv c nx cl') _ hwf.1 hgsrc
                  rw [hs1]
                  omega
                have hwf1 : WF s1 := by
                  rw [hs1]
                  obtain ⟨hk, hz, hn⟩ := setNode_wf_parts s src _ (.salloc pv c nx cl') hgsrc
                    (fun _ hp => by
                      cases pv with
                      | none => rfl
                      | some x => exact absurd hp (by simp [nodePrevnNoneSalloc]))
                    (fun hno => hno)
                  exact ⟨hk ▸ hwf.1, hz hwf.2.1, hn hwf.2.2⟩
                subst h1
                refine ⟨?_, ?_, ?_, ?_⟩
                · show WF (pushNode s1 (q + 8) (.chunked src cid))
                  exact ⟨keys_pushNode_nodup s1 (q + 8) _ hwf1.1 hfresh,
                    by rw [zeroNodeB_pushNode s1 _ _ hq0]; exact hwf1.2.1,
                    noZeroRefsB_pushNode s1 _ _ rfl hwf1.2.2⟩
                · show s1.countAlloc + 1 = s.countAlloc + 1
                  rw [hs1]
                  rfl
                · show s1.countFree = s.countFree
                  rw [hs1]
                  rfl
                · show liveCount (pushNode s1 (q + 8) (.chunked src cid)) = liveCount s + 1
                  rw [liveCount_pushNode]
                  have he : entryLive (q + 8, Node.chunked src cid) = 0 := by
                    simp [entryLive, hq0]
                  omega
      · -- tag 2: STB__alloc header malloc
        cases hdr with
        | none => simp at h
        | some a =>
          by_cases hfr : a = 0 ∨ (lookupA s.mem a).isSome = true
          · simp [hfr] at h
          · simp only [if_neg hfr] at h
            obtain ⟨ha0, hnsome⟩ := not_or.mp hfr
            have hfresh : lookupA s.mem a = none := by
              cases hx : lookupA s.mem a with
              | none => rfl
              | some n => rw [hx] at hnsome; simp at hnsome
            cases hins : stb__insert_alloc (pushNode s a (.salloc none none none [])) src a with
            | none => rw [hins] at h; simp at h
            | some s2 =>
              rw [hins] at h
              simp only [] at h
              injection h with h1 h2
              have hnd1 : ((pushNode s a (.salloc none none none [])).mem.map Prod.fst).Nodup :=
                keys_pushNode_nodup s a _ hwf.1 hfresh
              have hz1 : zeroNodeB (pushNode s a (.salloc none none none [])) = true := by
                rw [zeroNodeB_pushNode s a _ ha0]
                exact hwf.2.1
              have hn1 : noZeroRefsB (pushNode s a (.salloc none none none [])) = true :=
                noZeroRefsB_pushNode s a _ (by decide) hwf.2.2
              have hlive1 : liveCount (pushNode s a (.salloc none none none [])) =
                  liveCount s + 1 := by
                rw [liveCount_pushNode]
                have he : entryLive (a, Node.salloc none none none []) = 1 := by
                  simp [entryLive, ha0]
                omega
              have hbi : benign (pushNode s a (.salloc none none none [])) s2 :=
                stb__insert_alloc_benign _ src a s2 hnd1 hn1 ha0 hins
              subst h1
              refine ⟨?_, ?_, ?_, ?_⟩
              · exact WF_of_benign _ s2 ⟨hnd1, hz1, hn1⟩ hbi
              · show s2.countAlloc + 1 = s.countAlloc + 1
                rw [hbi.1]
                rfl
              · show s2.countFree = s.countFree
                rw [hbi.2.1]
                rfl
              · show liveCount s2 = liveCount s + 1
                rw [hbi.2.2.2.1, hlive1]
      · -- tag 3: assert(0) arm
        simp at h
      · -- tag 4: STB__chunk_raw
        cases hcl : getChunks s src with
        | none => rw [hcl] at h; simp at h
        | some cl =>
          rw [hcl] at h
          simp only [] at h
          cases hac : stb__alloc_chunk oracle cl (int32 size)
              (stb__auto_align size align0) 0 with
          | stuck => rw [hac] at h; simp at h
          | oom cl' =>
            rw [hac] at h
            simp only [] at h
            cases hset : setChunksOf s src cl' with
            | none => rw [hset] at h; simp at h
            | some s1 => rw [hset] at h; simp at h
          | ok cl' q cid =>
            rw [hac] at h
            simp only [] at h
            cases hset : setChunksOf s src cl' with
            | none => rw [hset] at h; simp at h
            | some s1 =>
              rw [hset] at h
              simp only [] at h
              by_cases hfr : q = 0 ∨ (lookupA s1.mem q).isSome = true
              · rw [if_pos hfr] at h
                simp at h
              · rw [if_neg hfr] at h
                obtain ⟨hq0, hnsome⟩ := not_or.mp hfr
                have hfresh : lookupA s1.mem q = none := by
                  cases hx : lookupA s1.mem q with
                  | none => rfl
                  | some n => rw [hx] at hnsome; simp at hnsome
                injection h with h1 h2
                obtain ⟨pv, c, nx, cs0, hgsrc, hs1⟩ := setChunksOf_inv s src cl' s1 hset
                obtain ⟨pv2, c2, nx2, hg2⟩ := getChunks_inv s src cl hcl
                rw [hgsrc] at hg2
                simp only [Option.some.injEq, Node.salloc.injEq] at hg2
                obtain ⟨hpv, hc, hnx, hcs⟩ := hg2
                subst hcs
                have hsum : (cl'.map fun c => c.alloc).sum =
                    (cs0.map fun c => c.alloc).sum + 1 :=
                  stb__alloc_chunk_ok_sum _ _ _ _ _ _ _ _ hac
                have hentry : entryLive (src, Node.salloc pv c nx cl') =
                    entryLive (src, Node.salloc pv c nx cs0) + 1 := by
                  by_cases hsrc0 : src = 0
                  · subst hsrc0
                    rw [entryLive_salloc_zero, entryLive_salloc_zero]
                    omega
                  · rw [entryLive_salloc_sum src pv c nx cl' hsrc0,
                      entryLive_salloc_sum src pv c nx cs0 hsrc0]
                    omega
                have hlive1 : liveCount s1 = liveCount s + 1 := by
                  have hls := liveCount_setNode s src (.salloc pv c nx cl') _ hwf.1 hgsrc
                  rw [hs1]
                  omega
                have hwf1 : WF s1 := by
                  rw [hs1]
                  obtain ⟨hk, hz, hn⟩ := setNode_wf_parts s src _ (.salloc pv c nx cl') hgsrc
                    (fun _ hp => by
                      cases pv with
                      | none => rfl
                      | some x => exact absurd hp (by simp [nodePrevnNoneSalloc]))
                    (fun hno => hno)
                  exact ⟨hk ▸ hwf.1, hz hwf.2.1, hn hwf.2.2⟩
                subst h1
                refine ⟨?_, ?_, ?_, ?_⟩
                · show WF (pushNode s1 q (.raw rawWord cid))
                  exact ⟨keys_pushNode_nodup s1 q _ hwf1.1 hfresh,
                    by rw [zeroNodeB_pushNode s1 _ _ hq0]; exact hwf1.2.1,
                    noZeroRefsB_pushNode s1 _ _ rfl hwf1.2.2⟩
                · show s1.countAlloc + 1 = s.countAlloc + 1
                  rw [hs1]
                  rfl
                · show s1.countFree = s.countFree
                  rw [hs1]
                  rfl
                · show liveCount (pushNode s1 q (.raw rawWord cid)) = liveCount s + 1
                  rw [liveCount_pushNode]
                  have he : entryLive (q, Node.raw rawWord cid) = 0 := by
                    simp [entryLive, hq0]
                  omega
      · -- any other tag: assert(0) arm
        simp at h
    · simp [malloc_base, hctx, hpow] at h

theorem malloc_oom_effects (s : State) (context : Option Nat) (size t : Nat)
    (align0 : Int) (hdr : Option Nat) (oracle : List (Option Nat)) (rawWord : Nat)
    (s' : State) (hwf : WF s)
    (h : malloc_base s context size t align0 hdr oracle rawWord = .oom s') :
    WF s' ∧ s'.countAlloc = s.countAlloc ∧ s'.countFree = s.countFree ∧
    liveCount s' = liveCount s := by
  cases hctx : stb__get_context s context with
  | none => simp [malloc_base, hctx] at h
  | some src =>
    by_cases hpow : stb_is_pow2 (stb__auto_align size align0).toNat
    · simp only [malloc_base, hctx, hpow, Bool.not_true, Bool.false_eq_true,
        if_false] at h
      set t1 := (if t = 0 ∧ 8 < stb__auto_align size align0 then 2 else t) with ht1def
      clear ht1def
      have chunkCase : ∀ (cl cl' : List stb__chunk) (s1 : State),
          getChunks s src = some cl →
          (cl' = cl ∨ cl' = stb__sort_chunks cl) →
          setChunksOf s src cl' = some s1 →
          WF s1 ∧ s1.countAlloc = s.countAlloc ∧ s1.countFree = s.countFree ∧
          liveCount s1 = liveCount s := by
        intro cl cl' s1 hcl hdisj hset
        obtain ⟨pv, c, nx, cs0, hgsrc, hs1⟩ := setChunksOf_inv s src cl' s1 hset
        obtain ⟨pv2, c2, nx2, hg2⟩ := getChunks_inv s src cl hcl
        rw [hgsrc] at hg2
        simp only [Option.some.injEq, Node.salloc.injEq] at hg2
        obtain ⟨hpv, hc, hnx, hcs⟩ := hg2
        subst hcs
        have hsum : (cl'.map fun c => c.alloc).sum = (cs0.map fun c => c.alloc).sum := by
          rcases hdisj with hd | hd
          · rw [hd]
          · rw [hd, stb__sort_chunks_sum]
        have hentry : entryLive (src, Node.salloc pv c nx cl') =
            entryLive (src, Node.salloc pv c nx cs0) := by
          by_cases hsrc0 : src = 0
          · subst hsrc0
            rw [entryLive_salloc_zero, entryLive_salloc_zero]
            omega
          · rw [entryLive_salloc_sum src pv c nx cl' hsrc0,
              entryLive_salloc_sum src pv c nx cs0 hsrc0]
            omega
        have hlive1 : liveCount s1 = liveCount s := by
          have hls := liveCount_setNode s src (.salloc pv c nx cl') _ hwf.1 hgsrc
          rw [hs1]
          omega
        have hwf1 : WF s1 := by
          rw [hs1]
          obtain ⟨hk, hz, hn⟩ := setNode_wf_parts s src _ (.salloc pv c nx cl') hgsrc
            (fun _ hp => by
              cases pv with
              | none => rfl
              | some x => exact absurd hp (by simp [nodePrevnNoneSalloc]))
            (fun hno => hno)
          exact ⟨hk ▸ hwf.1, hz hwf.2.1, hn hwf.2.2⟩
        exact ⟨hwf1, by rw [hs1]; rfl, by rw [hs1]; rfl, hlive1⟩
      rcases t1 with _ | _ | _ | _ | _ | t6
      · cases hdr with
        | none =>
          injection h with h
          subst h
          exact ⟨hwf, rfl, rfl, rfl⟩
        | some a =>
          by_cases hfr : a = 0 ∨ (lookupA s.mem a).isSome = true
          · simp [hfr] at h
          · simp only [if_neg hfr] at h
            cases hins : stb__insert_nochild (pushNode s a (.nochildren none none)) src a with
            | none => rw [hins] at h; simp at h
            | some s2 => rw [hins] at h; simp at h
      · cases hcl : getChunks s src with
        | none => rw [hcl] at h; simp at h
        | some cl =>
          rw [hcl] at h
          simp only [] at h
          cases hac : stb__alloc_chunk oracle cl (int32 size)
              (if stb__auto_align size align0 < 8 then 8 else stb__auto_align size align0) 8 with
          | stuck => rw [hac] at h; simp at h
          | ok cl' q cid =>
            rw [hac] at h
            simp only [] at h
            cases hset : setChunksOf s src cl' with
            | none => rw [hset] at h; simp at h
            | some s1 =>
              rw [hset] at h
              simp only [] at h
              by_cases hfr : q + 8 = 0 ∨ (lookupA s1.mem (q + 8)).isSome = true
              · rw [if_pos hfr] at h
                simp at h
              · rw [if_neg hfr] at h
                simp at h
          | oom cl' =>
            rw [hac] at h
            simp only [] at h
            cases hset : setChunksOf s src cl' with
            | none => rw [hset] at h; simp at h
            | some s1 =>
              rw [hset] at h
              simp only [] at h
              injection h with h
              subst h
              exact chunkCase cl cl' s1 hcl
                (stb__alloc_chunk_oom oracle cl (int32 size)
                  (if stb__auto_align size align0 < 8 then 8 else stb__auto_align size align0)
                  8 cl' hac) hset
      · cases hdr with
        | none =>
          injection h with h
          subst h
          exact ⟨hwf, rfl, rfl, rfl⟩
        | some a =>
          by_cases hfr : a = 0 ∨ (lookupA s.mem a).isSome = true
          · simp [hfr] at h
          · simp only [if_neg hfr] at h
            cases hins : stb__insert_alloc (pushNode s a (.salloc none none none [])) src a with
            | none => rw [hins] at h; simp at h
            | some s2 => rw [hins] at h; simp at h
      · simp at h
      · cases hcl : getChunks s src with
        | none => rw [hcl] at h; simp at h
        | some cl =>
          rw [hcl] at h
          simp only [] at h
          cases hac : stb__alloc_chunk oracle cl (int32 size)
              (stb__auto_align size align0) 0 with
          | stuck => rw [hac] at h; simp at h
          | ok cl' q cid =>
            rw [hac] at h
            simp only [] at h
            cases hset : setChunksOf s src cl' with
            | none => rw [hset] at h; simp at h
            | some s1 =>
              rw [hset] at h
              simp only [] at h
              by_cases hfr : q = 0 ∨ (lookupA s1.mem q).isSome = true
              · rw [if_pos hfr] at h
                simp at h
              · rw [if_neg hfr] at h
                simp at h
          | oom cl' =>
            rw [hac] at h
            simp only [] at h
            cases hset : setChunksOf s src cl' with
            | none => rw [hset] at h; simp at h
            | some s1 =>
              rw [hset] at h
              simp only [] at h
              injection h with h
              subst h
              exact chunkCase cl cl' s1 hcl
                (stb__alloc_chunk_oom oracle cl (int32 size)
                  (stb__auto_align size align0) 0 cl' hac) hset
      · simp at h
    · simp [malloc_base, hctx, hpow] at h

theorem erase_nochildren_finish (s s2 : State) (p : Nat) (hwf : WF s)
    (hb : benign (incFree s) s2)
    (hshape : ∃ nx3 pv3, getNode s2 p = some (.nochildren nx3 pv3))
    (hp0 : p ≠ 0) :
    WF (eraseNode s2 p) ∧ (eraseNode s2 p).countAlloc = s.countAlloc ∧
    (eraseNode s2 p).countFree + liveCount (eraseNode s2 p) =
      s.countFree + liveCount s ∧
    (∀ r, chunksCleared s r → chunksCleared (eraseNode s2 p) r) := by
  obtain ⟨nx3, pv3, hg2⟩ := hshape
  have hnd2 : (s2.mem.map Prod.fst).Nodup := by
    rw [hb.2.2.1]
    exact hwf.1
  have hz2 : zeroNodeB s2 = true := hb.2.2.2.2.2.2.1 hwf.2.1
  have hn2 : noZeroRefsB s2 = true := hb.2.2.2.2.2.2.2 hwf.2.2
  have hle := liveCount_eraseNode s2 p _ hnd2 hg2
  have hone : entryLive (p, Node.nochildren nx3 pv3) = 1 := by
    simp [entryLive, hp0]
  have hcf : s2.countFree = s.countFree + 1 := by
    rw [hb.2.1]
    rfl
  have hlv : liveCount s2 = liveCount s := by
    rw [hb.2.2.2.1]
    rfl
  refine ⟨⟨keys_nodup_eraseA s2.mem p hnd2,
    by rw [zeroNodeB_eraseNode s2 p hp0]; exact hz2,
    noZeroRefsB_eraseNode s2 p hn2⟩, ?_, ?_, ?_⟩
  · show s2.countAlloc = s.countAlloc
    rw [hb.1]
    rfl
  · show s2.countFree + liveCount (eraseNode s2 p) = s.countFree + liveCount s
    omega
  · intro r hr
    exact chunksCleared_eraseNode s2 p r (hb.2.2.2.2.2.1 r hr)

theorem free_salloc_accounting (fuel : Nat) (s2 s5 s6 : State) (p : Nat)
    (cs0 : List stb__chunk) (tr0 : List Event)
    (ihq : ∀ (sa : State) (pa : Nat) (sb : State) (trb : List Event), WF sa → pa ≠ 0 →
      chunksCleared sa pa → stb_free_children fuel sa pa = some (sb, trb) →
      WF sb ∧ sb.countAlloc = sa.countAlloc ∧
      sb.countFree + liveCount sb + 1 = sa.countFree + liveCount sa ∧
      (∀ r, chunksCleared sa r → chunksCleared sb r))
    (hwf2 : WF s2) (hp0 : p ≠ 0)
    (hcs : getChunks s2 p = some cs0)
    (hvr : validateReset (eraseOwnedNodes (bumpFree s2 ((cs0.map fun c => c.alloc).sum))
      (cs0.map fun c => c.id)) p = some s5)
    (hch : stb_free_children fuel s5 p = some (s6, tr0)) :
    WF s6 ∧ s6.countAlloc = s2.countAlloc ∧
    s6.countFree + liveCount s6 + 1 = s2.countFree + liveCount s2 ∧
    (∀ r, chunksCleared s2 r → chunksCleared s6 r) := by
  have hnd3 : ((bumpFree s2 ((cs0.map fun c => c.alloc).sum)).mem.map Prod.fst).Nodup :=
    hwf2.1
  have heff := eraseOwned_effects (bumpFree s2 ((cs0.map fun c => c.alloc).sum))
    (cs0.map fun c => c.id) hnd3
  have hcs4 : getChunks (eraseOwnedNodes (bumpFree s2 ((cs0.map fun c => c.alloc).sum))
      (cs0.map fun c => c.id)) p = some cs0 := heff.2.2.2.2.1 p cs0 hcs
  obtain ⟨pv2, c2, nx2, cs2, hg4, hs5⟩ := validateReset_inv _ p s5 hvr
  have hcseq : cs2 = cs0 := by
    have h1 := getChunks_node _ p _ hg4
    simp only [nodeChunksF] at h1
    rw [hcs4] at h1
    injection h1 with h1
    exact h1.symm
  rw [hcseq] at hg4
  have hnd4 : ((eraseOwnedNodes (bumpFree s2 ((cs0.map fun c => c.alloc).sum))
      (cs0.map fun c => c.id)).mem.map Prod.fst).Nodup := heff.2.2.1
  have hls := liveCount_setNode _ p (.salloc none c2 none [])
    (.salloc pv2 c2 nx2 cs0) hnd4 hg4
  have hentry_old : entryLive (p, Node.salloc pv2 c2 nx2 cs0) =
      1 + (cs0.map fun c => c.alloc).sum := entryLive_salloc_sum p pv2 c2 nx2 cs0 hp0
  have hentry_new : entryLive (p, Node.salloc none c2 none []) = 1 := by
    rw [entryLive_salloc_sum p none c2 none [] hp0]
    simp
  have hlv4 : liveCount (eraseOwnedNodes (bumpFree s2 ((cs0.map fun c => c.alloc).sum))
      (cs0.map fun c => c.id)) = liveCount s2 := heff.2.2.2.1
  have hlive5 : liveCount s5 + (cs0.map fun c => c.alloc).sum = liveCount s2 := by
    rw [hs5]
    omega
  have hcf5 : s5.countFree = s2.countFree + (cs0.map fun c => c.alloc).sum := by
    rw [hs5]
    exact heff.2.1
  have hwf5 : WF s5 := by
    rw [hs5]
    obtain ⟨hk, hz, hn⟩ := setNode_wf_parts _ p (.salloc pv2 c2 nx2 cs0)
      (.salloc none c2 none []) hg4
      (fun h0 => absurd h0 hp0)
      (fun hno => by
        simp only [nodeNoZeroB, Bool.and_eq_true] at hno ⊢
        exact ⟨hno.1, by decide⟩)
    have hz4 : zeroNodeB (eraseOwnedNodes (bumpFree s2 ((cs0.map fun c => c.alloc).sum))
        (cs0.map fun c => c.id)) = true := heff.2.2.2.2.2.2.1 hwf2.2.1
    have hn4 : noZeroRefsB (eraseOwnedNodes (bumpFree s2 ((cs0.map fun c => c.alloc).sum))
        (cs0.map fun c => c.id)) = true := heff.2.2.2.2.2.2.2 hwf2.2.2
    exact ⟨hk ▸ hnd4, hz hz4, hn hn4⟩
  have hclr5 : chunksCleared s5 p := by
    unfold chunksCleared
    rw [hs5, getNode_setNode_self _ p _ _ hg4]
  obtain ⟨hwf6, ha6, hsum6, hpres6⟩ := ihq s5 p s6 tr0 hwf5 hp0 hclr5 hch
  refine ⟨hwf6, ?_, ?_, ?_⟩
  · rw [ha6, hs5]
    exact heff.1
  · omega
  · intro r hr
    refine hpres6 r ?_
    by_cases hrp : r = p
    · subst hrp
      exact hclr5
    · have h4 : chunksCleared (eraseOwnedNodes (bumpFree s2
          ((cs0.map fun c => c.alloc).sum)) (cs0.map fun c => c.id)) r :=
        heff.2.2.2.2.2.1 r hr
      rw [hs5]
      exact chunksCleared_setNode_ne _ p r _ hrp h4

theorem free_effects (fuel : Nat) :
    (∀ (s : State) (p : Option Nat) (s' : State) (tr : List Event), WF s →
      stb_free_go fuel s p = some (s', tr) →
      WF s' ∧ s'.countAlloc = s.countAlloc ∧
      s'.countFree + liveCount s' = s.countFree + liveCount s ∧
      (∀ r, chunksCleared s r → chunksCleared s' r)) ∧
    (∀ (s : State) (p : Nat) (s' : State) (tr : List Event), WF s → p ≠ 0 →
      chunksCleared s p → stb_free_children fuel s p = some (s', tr) →
      WF s' ∧ s'.countAlloc = s.countAlloc ∧
      s'.countFree + liveCount s' + 1 = s.countFree + liveCount s ∧
      (∀ r, chunksCleared s r → chunksCleared s' r)) := by
  induction fuel with
  | zero =>
    constructor
    · intro s p s' tr hwf h
      cases p with
      | none =>
        simp only [stb_free_go, Option.some.injEq, Prod.mk.injEq] at h
        obtain ⟨hs', htr⟩ := h
        subst hs'
        exact ⟨hwf, rfl, rfl, fun r hr => hr⟩
      | some p => simp [stb_free_go] at h
    · intro s p s' tr hwf hp0 hclr h
      simp [stb_free_children] at h
  | succ fuel ih =>
    obtain ⟨ihp, ihq⟩ := ih
    constructor
    · intro s p s' tr hwf h
      cases p with
      | none =>
        simp only [stb_free_go, Option.some.injEq, Prod.mk.injEq] at h
        obtain ⟨hs', htr⟩ := h
        subst hs'
        exact ⟨hwf, rfl, rfl, fun r hr => hr⟩
      | some p =>
        cases hg : getNode (incFree s) p with
        | none =>
          have hid : stb__identify (incFree s) p = none := by
            simp only [stb__identify, hg]
          simp only [stb_free_go, hid] at h
          exact Option.noConfusion h
        | some nd =>
          cases nd with
          | chunked par oc =>
            have hid : stb__identify (incFree s) p = some 1 := by
              simp only [stb__identify, hg]
            simp only [stb_free_go, hid, Option.some.injEq, Prod.mk.injEq] at h
            obtain ⟨hs', htr⟩ := h
            subst hs'
            refine ⟨hwf, rfl, ?_, fun r hr => hr⟩
            show s.countFree + 1 - 1 + liveCount s = s.countFree + liveCount s
            omega
          | nochildren nx pv =>
            have hid : stb__identify (incFree s) p = some 0 := by
              simp only [stb__identify, hg]
            simp only [stb_free_go, hid] at h
            have hpv : getPrevn (incFree s) p = some pv := by
              simp only [getPrevn, hg]
            rw [hpv] at h
            cases pv with
            | none => exact Option.noConfusion h
            | some pvv =>
              simp only [] at h
              have hnx : getNext (incFree s) p = some nx := by
                simp only [getNext, hg]
              rw [hnx] at h
              simp only [] at h
              cases hws : writeSlot (incFree s) pvv nx with
              | none => rw [hws] at h; simp at h
              | some s1 =>
                rw [hws] at h
                simp only [] at h
                have hp0 : p ≠ 0 := by
                  intro hc
                  subst hc
                  obtain ⟨c0, nx0, cs0, h00⟩ := zeroNodeB_inv s hwf.2.1
                  have h00i : getNode (incFree s) 0 = some (.salloc none c0 nx0 cs0) := h00
                  rw [h00i] at hg
                  exact Option.noConfusion hg (fun hx => Node.noConfusion hx)
                have hnxz : nx ≠ some 0 := getNext_ne_zero (incFree s) p nx hwf.2.2 hnx
                have hb1 : benign (incFree s) s1 :=
                  benign_of_writeSlot (incFree s) pvv nx s1 hwf.1 hws hnxz
                obtain ⟨nx2, pv2, hg1⟩ :=
                  writeSlot_keeps_nochildren (incFree s) pvv nx s1 p nx (some pvv) hws hg
                have hnx1 : getNext s1 p = some nx2 := by
                  simp only [getNext, hg1]
                rw [hnx1] at h
                cases nx2 with
                | none =>
                  simp only [Option.some.injEq, Prod.mk.injEq] at h
                  obtain ⟨hs', htr⟩ := h
                  subst hs'
                  exact erase_nochildren_finish s s1 p hwf hb1 ⟨none, pv2, hg1⟩ hp0
                | some q =>
                  have hpv1 : getPrevn s1 p = some pv2 := by
                    simp only [getPrevn, hg1]
                  rw [hpv1] at h
                  simp only [] at h
                  cases hsp : setPrevnField s1 q pv2 with
                  | none => rw [hsp] at h; simp at h
                  | some s2 =>
                    rw [hsp] at h
                    simp only [Option.some.injEq, Prod.mk.injEq] at h
                    obtain ⟨hs', htr⟩ := h
                    subst hs'
                    have hq0 : q ≠ 0 := by
                      intro hc
                      subst hc
                      exact getNext_ne_zero s1 p (some 0)
                        (hb1.2.2.2.2.2.2.2 hwf.2.2) hnx1 rfl
                    have hnd1 : (s1.mem.map Prod.fst).Nodup := by
                      rw [hb1.2.2.1]
                      exact hwf.1
                    have hb2 : benign s1 s2 :=
                      benign_of_setPrevnField s1 q pv2 s2 hnd1 hsp hq0
                    have hb : benign (incFree s) s2 := benign_trans _ s1 s2 hb1 hb2
                    obtain ⟨nx3, pv3, hg2⟩ :=
                      setPrevnField_keeps_nochildren s1 q pv2 s2 p (some q) pv2 hsp hg1
                    exact erase_nochildren_finish s s2 p hwf hb ⟨nx3, pv3, hg2⟩ hp0
          | salloc pv0 c0 nx0 cs0 =>
            have hid : stb__identify (incFree s) p = some 2 := by
              simp only [stb__identify, hg]
            simp only [stb_free_go, hid] at h
            have hpv : getPrevn (incFree s) p = some pv0 := by
              simp only [getPrevn, hg]
            rw [hpv] at h
            cases pv0 with
            | none => exact Option.noConfusion h
            | some pvv =>
              simp only [] at h
              have hnx : getNext (incFree s) p = some nx0 := by
                simp only [getNext, hg]
              rw [hnx] at h
              simp only [] at h
              cases hws : writeSlot (incFree s) pvv nx0 with
              | none => rw [hws] at h; simp at h
              | some s1 =>
                rw [hws] at h
                simp only [] at h
                have hp0 : p ≠ 0 := by
                  intro hc
                  subst hc
                  obtain ⟨c9, nx9, cs9, h00⟩ := zeroNodeB_inv s hwf.2.1
                  have h00i : getNode (incFree s) 0 = some (.salloc none c9 nx9 cs9) := h00
                  rw [h00i] at hg
                  simp only [Option.some.injEq, Node.salloc.injEq] at hg
                  exact Option.noConfusion hg.1
                have hnxz : nx0 ≠ some 0 := getNext_ne_zero (incFree s) p nx0 hwf.2.2 hnx
                have hb1 : benign (incFree s) s1 :=
                  benign_of_writeSlot (incFree s) pvv nx0 s1 hwf.1 hws hnxz
                obtain ⟨pv1, c1, nx1, hg1⟩ :=
                  writeSlot_keeps_salloc_chunks (incFree s) pvv nx0 s1 p
                    (some pvv) c0 nx0 cs0 hws hg
                have hnx1 : getNext s1 p = some nx1 := by
                  simp only [getNext, hg1]
                rw [hnx1] at h
                cases nx1 with
                | none =>
                  simp only [] at h
                  have hwf1 : WF s1 := WF_of_benign (incFree s) s1 hwf hb1
                  have hcs2 : getChunks s1 p = some cs0 := by
                    simp only [getChunks, hg1]
                  rw [hcs2] at h
                  simp only [] at h
                  cases hvr : validateReset (eraseOwnedNodes (bumpFree s1
                      ((cs0.map fun c => c.alloc).sum)) (cs0.map fun c => c.id)) p with
                  | none => rw [hvr] at h; simp at h
                  | some s5 =>
                    rw [hvr] at h
                    simp only [] at h
                    cases hch : stb_free_children fuel s5 p with
                    | none => rw [hch] at h; simp at h
                    | some r6 =>
                      obtain ⟨s6, tr0⟩ := r6
                      rw [hch] at h
                      simp only [Option.some.injEq, Prod.mk.injEq] at h
                      obtain ⟨hs', htr⟩ := h
                      subst hs'
                      obtain ⟨hwfA, haA, hsumA, hpresA⟩ :=
                        free_salloc_accounting fuel s1 s5 s6 p cs0 tr0 ihq hwf1 hp0
                          hcs2 hvr hch
                      refine ⟨hwfA, ?_, ?_, ?_⟩
                      · rw [haA, hb1.1]
                        rfl
                      · have hcf1 : s1.countFree = s.countFree + 1 := by
                          rw [hb1.2.1]
                          rfl
                        have hlv1 : liveCount s1 = liveCount s := by
                          rw [hb1.2.2.2.1]
                          rfl
                        omega
                      · intro r hr
                        exact hpresA r (hb1.2.2.2.2.2.1 r hr)
                | some q =>
                  have hpv1 : getPrevn s1 p = some pv1 := by
                    simp only [getPrevn, hg1]
                  rw [hpv1] at h
                  simp only [] at h
                  cases hsp : setPrevnField s1 q pv1 with
                  | none => rw [hsp] at h; simp at h
                  | some s2 =>
                    rw [hsp] at h
                    simp only [] at h
                    have hq0 : q ≠ 0 := by
                      intro hc
                      subst hc
                      exact getNext_ne_zero s1 p (some 0)
                        (hb1.2.2.2.2.2.2.2 hwf.2.2) hnx1 rfl
                    have hnd1 : (s1.mem.map Prod.fst).Nodup := by
                      rw [hb1.2.2.1]
                      exact hwf.1
                    have hb2 : benign s1 s2 :=
                      benign_of_setPrevnField s1 q pv1 s2 hnd1 hsp hq0
                    have hb : benign (incFree s) s2 := benign_trans _ s1 s2 hb1 hb2
                    obtain ⟨pv3, c3, nx3, hg2⟩ :=
                      setPrevnField_keeps_salloc_chunks s1 q pv1 s2 p pv1 c1
                        (some q) cs0 hsp hg1
                    have hwf2 : WF s2 := WF_of_benign (incFree s) s2 hwf hb
                    have hcs2 : getChunks s2 p = some cs0 := by
                      simp only [getChunks, hg2]
                    rw [hcs2] at h
                    simp only [] at h
                    cases hvr : validateReset (eraseOwnedNodes (bumpFree s2
                        ((cs0.map fun c => c.alloc).sum)) (cs0.map fun c => c.id)) p with
                    | none => rw [hvr] at h; simp at h
                    | some s5 =>
                      rw [hvr] at h
                      simp only [] at h
                      cases hch : stb_free_children fuel s5 p with
                      | none => rw [hch] at h; simp at h
                      | some r6 =>
                        obtain ⟨s6, tr0⟩ := r6
                        rw [hch] at h
                        simp only [Option.some.injEq, Prod.mk.injEq] at h
                        obtain ⟨hs', htr⟩ := h
                        subst hs'
                        obtain ⟨hwfA, haA, hsumA, hpresA⟩ :=
                          free_salloc_accounting fuel s2 s5 s6 p cs0 tr0 ihq hwf2 hp0
                            hcs2 hvr hch
                        refine ⟨hwfA, ?_, ?_, ?_⟩
                        · rw [haA, hb.1]
                          rfl
                        · have hcf2 : s2.countFree = s.countFree + 1 := by
                            rw [hb.2.1]
                            rfl
                          have hlv2 : liveCount s2 = liveCount s := by
                            rw [hb.2.2.2.1]
                            rfl
                          omega
                        · intro r hr
                          exact hpresA r (hb.2.2.2.2.2.1 r hr)
          | raw w oc =>
            have hid : stb__identify (incFree s) p = some (w % 4) := by
              simp only [stb__identify, hg, stb__identify_word]
            have hpvn : getPrevn (incFree s) p = none := by
              simp only [getPrevn, hg]
            have h4 : w % 4 < 4 := Nat.mod_lt w (by decide)
            rcases hm : w % 4 with _ | _ | _ | m3
            · rw [hm] at hid
              simp only [stb_free_go, hid, hpvn] at h
              exact Option.noConfusion h
            · rw [hm] at hid
              simp only [stb_free_go, hid, Option.some.injEq, Prod.mk.injEq] at h
              obtain ⟨hs', htr⟩ := h
              subst hs'
              refine ⟨hwf, rfl, ?_, fun r hr => hr⟩
              show s.countFree + 1 - 1 + liveCount s = s.countFree + liveCount s
              omega
            · rw [hm] at hid
              simp only [stb_free_go, hid, hpvn] at h
              exact Option.noConfusion h
            · rw [hm] at h4
              have hm3 : m3 = 0 := by omega
              subst hm3
              rw [hm] at hid
              simp only [stb_free_go, hid] at h
              exact Option.noConfusion h
    · intro s p s' tr hwf hp0 hclr h
      simp only [stb_free_children] at h
      cases hgc : getChild s p with
      | none => rw [hgc] at h; simp at h
      | some c =>
        rw [hgc] at h
        cases c with
        | none =>
          simp only [Option.some.injEq, Prod.mk.injEq] at h
          obtain ⟨hs', htr⟩ := h
          subst hs'
          have hshape : ∃ pv nx cs, getNode s p = some (.salloc pv none nx cs) := by
            cases hgn : getNode s p with
            | none => simp [getChild, hgn] at hgc
            | some nd =>
              cases nd with
              | salloc pv c2 nx cs =>
                simp only [getChild, hgn, Option.some.injEq] at hgc
                subst hgc
                exact ⟨pv, nx, cs, rfl⟩
              | nochildren nx pv => simp [getChild, hgn] at hgc
              | chunked par oc => simp [getChild, hgn] at hgc
              | raw w oc => simp [getChild, hgn] at hgc
          obtain ⟨pv, nx, cs, hgn⟩ := hshape
          have hcs : cs = [] := by
            unfold chunksCleared at hclr
            rw [hgn] at hclr
            exact hclr
          subst hcs
          have hle := liveCount_eraseNode s p _ hwf.1 hgn
          have hone : entryLive (p, Node.salloc pv none nx []) = 1 := by
            rw [entryLive_salloc_sum p pv none nx [] hp0]
            simp
          refine ⟨⟨keys_nodup_eraseA s.mem p hwf.1,
            by rw [zeroNodeB_eraseNode s p hp0]; exact hwf.2.1,
            noZeroRefsB_eraseNode s p hwf.2.2⟩, rfl, ?_, ?_⟩
          · show s.countFree + liveCount (eraseNode s p) + 1 = s.countFree + liveCount s
            omega
          · intro r hr
            exact chunksCleared_eraseNode s p r hr
        | some q =>
          simp only [] at h
          cases hfg : stb_free_go fuel s (some q) with
          | none => rw [hfg] at h; simp at h
          | some r1 =>
            obtain ⟨s1, tr1⟩ := r1
            rw [hfg] at h
            simp only [] at h
            cases hc2 : stb_free_children fuel s1 p with
            | none => rw [hc2] at h; simp at h
            | some r2 =>
              obtain ⟨s2x, tr2⟩ := r2
              rw [hc2] at h
              simp only [Option.some.injEq, Prod.mk.injEq] at h
              obtain ⟨hs', htr⟩ := h
              subst hs'
              obtain ⟨hwf1, ha1, hsum1, hpres1⟩ := ihp s (some q) s1 tr1 hwf hfg
              obtain ⟨hwf2, ha2, hsum2, hpres2⟩ :=
                ihq s1 p s2x tr2 hwf1 hp0 (hpres1 p hclr) hc2
              exact ⟨hwf2, by rw [ha2, ha1], by omega,
                fun r hr => hpres2 r (hpres1 r hr)⟩

theorem stepOp_effects (s : State) (op : Op) (s' : State) (hwf : WF s)
    (h : stepOp s op = some s') :
    WF s' ∧ (s.countAlloc = s.countFree + liveCount s →
      s'.countAlloc = s'.countFree + liveCount s') := by
  cases op with
  | alloc c sz tg al hd orc rwv =>
    simp only [stepOp] at h
    cases hm : malloc_base s c sz tg al hd orc rwv with
    | stuck => rw [hm] at h; simp at h
    | ok s1 q =>
      rw [hm] at h
      simp only [Option.some.injEq] at h
      subst h
      obtain ⟨hwf1, ha, hf, hl⟩ := malloc_ok_effects s c sz tg al hd orc rwv s1 q hwf hm
      exact ⟨hwf1, fun hbal => by omega⟩
    | oom s1 =>
      rw [hm] at h
      simp only [Option.some.injEq] at h
      subst h
      obtain ⟨hwf1, ha, hf, hl⟩ := malloc_oom_effects s c sz tg al hd orc rwv s1 hwf hm
      exact ⟨hwf1, fun hbal => by omega⟩
  | free q fuel =>
    simp only [stepOp] at h
    cases hf : stb_free_go fuel s q with
    | none => rw [hf] at h; simp at h
    | some r1 =>
      obtain ⟨s1, tr1⟩ := r1
      rw [hf] at h
      simp only [Option.some.injEq] at h
      subst h
      obtain ⟨hwf1, ha, hsum, hpres⟩ := (free_effects fuel).1 s q s1 tr1 hwf hf
      exact ⟨hwf1, fun hbal => by omega⟩

theorem runOps_effects (ops : List Op) : ∀ (s s' : State), WF s →
    runOps ops s = some s' →
    WF s' ∧ (s.countAlloc = s.countFree + liveCount s →
      s'.countAlloc = s'.countFree + liveCount s') := by
  induction ops with
  | nil =>
    intro s s' hwf h
    simp only [runOps, Option.some.injEq] at h
    subst h
    exact ⟨hwf, fun hb => hb⟩
  | cons op t ih =>
    intro s s' hwf h
    simp only [runOps] at h
    cases hst : stepOp s op with
    | none => rw [hst] at h; simp at h
    | some s1 =>
      rw [hst] at h
      simp only [] at h
      obtain ⟨hwf1, hbal1⟩ := stepOp_effects s op s1 hwf hst
      obtain ⟨hwf2, hbal2⟩ := ih s1 s' hwf1 h
      exact ⟨hwf2, fun hb => hbal2 (hbal1 hb)⟩

/-- C7: over any sequence of allocator calls executed from the initial state,
the diagnostic counters balance: stb_alloc_count_alloc equals
stb_alloc_count_free plus the number of currently live counted allocations
(each reachable header once, each chunk carve through its chunk's alloc
counter, the cascade free crediting the free counter once per released
allocation including the per-chunk suballocation counts).  Moreover every
successful allocation of any kind increments the allocation counter by
exactly one, leaves the free counter alone, and creates exactly one new live
allocation. -/
theorem stb_alloc_counter_invariant (ops : List Op) (s : State)
    (h : runOps ops initState = some s) :
    s.countAlloc = s.countFree + liveCount s ∧
    (∀ (s1 : State) (c : Option Nat) (sz tg : Nat) (al : Int) (hd : Option Nat)
      (orc : List (Option Nat)) (rwv : Nat) (s2 : State) (q : Nat), WF s1 →
      malloc_base s1 c sz tg al hd orc rwv = .ok s2 q →
      s2.countAlloc = s1.countAlloc + 1 ∧ s2.countFree = s1.countFree ∧
      liveCount s2 = liveCount s1 + 1) := by
  constructor
  · have hwf0 : WF initState := ⟨by decide, by decide, by decide⟩
    exact (runOps_effects ops initState s hwf0 h).2 (by decide)
  · intro s1 c sz tg al hd orc rwv s2 q hwf1 hm
    obtain ⟨_, ha, hf, hl⟩ := malloc_ok_effects s1 c sz tg al hd orc rwv s2 q hwf1 hm
    exact ⟨ha, hf, hl⟩

/-- Witness for stb_alloc_counter_invariant: allocate one arena under the
global arena, then free it; the counters balance in the final state. -/
theorem stb_alloc_counter_invariant_witness :
    runOps c7ops initState = some c7final ∧
    c7final.countAlloc = c7final.countFree + liveCount c7final :=
  ⟨by decide, (stb_alloc_counter_invariant c7ops c7final (by decide)).1⟩

end StbAlloc
